import Mathlib

/-!
# hashdb: the scan and import facade of libhashdb.cpp and the hash-data store

A shallow embedding of `src_libhashdb/libhashdb.cpp` (scan_manager_t, import_manager_t,
escape_json, provide_source_information).  A `std::string` is a `String` whose characters
stand for the bytes, `uint64_t` and `uint32_t` values are natural numbers, a `std::stringstream`
is the `String` written so far, and a `std::set` that is only searched and inserted into is
a list read through membership.
-/

namespace hashdb

/-! ## JSON helpers of libhashdb.cpp -/

/-- One step of the `switch` of `escape_json` (libhashdb.cpp:82-92): the text written for one
character. -/
def escape_char (c : Char) : String :=
  if c = Char.ofNat 92 then "\\\\"
  else if c = Char.ofNat 34 then "\\\""
  else if c = Char.ofNat 47 then "\\/"
  else if c = Char.ofNat 8 then "\\b"
  else if c = Char.ofNat 12 then "\\f"
  else if c = Char.ofNat 10 then "\\n"
  else if c = Char.ofNat 13 then "\\r"
  else if c = Char.ofNat 9 then "\\t"
  else String.singleton c

/-- The function `escape_json` (libhashdb.cpp:77-95): the loop over the characters of the input,
each appended to the stream through the `switch`. -/
def escape_json (input : String) : String :=
  input.data.foldl (fun ss c => ss ++ escape_char c) ""

/-- One lowercase hexadecimal digit. -/
def hex_digit (n : Nat) : Char :=
  if n < 10 then Char.ofNat (48 + n) else Char.ofNat (87 + n)

/-- Modelled from the spec: `to_hex.hpp` is not among the sources; section 6 gives the
`file_hash` as hex, taken here as two lowercase hexadecimal digits per byte. -/
def to_hex (s : String) : String :=
  String.mk (s.data.flatMap fun c => [hex_digit (c.toNat / 16 % 16), hex_digit (c.toNat % 16)])

/-! ## CRC-32 -/

/-- One bit of the reflected CRC-32 division (polynomial 0xEDB88320). -/
def crc32_bit (c : Nat) : Nat :=
  if c % 2 = 1 then (c / 2) ^^^ 0xEDB88320 else c / 2

/-- One byte folded into the running CRC register. -/
def crc32_byte (c b : Nat) : Nat :=
  crc32_bit (crc32_bit (crc32_bit (crc32_bit (crc32_bit (crc32_bit (crc32_bit (crc32_bit
    (c ^^^ b))))))))

/-- Modelled from the spec: `crc32.h` is not among the sources; section 6 names the checksum
CRC-32.  This is `crc32(crc, buf, size)` in its usual chaining form: the previous value is
complemented, every byte is folded in, and the register is complemented again. -/
def crc32 (crc : Nat) (buf : List Nat) : Nat :=
  (buf.foldl crc32_byte (crc ^^^ 0xFFFFFFFF)) ^^^ 0xFFFFFFFF

/-- The eight bytes that `reinterpret_cast<const uint8_t*>(&x)` with `sizeof(uint64_t)` reads
from a `uint64_t` on a little-endian host. -/
def le64 (x : Nat) : List Nat :=
  (List.range 8).map fun i => x / 256 ^ i % 256

/-! ## scan_manager_t -/

/-- The (source id, file offset) pair `id_offset_pair_t`. -/
abbrev id_offset_pair_t := Nat × Nat

/-- The container `id_offset_pairs_t`, as the sequence its iterator walks from `begin()` to
`end()`. -/
abbrev id_offset_pairs_t := List id_offset_pair_t

/-- The container `source_names_t` (a `std::set` of name pairs), in iteration order. -/
abbrev source_names_t := List (String × String)

/-- The return value and the four output parameters of `find_hash` and of the hash-data
manager's `find`. -/
structure hash_result where
  matched : Bool
  low_entropy_label : String
  entropy : Nat
  block_label : String
  pairs : id_offset_pairs_t
deriving DecidableEq, Repr

/-- The four output parameters of `find_source_data`. -/
structure source_data_t where
  file_binary_hash : String
  filesize : Nat
  file_type : String
  low_entropy_count : Nat
deriving DecidableEq, Repr

/-- The class `scan_manager_t` (libhashdb.cpp:368-383).  The headers of the LMDB managers are
not among the sources, so each manager is present through the lookup that libhashdb.cpp calls
on it; `hashes` and `source_ids` are the two memo sets "for scan_expanded". -/
structure scan_manager_t where
  lmdb_hash_manager_find : String → Bool
  lmdb_hash_data_manager_find : String → hash_result
  lmdb_source_data_manager_find : Nat → source_data_t
  lmdb_source_name_manager_find : Nat → source_names_t
  hashes : List String
  source_ids : List Nat

/-- The method `scan_manager_t::find_hash` (libhashdb.cpp:491-508). -/
def scan_manager_t.find_hash (sm : scan_manager_t) (binary_hash : String) : hash_result :=
  if sm.lmdb_hash_manager_find binary_hash = true then
    -- hash may be present so use hash data manager
    sm.lmdb_hash_data_manager_find binary_hash
  else
    -- hash is not present so return false
    { matched := false, low_entropy_label := "", entropy := 0, block_label := "", pairs := [] }

/-- The method `scan_manager_t::find_source_data` (libhashdb.cpp:518-525). -/
def scan_manager_t.find_source_data (sm : scan_manager_t) (source_id : Nat) : source_data_t :=
  sm.lmdb_source_data_manager_find source_id

/-- The method `scan_manager_t::find_source_names` (libhashdb.cpp:527-530). -/
def scan_manager_t.find_source_names (sm : scan_manager_t) (source_id : Nat) : source_names_t :=
  sm.lmdb_source_name_manager_find source_id

/-- The loop over the name pairs in `provide_source_information` (libhashdb.cpp:126-140), with
the counter `i` and the stream `ss`. -/
def provide_names : source_names_t → Nat → String → String
  | [], _, ss => ss
  | it :: rest, i, ss =>
    -- put comma before all but first name pair
    let ss := if i > 0 then ss ++ "," else ss
    -- provide name pair
    let ss := ss ++ "\x7b\"repository_name\":\"" ++ escape_json it.1
       ++ "\",\"filename\":\"" ++ escape_json it.2
       ++ "\"\x7d"
    provide_names rest (i + 1) ss

/-- The helper `provide_source_information` (libhashdb.cpp:98-146): what it appends to the
stream `ss` for one source id. -/
def provide_source_information (manager : scan_manager_t) (source_id : Nat) (ss : String) :
    String :=
  -- read source data
  let d := manager.find_source_data source_id
  -- read source names
  let source_names := manager.find_source_names source_id
  -- provide source data
  let ss := ss ++ "\x7b\"source_id\":" ++ toString source_id
     ++ "\"file_hash\":\"" ++ to_hex d.file_binary_hash ++ "\""
     ++ ",\"filesize\":" ++ toString d.filesize
     ++ ",\"file_type\":\"" ++ d.file_type ++ "\""
     ++ ",\"low_entropy_count\":" ++ toString d.low_entropy_count
  -- provide source names
  let ss := ss ++ ",\"names\"["
  let ss := provide_names source_names 0 ss
  -- close source names list and source data
  ss ++ "]\x7d"

/-- The first loop of `find_expanded_hash` (libhashdb.cpp:437-441): the CRC chained over the
source id of every pair. -/
def source_list_id : id_offset_pairs_t → Nat → Nat
  | [], crc => crc
  | it :: rest, crc => source_list_id rest (crc32 crc (le64 it.1))

/-- The second loop of `find_expanded_hash` (libhashdb.cpp:448-456) over the memo set
`source_ids` and the stream `ss`: sources that have not been printed yet are remembered and
printed. -/
def provide_sources (manager : scan_manager_t) :
    id_offset_pairs_t → List Nat → String → List Nat × String
  | [], source_ids, ss => (source_ids, ss)
  | it :: rest, source_ids, ss =>
    if it.1 ∉ source_ids then
      -- remember this source ID to skip it later
      -- provide the complete source information for this source ID
      provide_sources manager rest (it.1 :: source_ids)
        (provide_source_information manager it.1 ss)
    else
      provide_sources manager rest source_ids ss

/-- The third loop of `find_expanded_hash` (libhashdb.cpp:463-475), with the counter `i` and
the stream `ss`. -/
def provide_id_offset_pairs : id_offset_pairs_t → Nat → String → String
  | [], _, ss => ss
  | it :: rest, i, ss =>
    -- put comma before all but first id_offset pair
    let ss := if i > 0 then ss ++ "," else ss
    -- provide pair
    let ss := ss ++ toString it.1 ++ "," ++ toString it.2
    provide_id_offset_pairs rest (i + 1) ss

/-- The scan manager after a call of `find_expanded_hash`, its return value and the output
parameter `expanded_text`. -/
structure expanded_t where
  manager : scan_manager_t
  matched : Bool
  expanded_text : String

/-- The method `scan_manager_t::find_expanded_hash` (libhashdb.cpp:401-489). -/
def scan_manager_t.find_expanded_hash (sm : scan_manager_t) (binary_hash : String) :
    expanded_t :=
  -- scan
  let r := sm.find_hash binary_hash
  -- done if no match
  if r.matched = false then
    { manager := sm, matched := false, expanded_text := "" }
  -- done if matched before
  else if binary_hash ∈ sm.hashes then
    { manager := sm, matched := true, expanded_text := "" }
  else
    -- remember this hash match to skip it later
    let hashes := binary_hash :: sm.hashes
    -- prepare JSON
    let ss := "["
    -- provide JSON object[0]: source_list_id
    let crc := source_list_id r.pairs 0
    let ss := ss ++ "\x7b\"source_list_id\":" ++ toString crc ++ "\x7d"
    -- provide JSON object[1]: sources with their source data and names list
    let ss := ss ++ ",\x7b\"sources\":["
    -- print any sources that have not been printed yet
    let p := provide_sources sm r.pairs sm.source_ids ss
    -- close JSON object[1]
    let ss := p.2 ++ "]\x7d"
    -- provide JSON object[2]: id_offset_pairs
    let ss := ss ++ ",\x7b\"id_offset_pairs\":["
    let ss := provide_id_offset_pairs r.pairs 0 ss
    -- close JSON object[2]
    let ss := ss ++ "]\x7d"
    -- close JSON
    let ss := ss ++ "]"
    { manager := { sm with hashes := hashes, source_ids := p.1 },
      matched := true, expanded_text := ss }

/-- A session on one scan manager: the calls of `find_expanded_hash` made one after the other,
giving the manager left by the last call. -/
def scan_manager_t.run (sm : scan_manager_t) : List String → scan_manager_t
  | [] => sm
  | h :: rest => scan_manager_t.run (sm.find_expanded_hash h).manager rest

/-! ## import_manager_t -/

/-- What libhashdb.cpp calls on the hash-data manager and on the hash manager, whose headers
are not among the sources.  Each manager object owns the state of its own store (`HD` for
`lmdb_hash_data_manager`, `HS` for `lmdb_hash_manager`); `C` is `lmdb_changes_t`, which
`insert` receives by reference. -/
structure hash_managers_t (HD HS C : Type) where
  hash_data_insert : HD → String → Nat → Nat → String → Nat → String → C → HD × C × Bool
  hash_data_find : HD → String → hash_result
  hash_find : HS → String → Bool

/-- The members of `import_manager_t` (libhashdb.cpp:295-309) that hold hash state, and the
change counters. -/
structure import_manager_t (HD HS C : Type) where
  lmdb_hash_data_manager : HD
  lmdb_hash_manager : HS
  changes : C

/-- The method `import_manager_t::insert_hash` (libhashdb.cpp:344-352): the manager afterwards
and the returned flag. -/
def import_manager_t.insert_hash {HD HS C : Type} (ops : hash_managers_t HD HS C)
    (im : import_manager_t HD HS C) (binary_hash : String) (source_id file_offset : Nat)
    (low_entropy_label : String) (entropy : Nat) (block_label : String) :
    import_manager_t HD HS C × Bool :=
  let r := ops.hash_data_insert im.lmdb_hash_data_manager binary_hash source_id file_offset
    low_entropy_label entropy block_label im.changes
  ({ im with lmdb_hash_data_manager := r.1, changes := r.2.1 }, r.2.2)

/-- The constructor `scan_manager_t::scan_manager_t` (libhashdb.cpp:368-383) on the database
an import manager has written: the managers are opened on the stores and the two memo sets
start empty. -/
def scan_manager_t.on {HD HS C : Type} (ops : hash_managers_t HD HS C)
    (im : import_manager_t HD HS C) (source_data : Nat → source_data_t)
    (source_names : Nat → source_names_t) : scan_manager_t :=
  { lmdb_hash_manager_find := ops.hash_find im.lmdb_hash_manager,
    lmdb_hash_data_manager_find := ops.hash_data_find im.lmdb_hash_data_manager,
    lmdb_source_data_manager_find := source_data,
    lmdb_source_name_manager_find := source_names,
    hashes := [],
    source_ids := [] }

/-! ## The hash-data store (spec section 4.I) -/

/-- Modelled from the spec: `lmdb_hash_data_manager.hpp` is not among the sources.  The settings
of section 3 that the hash-data manager works under: `sector_size`, `max_id_offset_pairs` (the
limit on the number of source entries of a record) and `max_sub_count` (the limit on the file
offsets of one source entry). -/
structure hash_data_settings_t where
  sector_size : Nat
  max_id_offset_pairs : Nat
  max_sub_count : Nat
deriving DecidableEq, Repr

/-- Modelled from the spec: `lmdb_changes.hpp` is not among the sources.  The change counters
of section 3 that the hash-data manager moves. -/
structure lmdb_changes_t where
  hash_data_source_inserted : Nat
  hash_data_offset_inserted : Nat
  hash_data_data_changed : Nat
  hash_data_duplicate_offset_detected : Nat
  hash_data_mismatched_sub_count_detected : Nat
deriving DecidableEq, Repr

/-- Modelled from the spec: the SourceEntry of section 3, a source id with its `sub_count` and
its set of file offsets (held in ascending order). -/
structure source_id_offsets_t where
  source_id : Nat
  sub_count : Nat
  file_offsets : List Nat
deriving DecidableEq, Repr

/-- Modelled from the spec: the logical hash-data record of section 3, to which the three
representation tiers decode: entropy, block label, total count and the source entries in
ascending source id order.  The entropy is only stored and compared, so a number stands for
it. -/
structure hash_data_record_t where
  entropy : Nat
  block_label : String
  count : Nat
  sources : List source_id_offsets_t
deriving DecidableEq, Repr

/-- Byte order on keys: the lexicographic order of section 4.A. -/
def key_lt : List Char → List Char → Bool
  | _, [] => false
  | [], _ :: _ => true
  | a :: as, b :: bs => decide (a.toNat < b.toNat) || (decide (a.toNat = b.toNat) && key_lt as bs)

/-- Modelled from the spec: the hash-data table of section 4.A, the rows in key order. -/
abbrev hash_data_table_t := List (String × hash_data_record_t)

/-- Point get of section 4.A. -/
def table_get (key : String) : hash_data_table_t → Option hash_data_record_t
  | [] => none
  | (k, r) :: rest => if k = key then some r else table_get key rest

/-- Point put of section 4.A: the row of the key is replaced, or a new row is placed in key
order. -/
def table_put (key : String) (record : hash_data_record_t) : hash_data_table_t → hash_data_table_t
  | [] => [(key, record)]
  | (k, r) :: rest =>
    if k = key then (key, record) :: rest
    else if key_lt key.data k.data then (key, record) :: (k, r) :: rest
    else (k, r) :: table_put key record rest

/-- Modelled from the spec: the hash-data manager of section 4.I, its settings and its table. -/
structure lmdb_hash_data_manager_t where
  settings : hash_data_settings_t
  table : hash_data_table_t
deriving DecidableEq, Repr

/-- Modelled from the spec: a manager on a new, empty table, as the tests create it. -/
def lmdb_hash_data_manager_t.create (settings : hash_data_settings_t) :
    lmdb_hash_data_manager_t :=
  { settings := settings, table := [] }

/-- Modelled from the spec: "Block label is truncated to the configured maximum before
storage", the maximum being 10 bytes (section 3). -/
def truncate_block_label (block_label : String) : String :=
  String.mk (block_label.data.take 10)

/-- Modelled from the spec: the single-offset rule of section 4.I.  An offset already in the set
counts as a duplicate; a new one is added while the set holds fewer than `max_sub_count`
offsets and is silently dropped otherwise. -/
def add_file_offset (settings : hash_data_settings_t) (file_offsets : List Nat)
    (changes : lmdb_changes_t) (file_offset : Nat) : List Nat × lmdb_changes_t :=
  if file_offset ∈ file_offsets then
    (file_offsets, { changes with
      hash_data_duplicate_offset_detected := changes.hash_data_duplicate_offset_detected + 1 })
  else if file_offsets.length < settings.max_sub_count then
    (file_offsets.orderedInsert (· ≤ ·) file_offset, { changes with
      hash_data_offset_inserted := changes.hash_data_offset_inserted + 1 })
  else
    (file_offsets, changes)

/-- Modelled from the spec: "Each offset in `file_offsets` is applied with the single-offset
rules". -/
def add_file_offsets (settings : hash_data_settings_t) :
    List Nat → List Nat → lmdb_changes_t → List Nat × lmdb_changes_t
  | [], file_offsets, changes => (file_offsets, changes)
  | o :: rest, file_offsets, changes =>
    let p := add_file_offset settings file_offsets changes o
    add_file_offsets settings rest p.1 p.2

/-- The source entry of a source id, if the record has one. -/
def find_source_entry (source_id : Nat) :
    List source_id_offsets_t → Option source_id_offsets_t
  | [] => none
  | e :: rest => if e.source_id = source_id then some e else find_source_entry source_id rest

/-- The source entry of a source id rewritten in place. -/
def replace_source_entry (entry : source_id_offsets_t) :
    List source_id_offsets_t → List source_id_offsets_t
  | [] => []
  | e :: rest =>
    if e.source_id = entry.source_id then entry :: rest
    else e :: replace_source_entry entry rest

/-- A new source entry placed in ascending source id order. -/
def insert_source_entry (entry : source_id_offsets_t) :
    List source_id_offsets_t → List source_id_offsets_t
  | [] => [entry]
  | e :: rest =>
    if entry.source_id < e.source_id then entry :: e :: rest
    else e :: insert_source_entry entry rest

/-- Modelled from the spec: the write path of section 4.I on the source entries of one record.
An existing source gets the offsets added and its `sub_count` raised by the contributed value
(a bulk insert whose `sub_count` differs from the stored one is counted as mismatched); a new
source gets an entry unless the record already holds `max_id_offset_pairs` entries. -/
def update_source_entries (settings : hash_data_settings_t) (source_id sub_count : Nat)
    (file_offsets : List Nat) (bulk : Bool) (sources : List source_id_offsets_t)
    (changes : lmdb_changes_t) : List source_id_offsets_t × lmdb_changes_t :=
  match find_source_entry source_id sources with
  | some e =>
    let changes := if bulk = true ∧ e.sub_count ≠ sub_count then
      { changes with hash_data_mismatched_sub_count_detected :=
          changes.hash_data_mismatched_sub_count_detected + 1 }
      else changes
    let p := add_file_offsets settings file_offsets e.file_offsets changes
    (replace_source_entry
      { source_id := source_id, sub_count := e.sub_count + sub_count, file_offsets := p.1 }
      sources, p.2)
  | none =>
    if sources.length < settings.max_id_offset_pairs then
      let changes := { changes with
        hash_data_source_inserted := changes.hash_data_source_inserted + 1 }
      let p := add_file_offsets settings file_offsets [] changes
      (insert_source_entry
        { source_id := source_id, sub_count := sub_count, file_offsets := p.1 } sources, p.2)
    else
      (sources, changes)

/-- The manager and the change counters after an insert, and the count it returns. -/
structure insert_result_t where
  manager : lmdb_hash_data_manager_t
  changes : lmdb_changes_t
  count : Nat
deriving DecidableEq, Repr

/-- Modelled from the spec: the insert of section 4.I with its input validation (an empty hash
key or an offset that is not a multiple of `sector_size` returns 0 and changes nothing), the
header overwrite counted in `data_changed`, and the aggregate count raised by the contributed
`sub_count` whether or not a cap dropped the source or an offset. -/
def lmdb_hash_data_manager_t.write (m : lmdb_hash_data_manager_t) (hash : String)
    (entropy : Nat) (block_label : String) (source_id sub_count : Nat) (file_offsets : List Nat)
    (bulk : Bool) (changes : lmdb_changes_t) : insert_result_t :=
  if hash = "" then
    { manager := m, changes := changes, count := 0 }
  else if file_offsets.any (fun o => decide (o % m.settings.sector_size ≠ 0)) = true then
    { manager := m, changes := changes, count := 0 }
  else
    let label := truncate_block_label block_label
    match table_get hash m.table with
    | none =>
      let p := update_source_entries m.settings source_id sub_count file_offsets bulk [] changes
      let record : hash_data_record_t :=
        { entropy := entropy, block_label := label, count := sub_count, sources := p.1 }
      { manager := { m with table := table_put hash record m.table }, changes := p.2,
        count := record.count }
    | some r =>
      let changes := if r.entropy = entropy ∧ r.block_label = label then changes else
        { changes with hash_data_data_changed := changes.hash_data_data_changed + 1 }
      let p := update_source_entries m.settings source_id sub_count file_offsets bulk
        r.sources changes
      let record : hash_data_record_t :=
        { entropy := entropy, block_label := label, count := r.count + sub_count,
          sources := p.1 }
      { manager := { m with table := table_put hash record m.table }, changes := p.2,
        count := record.count }

/-- Modelled from the spec: `insert(hash, entropy, block_label, source_id, file_offset,
changes)`, one sighting at one offset. -/
def lmdb_hash_data_manager_t.insert (m : lmdb_hash_data_manager_t) (hash : String)
    (entropy : Nat) (block_label : String) (source_id file_offset : Nat)
    (changes : lmdb_changes_t) : insert_result_t :=
  m.write hash entropy block_label source_id 1 [file_offset] false changes

/-- Modelled from the spec: `insert(hash, entropy, block_label, source_id, sub_count,
file_offsets, changes)`, the bulk form. -/
def lmdb_hash_data_manager_t.insert_bulk (m : lmdb_hash_data_manager_t) (hash : String)
    (entropy : Nat) (block_label : String) (source_id sub_count : Nat)
    (file_offsets : List Nat) (changes : lmdb_changes_t) : insert_result_t :=
  m.write hash entropy block_label source_id sub_count file_offsets true changes

/-- The return value and the output parameters of the hash-data manager's `find`. -/
structure find_result_t where
  found : Bool
  entropy : Nat
  block_label : String
  count : Nat
  source_id_offsets : List source_id_offsets_t
deriving DecidableEq, Repr

/-- Modelled from the spec: the read path of section 4.I; an absent key gives
(false, 0, "", 0, no entries). -/
def lmdb_hash_data_manager_t.find (m : lmdb_hash_data_manager_t) (hash : String) :
    find_result_t :=
  match table_get hash m.table with
  | none => { found := false, entropy := 0, block_label := "", count := 0,
              source_id_offsets := [] }
  | some r => { found := true, entropy := r.entropy, block_label := r.block_label,
                count := r.count, source_id_offsets := r.sources }

/-- Modelled from the spec: `find_count(hash)`, the count of the record or 0. -/
def lmdb_hash_data_manager_t.find_count (m : lmdb_hash_data_manager_t) (hash : String) : Nat :=
  match table_get hash m.table with
  | none => 0
  | some r => r.count

/-- Modelled from the spec: `first_hash()`, the first key in key order or "". -/
def lmdb_hash_data_manager_t.first_hash (m : lmdb_hash_data_manager_t) : String :=
  match m.table with
  | [] => ""
  | (k, _) :: _ => k

/-- One insert call: the single-offset form or the bulk form, with its arguments. -/
inductive insert_call_t where
  | single (hash : String) (entropy : Nat) (block_label : String)
      (source_id file_offset : Nat)
  | bulk (hash : String) (entropy : Nat) (block_label : String)
      (source_id sub_count : Nat) (file_offsets : List Nat)
deriving DecidableEq, Repr

/-- The hash key an insert call is for. -/
def insert_call_t.hash : insert_call_t → String
  | .single hash _ _ _ _ => hash
  | .bulk hash _ _ _ _ _ => hash

/-- The insert call applied to a manager and its change counters. -/
def insert_call_t.apply (c : insert_call_t) (m : lmdb_hash_data_manager_t)
    (changes : lmdb_changes_t) : insert_result_t :=
  match c with
  | .single hash entropy block_label source_id file_offset =>
    m.insert hash entropy block_label source_id file_offset changes
  | .bulk hash entropy block_label source_id sub_count file_offsets =>
    m.insert_bulk hash entropy block_label source_id sub_count file_offsets changes

/-- A sequence of insert calls made one after the other on a manager. -/
def lmdb_hash_data_manager_t.inserts (m : lmdb_hash_data_manager_t) (changes : lmdb_changes_t) :
    List insert_call_t → lmdb_hash_data_manager_t × lmdb_changes_t
  | [] => (m, changes)
  | c :: rest =>
    let r := c.apply m changes
    lmdb_hash_data_manager_t.inserts r.manager r.changes rest

/-- The sum of `sub_count` over source entries. -/
def sum_sub_count (sources : List source_id_offsets_t) : Nat :=
  (sources.map fun e => e.sub_count).sum

/-- No change counter has moved. -/
def no_changes : lmdb_changes_t := ⟨0, 0, 0, 0, 0⟩

/-- The source id an insert call is for. -/
def insert_call_t.source_id : insert_call_t → Nat
  | .single _ _ _ source_id _ => source_id
  | .bulk _ _ _ source_id _ _ => source_id

/-- The `sub_count` an insert call contributes: 1 for the single-offset form. -/
def insert_call_t.sub_count : insert_call_t → Nat
  | .single _ _ _ _ _ => 1
  | .bulk _ _ _ _ sub_count _ => sub_count

/-- The file offsets an insert call brings. -/
def insert_call_t.file_offsets : insert_call_t → List Nat
  | .single _ _ _ _ file_offset => [file_offset]
  | .bulk _ _ _ _ _ file_offsets => file_offsets

/-- The insert call passes the input validation: its hash key is not empty and its offsets are
multiples of `sector_size`. -/
def insert_call_t.valid (c : insert_call_t) (settings : hash_data_settings_t) : Bool :=
  decide (c.hash ≠ "") && c.file_offsets.all fun o => decide (o % settings.sector_size = 0)

/-- The source entries stored for a hash, none when the hash has no record. -/
def lmdb_hash_data_manager_t.sources (m : lmdb_hash_data_manager_t) (hash : String) :
    List source_id_offsets_t :=
  (m.find hash).source_id_offsets

/-- The insert call meets the source cap: it is valid, the record of its hash has no entry for
its source and already holds `max_id_offset_pairs` entries, so no source entry takes its
`sub_count`. -/
def insert_call_t.capped (c : insert_call_t) (m : lmdb_hash_data_manager_t) : Bool :=
  c.valid m.settings
    && (find_source_entry c.source_id (m.sources c.hash)).isNone
    && decide (¬ (m.sources c.hash).length < m.settings.max_id_offset_pairs)

/-- The sightings of a hash that met the source cap during a sequence of insert calls: the sum
of the `sub_count` of those calls. -/
def capped_sub_count (hash : String) (m : lmdb_hash_data_manager_t) (changes : lmdb_changes_t) :
    List insert_call_t → Nat
  | [] => 0
  | c :: rest =>
    (if c.hash = hash ∧ c.capped m = true then c.sub_count else 0)
      + capped_sub_count hash (c.apply m changes).manager (c.apply m changes).changes rest

/-- Every record of the table is within the caps: at most `max_id_offset_pairs` source entries,
each with at most `max_sub_count` file offsets. -/
def table_within_caps (settings : hash_data_settings_t) (t : hash_data_table_t) : Prop :=
  ∀ key r, table_get key t = some r →
    r.sources.length ≤ settings.max_id_offset_pairs ∧
    ∀ e ∈ r.sources, e.file_offsets.length ≤ settings.max_sub_count

/-- The manager that a sequence of insert calls leaves when it starts on a new, empty table. -/
def hash_data_after (settings : hash_data_settings_t) (calls : List insert_call_t) :
    lmdb_hash_data_manager_t :=
  ((lmdb_hash_data_manager_t.create settings).inserts no_changes calls).1

/-! ## What one expansion writes -/

/-- The text that `provide_source_information` writes for one source id. -/
def source_information (manager : scan_manager_t) (source_id : Nat) : String :=
  provide_source_information manager source_id ""

/-- The source ids that the second loop of `find_expanded_hash` prints: those of the pairs, in
order, that are not in the memo set when their pair is reached. -/
def printed_source_ids : id_offset_pairs_t → List Nat → List Nat
  | [], _ => []
  | it :: rest, source_ids =>
    if it.1 ∉ source_ids then it.1 :: printed_source_ids rest (it.1 :: source_ids)
    else printed_source_ids rest source_ids

/-- The call of `find_expanded_hash` is an expansion: the hash is matched and was not matched
before, so the JSON text is built. -/
def scan_manager_t.expands (sm : scan_manager_t) (binary_hash : String) : Bool :=
  (sm.find_hash binary_hash).matched && decide (binary_hash ∉ sm.hashes)

/-- The source ids whose source information a call of `find_expanded_hash` emits. -/
def scan_manager_t.emitted (sm : scan_manager_t) (binary_hash : String) : List Nat :=
  if sm.expands binary_hash = true then
    printed_source_ids (sm.find_hash binary_hash).pairs sm.source_ids
  else []

/-- The source ids emitted by each call of a session, call by call. -/
def scan_manager_t.trace (sm : scan_manager_t) : List String → List (List Nat)
  | [] => []
  | h :: rest => sm.emitted h :: scan_manager_t.trace (sm.find_expanded_hash h).manager rest

/-- The source ids of the pairs, one per pair. -/
def pair_source_ids (pairs : id_offset_pairs_t) : List Nat :=
  pairs.map Prod.fst

/-- The pairs flattened as id, offset, id, offset and so on, each number in decimal. -/
def flattened_pairs (pairs : id_offset_pairs_t) : List String :=
  pairs.flatMap fun p => [toString p.1, toString p.2]

/-- JSON object[0] of an expansion. -/
def source_list_id_object (crc : Nat) : String :=
  "\x7b\"source_list_id\":" ++ toString crc ++ "\x7d"

/-- JSON object[1] of an expansion, around the texts written for the printed sources. -/
def sources_object (sources : List String) : String :=
  "\x7b\"sources\":[" ++ String.join sources ++ "]\x7d"

/-- JSON object[2] of an expansion: the flattened pairs separated by commas. -/
def id_offset_pairs_object (pairs : id_offset_pairs_t) : String :=
  "\x7b\"id_offset_pairs\":[" ++ ",".intercalate (flattened_pairs pairs) ++ "]\x7d"

/-- Two scan managers look up the same database: their managers answer alike. -/
def same_lookups (a b : scan_manager_t) : Prop :=
  a.lmdb_hash_manager_find = b.lmdb_hash_manager_find ∧
  a.lmdb_hash_data_manager_find = b.lmdb_hash_data_manager_find ∧
  a.lmdb_source_data_manager_find = b.lmdb_source_data_manager_find ∧
  a.lmdb_source_name_manager_find = b.lmdb_source_name_manager_find

/-- The order in which a set of (source id, offset) pairs is walked: by source id, then by
offset. -/
def pair_lt (p q : id_offset_pair_t) : Prop :=
  p.1 < q.1 ∨ (p.1 = q.1 ∧ p.2 < q.2)

/-! ## The pairs that the hash-data manager hands to `find_hash` -/

/-- Modelled from the spec: the (source id, offset) pairs of the source entries of a record, in
the order of section 8, property 7: "The id_offset_pairs list enumerates SourceEntries in
ascending source_id order and offsets in ascending order". -/
def id_offset_pairs_of (sources : List source_id_offsets_t) : id_offset_pairs_t :=
  sources.flatMap fun e => e.file_offsets.map fun o => (e.source_id, o)

/-- Modelled from the spec: `find` of the hash-data manager in the form in which `find_hash`
calls it (libhashdb.cpp:500-501), on the read path of section 4.I, the pairs of the record
being the output.  The low entropy label is no part of the record of section 3; `labels` gives
it. -/
def lmdb_hash_data_manager_t.find_pairs (m : lmdb_hash_data_manager_t)
    (labels : String → String) (hash : String) : hash_result :=
  { matched := (m.find hash).found,
    low_entropy_label := if (m.find hash).found = true then labels hash else "",
    entropy := (m.find hash).entropy,
    block_label := (m.find hash).block_label,
    pairs := id_offset_pairs_of (m.find hash).source_id_offsets }

/-- The scan manager whose hash-data manager is opened on the given store. -/
def scan_manager_t.reading (sm : scan_manager_t) (store : lmdb_hash_data_manager_t)
    (labels : String → String) : scan_manager_t :=
  { sm with lmdb_hash_data_manager_find := store.find_pairs labels }

/-- The source entries are in ascending source id order, one entry per source id, and the file
offsets of every entry ascend. -/
def sources_ordered (sources : List source_id_offsets_t) : Prop :=
  (sources.map fun e => e.source_id).Pairwise (· < ·) ∧
  ∀ e ∈ sources, e.file_offsets.Pairwise (· < ·)

/-- Every record of the table has its source entries in order. -/
def table_ordered (t : hash_data_table_t) : Prop :=
  ∀ key r, table_get key t = some r → sources_ordered r.sources

/-! ## Source information against the grammar -/

/-- The method `scan_manager_t::find_expanded_source` (libhashdb.cpp:510-516). -/
def scan_manager_t.find_expanded_source (sm : scan_manager_t) (source_id : Nat) : String :=
  provide_source_information sm source_id ""

/-- The text that the loop of `provide_source_information` writes for one name pair
(libhashdb.cpp:137-139). -/
def name_pair_text (it : String × String) : String :=
  "\x7b\"repository_name\":\"" ++ escape_json it.1
    ++ "\",\"filename\":\"" ++ escape_json it.2
    ++ "\"\x7d"

/-- The source object as the grammar of section 6 has it, from the same members as
`provide_source_information` writes: a comma after every member, a colon after every key, the
name pairs separated by commas. -/
def source_information_grammar (manager : scan_manager_t) (source_id : Nat) : String :=
  "\x7b\"source_id\":" ++ toString source_id
    ++ ",\"file_hash\":\"" ++ to_hex (manager.find_source_data source_id).file_binary_hash ++ "\""
    ++ ",\"filesize\":" ++ toString (manager.find_source_data source_id).filesize
    ++ ",\"file_type\":\"" ++ (manager.find_source_data source_id).file_type ++ "\""
    ++ ",\"low_entropy_count\":" ++ toString (manager.find_source_data source_id).low_entropy_count
    ++ ",\"names\":["
    ++ ",".intercalate ((manager.find_source_names source_id).map name_pair_text)
    ++ "]\x7d"

/-- The eight characters that `escape_json` escapes: backslash, double quote, slash, backspace,
form feed, newline, carriage return and tab. -/
def escaped_chars : List Char :=
  [Char.ofNat 92, Char.ofNat 34, Char.ofNat 47, Char.ofNat 8, Char.ofNat 12, Char.ofNat 10,
   Char.ofNat 13, Char.ofNat 9]

/-- The letters that may follow a backslash in a JSON string by the escapes of section 6:
backslash, double quote, slash, b, f, n, r and t. -/
def escape_letters : List Char :=
  [Char.ofNat 92, Char.ofNat 34, Char.ofNat 47, Char.ofNat 98, Char.ofNat 102, Char.ofNat 110,
   Char.ofNat 114, Char.ofNat 116]

/-- The text between the double quotes of a JSON string literal is valid: it holds no raw
control character (code below 0x20), no unescaped double quote, and every backslash starts one
of the two-character escapes. -/
def valid_json_string_body : List Char → Bool
  | [] => true
  | c :: rest =>
    if c = Char.ofNat 92 then
      match rest with
      | [] => false
      | e :: rest2 => decide (e ∈ escape_letters) && valid_json_string_body rest2
    else if c = Char.ofNat 34 then false
    else if c.toNat < 32 then false
    else valid_json_string_body rest

/-! ## The file system under the settings store -/

/-- A regular file: what a stream reads from it, and whether it can be opened for reading. -/
structure file_t where
  contents : String
  readable : Bool
deriving DecidableEq, Repr

/-- A directory: its files by name, and whether entries can be created, renamed and removed in
it. -/
structure directory_t where
  writable : Bool
  files : String → Option file_t

/-- The part of the file system the settings store and `create_hashdb` work on: the
directories by path (`none` when `access(path, F_OK)` fails), and the paths at which `mkdir`
succeeds. -/
structure file_system_t where
  directories : String → Option directory_t
  creatable : String → Bool

/-- The directory with the file of one name replaced, removed when `none`. -/
def directory_t.set (d : directory_t) (name : String) (f : Option file_t) : directory_t :=
  { d with files := fun n => if n = name then f else d.files n }

/-- The file system with the directory at one path replaced. -/
def file_system_t.set (fs : file_system_t) (path : String) (d : directory_t) : file_system_t :=
  { fs with directories := fun p => if p = path then some d else fs.directories p }

/-- The call `std::remove(name)` in a directory: the entry goes when the directory is
writable. -/
def directory_t.remove (d : directory_t) (name : String) : directory_t :=
  if d.writable = true then d.set name none else d

/-- The status of `std::rename(from, to)` in a directory: 0 when the file exists and the
directory is writable. -/
def directory_t.rename_status (d : directory_t) (source : String) : Int :=
  if d.writable = true ∧ (d.files source).isSome = true then 0 else -1

/-- The directory after `std::rename(from, to)`: on success the file is under the new name and
the old name is gone. -/
def directory_t.rename (d : directory_t) (source target : String) : directory_t :=
  if d.rename_status source = 0 then (d.set target (d.files source)).set source none else d

/-! ## hashdb_settings_store.hpp -/

/-- The settings value as the two files use it: the fields that `read_settings`
(hashdb_settings_store.hpp:93-102) and `create_hashdb` (libhashdb.cpp:208-215) read and write,
under the names they have there.  The header that declares them, `hashdb_settings.hpp`, is not
among the sources, so the fields are natural numbers and an assignment stores the value as it
is. -/
structure hashdb_settings_t where
  expected_data_store_version : Nat
  data_store_version : Nat
  sector_size : Nat
  block_size : Nat
  max_id_offset_pairs : Nat
  hash_manager_hash_bytes : Nat
  hash_manager_key_bits : Nat
  hash_prefix_bits : Nat
  hash_suffix_bytes : Nat
deriving DecidableEq, Repr

/-- A member value of the parsed JSON object as `read_settings` looks at it: an unsigned
integer, for which `GetUint64()` is defined, or any other value. -/
inductive json_value_t where
  | uint64 (n : Nat)
  | other
deriving DecidableEq, Repr

/-- The rapidjson document after a parse without error, as `read_settings` looks at it: an
object with its members in order, or any other JSON value. -/
inductive json_document_t where
  | object (members : List (String × json_value_t))
  | other
deriving DecidableEq, Repr

/-- The expression `document[key].GetUint64()`.  rapidjson asserts that the member exists and
that it holds an unsigned integer; `none` stands for the failed assertion. -/
def get_uint64 (members : List (String × json_value_t)) (key : String) : Option Nat :=
  match members.lookup key with
  | some (json_value_t.uint64 n) => some n
  | _ => none

/-- The pieces of a text between its newline characters, the last one being what follows the
last newline. -/
def segments : List Char → List (List Char)
  | [] => [[]]
  | c :: rest =>
    if c = Char.ofNat 10 then [] :: segments rest
    else
      match segments rest with
      | [] => [[c]]
      | s :: ss => (c :: s) :: ss

/-- The loop "find and read the first line of content" (hashdb_settings_store.hpp:66-72) over
the pieces that `getline` delivers: the value of `line` when the loop is left.  An empty line
or a line that starts with the character # is skipped; at the last piece `line` holds that
piece whether `getline` failed on it, the stream being exhausted, or the loop was left. -/
def content_line : List (List Char) → List Char
  | [] => []
  | [last] => last
  | s :: rest =>
    if s.length = 0 ∨ s.head? = some (Char.ofNat 35) then content_line rest else s

/-- The value of `line` after the loop, for the contents of the settings file. -/
def settings_line (contents : String) : String :=
  String.mk (content_line (segments contents.data))

/-- What `read_settings` returns and the settings it leaves. -/
structure read_result_t where
  ok : Bool
  message : String
  settings : hashdb_settings_t
deriving DecidableEq, Repr

/-- The function `hashdb_settings_store::read_settings` (hashdb_settings_store.hpp:42-108).
`parse` is `document.Parse(line)` of rapidjson, `none` when `HasParseError()`; the result is
`none` when an assertion of rapidjson fails and the call does not return. -/
def read_settings (parse : String → Option json_document_t) (fs : file_system_t)
    (hashdb_dir : String) (settings : hashdb_settings_t) : Option read_result_t :=
  -- path must exist
  match fs.directories hashdb_dir with
  | none =>
    some ⟨false, "No hashdb at path \x27" ++ hashdb_dir ++ "\x27.", settings⟩
  | some d =>
    -- settings file must exist
    match d.files "settings.json" with
    | none =>
      some ⟨false, "Path \x27" ++ hashdb_dir ++ "\x27 is not a hashdb database.", settings⟩
    | some f =>
      -- open settings file
      if f.readable = false then
        some ⟨false, "Unable to open settings file at Path \x27" ++ hashdb_dir ++ ".", settings⟩
      else
        -- find and read the first line of content
        let line := settings_line f.contents
        if line.length = 0 then
          -- no first line
          some ⟨false, "Empty settings file at path \x27" ++ hashdb_dir ++ "\x27.", settings⟩
        else
          -- parse settings into a JSON DOM document
          match parse line with
          | none =>
            some ⟨false, "Invalid settings file at path \x27" ++ hashdb_dir ++ "\x27.", settings⟩
          | some json_document_t.other =>
            some ⟨false, "Invalid JSON in settings file at path \x27" ++ hashdb_dir ++ "\x27.",
              settings⟩
          | some (json_document_t.object members) =>
            (get_uint64 members "data_store_version").bind fun v1 =>
            (get_uint64 members "sector_size").bind fun v2 =>
            (get_uint64 members "block_size").bind fun v3 =>
            (get_uint64 members "max_id_offset_pairs").bind fun v4 =>
            (get_uint64 members "hash_manager_hash_bytes").bind fun v5 =>
            (get_uint64 members "hash_manager_key_bits").bind fun v6 =>
            let settings := { settings with
              data_store_version := v1, sector_size := v2, block_size := v3,
              max_id_offset_pairs := v4, hash_manager_hash_bytes := v5,
              hash_manager_key_bits := v6 }
            -- settings version must be compatible
            if settings.data_store_version < settings.expected_data_store_version then
              some ⟨false, "The hashdb at path \x27" ++ hashdb_dir ++ "\x27 is not compatible.",
                settings⟩
            else
              -- accept the read
              some ⟨true, "", settings⟩

/-- The function `is_valid_hashdb` (libhashdb.cpp:167-173): the pair that `read_settings`
returns for a settings value as its constructor leaves it. -/
def is_valid_hashdb (parse : String → Option json_document_t) (fs : file_system_t)
    (default_settings : hashdb_settings_t) (hashdb_dir : String) : Option (Bool × String) :=
  (read_settings parse fs hashdb_dir default_settings).map fun r => (r.ok, r.message)

/-- The function `hashdb_settings_store::write_settings` (hashdb_settings_store.hpp:111-139):
the file system afterwards and the pair returned.  `serialise` is `operator<<` of the settings
and `strerror_errno` the text of `strerror(errno)`, neither of which is among the sources; the
warning written to `std::cerr` when the rename fails is not kept.  The output stream opens on
a settings file that is still there, which it overwrites, and otherwise when an entry can be
created in the directory. -/
def write_settings (serialise : hashdb_settings_t → String) (strerror_errno : String)
    (fs : file_system_t) (hashdb_dir : String) (settings : hashdb_settings_t) :
    file_system_t × (Bool × String) :=
  match fs.directories hashdb_dir with
  | none =>
    -- neither file can be reached and the output stream does not open
    (fs, (false, strerror_errno))
  | some d =>
    -- if present, try to move existing settings to old
    let d1 :=
      if (d.files "settings.json").isSome = true then
        (d.remove "_old_settings.json").rename "settings.json" "_old_settings.json"
      else d
    -- write the settings
    match d1.files "settings.json" with
    | some f =>
      -- the settings could not be moved: the stream opens on them and they are overwritten
      (fs.set hashdb_dir
        (d1.set "settings.json" (some { f with contents := serialise settings ++ "\n" })),
        (true, ""))
    | none =>
      if d1.writable = false then
        (fs.set hashdb_dir d1, (false, strerror_errno))
      else
        (fs.set hashdb_dir
          (d1.set "settings.json" (some ⟨serialise settings ++ "\n", true⟩)), (true, ""))

/-! ## create_hashdb -/

/-- The constant `CURRENT_DATA_STORE_VERSION` (libhashdb.cpp:70). -/
def CURRENT_DATA_STORE_VERSION : Nat := 3

/-- What `create_hashdb` uses that is not among the sources: `operator<<` of the settings and
the text of `strerror(errno)` for `write_settings`, the settings value its constructor leaves,
the constructors of the five LMDB managers in mode `RW_NEW`, which create the stores under the
directory, and the constructor of `logger_t`, which creates the log for the command. -/
structure hashdb_externals_t where
  serialise : hashdb_settings_t → String
  strerror_errno : String
  default_settings : hashdb_settings_t
  create_stores : String → file_system_t → file_system_t
  create_log : String → String → file_system_t → file_system_t

/-- The settings that `create_hashdb` fills in (libhashdb.cpp:208-215). -/
def create_hashdb_settings (default_settings : hashdb_settings_t)
    (sector_size block_size max_id_offset_pairs hash_prefix_bits hash_suffix_bytes : Nat) :
    hashdb_settings_t :=
  { default_settings with
    data_store_version := CURRENT_DATA_STORE_VERSION,
    sector_size := sector_size,
    block_size := block_size,
    max_id_offset_pairs := max_id_offset_pairs,
    hash_prefix_bits := hash_prefix_bits,
    hash_suffix_bytes := hash_suffix_bytes }

/-- The function `create_hashdb` (libhashdb.cpp:180-235): the file system afterwards and the
pair returned.  The settings are written by `write_settings` of hashdb_settings_store.hpp. -/
def create_hashdb (x : hashdb_externals_t) (fs : file_system_t) (hashdb_dir : String)
    (sector_size block_size max_id_offset_pairs hash_prefix_bits hash_suffix_bytes : Nat)
    (command_string : String) : file_system_t × (Bool × String) :=
  -- path must be empty
  if (fs.directories hashdb_dir).isSome = true then
    (fs, (false, "Path \x27" ++ hashdb_dir ++ "\x27 already exists."))
  -- create the new hashdb directory
  else if fs.creatable hashdb_dir = false then
    (fs, (false, "Unable to create new hashdb database at path \x27" ++ hashdb_dir ++ "\x27."))
  else
    let fs1 := fs.set hashdb_dir { writable := true, files := fun _ => none }
    -- settings
    let settings := create_hashdb_settings x.default_settings sector_size block_size
      max_id_offset_pairs hash_prefix_bits hash_suffix_bytes
    -- create the settings file
    let w := write_settings x.serialise x.strerror_errno fs1 hashdb_dir settings
    if w.2.1 = false then w
    else
      -- create new LMDB stores
      let fs2 := x.create_stores hashdb_dir w.1
      -- create the log
      let fs3 := x.create_log hashdb_dir command_string fs2
      (fs3, (true, ""))

/-- The six keys that `read_settings` reads from the JSON object. -/
def settings_keys : List String :=
  ["data_store_version", "sector_size", "block_size", "max_id_offset_pairs",
   "hash_manager_hash_bytes", "hash_manager_key_bits"]

/-- The lines put before a settings file, each closed by a newline. -/
def leading_lines (lines : List String) : String :=
  String.join (lines.map fun l => l ++ "\n")

/-! ## timestamp_t -/

/-- The `struct timeval` that `gettimeofday` fills: seconds and microseconds, both signed. -/
structure timeval where
  tv_sec : Int
  tv_usec : Int
deriving DecidableEq, Repr

/-- The class `timestamp_t`: the time of its construction and the time of the last stamp. -/
structure timestamp_t where
  t0 : timeval
  t_last_timestamp : timeval
deriving DecidableEq, Repr

/-- The constructor `timestamp_t::timestamp_t` (libhashdb.cpp:573-577) for the two readings of
the clock it takes. -/
def timestamp_t.create (first second : timeval) : timestamp_t :=
  { t0 := first, t_last_timestamp := second }

/-- The difference `t` that `stamp` computes between the current time `t1` and a reference
time, written out twice in the method: against `t_last_timestamp` (libhashdb.cpp:594-601) and
against `t0` (libhashdb.cpp:609-615). -/
def timeval_difference (t1 reference : timeval) : timeval :=
  let tv_sec := t1.tv_sec - reference.tv_sec
  if t1.tv_usec > reference.tv_usec then
    { tv_sec := tv_sec, tv_usec := t1.tv_usec - reference.tv_usec }
  else
    { tv_sec := tv_sec - 1, tv_usec := (t1.tv_usec + 1000000) - reference.tv_usec }

/-- The conversion `(int)` of a signed value, to 32 bits. -/
def to_int (x : Int) : Int :=
  (x + 2147483648) % 4294967296 - 2147483648

/-- The conversion `%06d` of `snprintf`: the decimal digits, with zeros in front up to a width
of six characters, the minus sign of a negative value counting as one. -/
def format_06d (x : Int) : String :=
  let digits := (toString x.natAbs).data
  if x < 0 then String.mk (Char.ofNat 45 :: (List.replicate (5 - digits.length) (Char.ofNat 48)
    ++ digits))
  else String.mk (List.replicate (6 - digits.length) (Char.ofNat 48) ++ digits)

/-- The call `snprintf(buffer, 16, "%d.%06d", (int)t.tv_sec, (int)t.tv_usec)`: the text in the
buffer, at most 15 characters. -/
def format_timeval (t : timeval) : String :=
  String.mk ((toString (to_int t.tv_sec) ++ "." ++ format_06d (to_int t.tv_usec)).data.take 15)

/-- The method `timestamp_t::stamp` (libhashdb.cpp:588-626): the object afterwards and the text
returned.  `t1` is what the first `gettimeofday` reads and `t2` what the second one reads, which
becomes `t_last_timestamp`. -/
def timestamp_t.stamp (ts : timestamp_t) (name : String) (t1 t2 : timeval) :
    timestamp_t × String :=
  -- timestamp delta against t_last_timestamp
  let delta := format_timeval (timeval_difference t1 ts.t_last_timestamp)
  -- timestamp total
  let total_time := format_timeval (timeval_difference t1 ts.t0)
  -- return the named timestamp
  ({ ts with t_last_timestamp := t2 },
    "\x7b\"name\":\"" ++ escape_json name ++ "\""
      ++ ", \"delta\":" ++ delta
      ++ ", \"total\":" ++ total_time ++ "\x7d"
      ++ "\n")

/-- The time of a `timeval` in microseconds. -/
def timeval.microseconds (t : timeval) : Int :=
  t.tv_sec * 1000000 + t.tv_usec

/-! ## source_metadata_manager.hpp -/

/-- The file modes of file_modes.h that the sources name. -/
inductive file_mode_type_t where
  | READ_ONLY
  | RW_NEW
  | RW_MODIFY
deriving DecidableEq, Repr

/-- The record `source_metadata_t` as the manager uses it: it is built from, and read through,
a source lookup index, a file size and a file hash.  The type `hash_t` of hash_t_selector.h is
a parameter. -/
structure source_metadata_t (hash_t : Type) where
  source_lookup_index : Nat
  file_size : Nat
  file_hash : hash_t
deriving DecidableEq, Repr

/-- The value `map_value_t` stored under a source lookup index
(source_metadata_manager.hpp:38-50). -/
structure map_value_t (hash_t : Type) where
  file_size : Nat
  file_hash : hash_t
deriving DecidableEq, Repr

/-- The call `map.find(key)` of `boost::btree::btree_map`, a map with one entry per key, on
the entries of the map: the entry of the key, `none` for `map.end()`. -/
def btree_map_find {hash_t : Type} (map : List (Nat × map_value_t hash_t)) (key : Nat) :
    Option (Nat × map_value_t hash_t) :=
  map.find? fun e => decide (e.1 = key)

/-- The call `map.emplace(key, value)` of `boost::btree::btree_map`: the entry is added when
the map has no entry of the key, and the second component tells whether it was. -/
def btree_map_emplace {hash_t : Type} (map : List (Nat × map_value_t hash_t)) (key : Nat)
    (value : map_value_t hash_t) : List (Nat × map_value_t hash_t) × Bool :=
  match btree_map_find map key with
  | some _ => (map, false)
  | none => (map ++ [(key, value)], true)

/-- The class `source_metadata_manager_t` (source_metadata_manager.hpp:35-120): its file mode
and the entries of its map. -/
structure source_metadata_manager_t (hash_t : Type) where
  file_mode : file_mode_type_t
  map : List (Nat × map_value_t hash_t)
deriving DecidableEq, Repr

/-- The method `source_metadata_manager_t::insert` (source_metadata_manager.hpp:80-94): the
manager afterwards and the value returned, `none` when `assert(0)` stops the call. -/
def source_metadata_manager_t.insert {hash_t : Type} (m : source_metadata_manager_t hash_t)
    (source_metadata : source_metadata_t hash_t) :
    Option (source_metadata_manager_t hash_t × Bool) :=
  -- btree must be writable
  if m.file_mode = file_mode_type_t.READ_ONLY then none
  else
    -- emplace
    let response := btree_map_emplace m.map source_metadata.source_lookup_index
      ⟨source_metadata.file_size, source_metadata.file_hash⟩
    -- return success of emplace
    some ({ m with map := response.1 }, response.2)

/-- The method `source_metadata_manager_t::find` (source_metadata_manager.hpp:100-114), a
`const` method.  `empty` is the value `source_metadata_t()` of the constructor without
arguments, which source_metadata.hpp defines. -/
def source_metadata_manager_t.find {hash_t : Type} (m : source_metadata_manager_t hash_t)
    (empty : source_metadata_t hash_t) (source_lookup_index : Nat) :
    Bool × source_metadata_t hash_t :=
  -- use map iterator to dereference the source metadata
  match btree_map_find m.map source_lookup_index with
  | none =>
    -- not there
    (false, empty)
  | some it =>
    -- compose and return source metadata
    (true, ⟨it.1, it.2.file_size, it.2.file_hash⟩)

/-- The method `source_metadata_manager_t::size`. -/
def source_metadata_manager_t.size {hash_t : Type} (m : source_metadata_manager_t hash_t) :
    Nat :=
  m.map.length

/-- The inserts of a list of source metadata, one after the other; `none` when one of them is
stopped. -/
def source_metadata_manager_t.inserts {hash_t : Type} (m : source_metadata_manager_t hash_t) :
    List (source_metadata_t hash_t) → Option (source_metadata_manager_t hash_t)
  | [] => some m
  | s :: rest =>
    match m.insert s with
    | none => none
    | some r => source_metadata_manager_t.inserts r.1 rest

/-! ## multimap_flat_sorted_vector.hpp -/

/-- The class `multimap_flat_sorted_vector_t<KEY_T, PAY_T>`: its file mode and the
`boost::interprocess::flat_multimap` it holds, as the sequence of pairs that the vector
stores; a position (`const_iterator`) is an index into the sequence and `end()` is its
length. -/
structure multimap_flat_sorted_vector_t (KEY_T PAY_T : Type) where
  file_mode : file_mode_type_t
  map : List (KEY_T × PAY_T)
deriving DecidableEq, Repr

/-- What a call gives back: the value returned, or the `std::runtime_error` thrown with its
message. -/
inductive outcome_t (α : Type) where
  | returned (value : α)
  | runtime_error (what : String)
deriving DecidableEq, Repr

/-- The call `map->lower_bound(key)` of the flat multimap: the position of the first pair whose
key is not less than `key`. -/
def lower_bound {KEY_T PAY_T : Type} [LinearOrder KEY_T] :
    List (KEY_T × PAY_T) → KEY_T → Nat
  | [], _ => 0
  | e :: rest, key => if e.1 < key then lower_bound rest key + 1 else 0

/-- The call `map->upper_bound(key)` of the flat multimap: the position of the first pair whose
key is greater than `key`. -/
def upper_bound {KEY_T PAY_T : Type} [LinearOrder KEY_T] :
    List (KEY_T × PAY_T) → KEY_T → Nat
  | [], _ => 0
  | e :: rest, key => if key < e.1 then 0 else upper_bound rest key + 1

/-- The call `map->emplace(pair)` of the flat multimap: the pair is put at the upper bound of
its key, behind the pairs of the same key. -/
def flat_multimap_emplace {KEY_T PAY_T : Type} [LinearOrder KEY_T] :
    List (KEY_T × PAY_T) → KEY_T × PAY_T → List (KEY_T × PAY_T)
  | [], x => [x]
  | e :: rest, x => if x.1 < e.1 then x :: e :: rest else e :: flat_multimap_emplace rest x

/-- The loop `for (; lower != upper; ++lower)` that `find`, `has` and `erase` share
(multimap_flat_sorted_vector.hpp:233-239, 252-257, 270-275), for the position `lower` and the
number of positions up to `upper`: the first position whose payload is `pay`. -/
def find_in_range {KEY_T PAY_T : Type} [DecidableEq PAY_T] (map : List (KEY_T × PAY_T))
    (pay : PAY_T) : Nat → Nat → Option Nat
  | _, 0 => none
  | lower, n + 1 =>
    match map.get? lower with
    | some e => if e.2 = pay then some lower else find_in_range map pay (lower + 1) n
    | none => none

/-- The method `equal_range` (multimap_flat_sorted_vector.hpp:179-183). -/
def multimap_flat_sorted_vector_t.equal_range {KEY_T PAY_T : Type} [LinearOrder KEY_T]
    (m : multimap_flat_sorted_vector_t KEY_T PAY_T) (key : KEY_T) : Nat × Nat :=
  (lower_bound m.map key, upper_bound m.map key)

/-- The method `count` (multimap_flat_sorted_vector.hpp:186-188): `map->count(key)`, the
number of positions between the lower and the upper bound of the key. -/
def multimap_flat_sorted_vector_t.count {KEY_T PAY_T : Type} [LinearOrder KEY_T]
    (m : multimap_flat_sorted_vector_t KEY_T PAY_T) (key : KEY_T) : Nat :=
  upper_bound m.map key - lower_bound m.map key

/-- The method `end`. -/
def multimap_flat_sorted_vector_t.end_position {KEY_T PAY_T : Type}
    (m : multimap_flat_sorted_vector_t KEY_T PAY_T) : Nat :=
  m.map.length

/-- The method `size` (multimap_flat_sorted_vector.hpp:291-293). -/
def multimap_flat_sorted_vector_t.size {KEY_T PAY_T : Type}
    (m : multimap_flat_sorted_vector_t KEY_T PAY_T) : Nat :=
  m.map.length

/-- The method `find` (multimap_flat_sorted_vector.hpp:245-260). -/
def multimap_flat_sorted_vector_t.find {KEY_T PAY_T : Type} [LinearOrder KEY_T]
    [DecidableEq PAY_T] (m : multimap_flat_sorted_vector_t KEY_T PAY_T) (key : KEY_T)
    (pay : PAY_T) : Nat :=
  -- find the uniquely identified element
  let lower := lower_bound m.map key
  if lower = m.end_position then m.end_position
  else
    let upper := upper_bound m.map key
    match find_in_range m.map pay lower (upper - lower) with
    | some it =>
      -- found it
      it
    | none =>
      -- if here, pay was not found
      m.end_position

/-- The method `has` (multimap_flat_sorted_vector.hpp:263-278). -/
def multimap_flat_sorted_vector_t.has {KEY_T PAY_T : Type} [LinearOrder KEY_T]
    [DecidableEq PAY_T] (m : multimap_flat_sorted_vector_t KEY_T PAY_T) (key : KEY_T)
    (pay : PAY_T) : Bool :=
  -- find the uniquely identified element
  let lower := lower_bound m.map key
  if lower = m.end_position then false
  else
    let upper := upper_bound m.map key
    match find_in_range m.map pay lower (upper - lower) with
    | some _ =>
      -- found it
      true
    | none =>
      -- if here, pay was not found
      false

/-- The method `emplace` (multimap_flat_sorted_vector.hpp:191-219): the multimap afterwards and
the pair returned, a position and whether the element was put in.  The mapped file is taken
to grow as far as the new element needs. -/
def multimap_flat_sorted_vector_t.emplace {KEY_T PAY_T : Type} [LinearOrder KEY_T]
    [DecidableEq PAY_T] (m : multimap_flat_sorted_vector_t KEY_T PAY_T) (key : KEY_T)
    (pay : PAY_T) : multimap_flat_sorted_vector_t KEY_T PAY_T × outcome_t (Nat × Bool) :=
  if m.file_mode = file_mode_type_t.READ_ONLY then
    (m, outcome_t.runtime_error "Error: emplace called in RO mode")
  else
    -- see if element already exists
    let it := m.find key pay
    if it ≠ m.end_position then (m, outcome_t.returned (it, false))
    else
      -- insert the element
      ({ m with map := flat_multimap_emplace m.map (key, pay) },
        outcome_t.returned (upper_bound m.map key, true))

/-- The method `erase` (multimap_flat_sorted_vector.hpp:222-242): the multimap afterwards and
the number returned. -/
def multimap_flat_sorted_vector_t.erase {KEY_T PAY_T : Type} [LinearOrder KEY_T]
    [DecidableEq PAY_T] (m : multimap_flat_sorted_vector_t KEY_T PAY_T) (key : KEY_T)
    (pay : PAY_T) : multimap_flat_sorted_vector_t KEY_T PAY_T × outcome_t Nat :=
  if m.file_mode = file_mode_type_t.READ_ONLY then
    (m, outcome_t.runtime_error "Error: erase called in RO mode")
  else
    -- find the uniquely identified element
    let lower := lower_bound m.map key
    if lower = m.end_position then (m, outcome_t.returned 0)
    else
      let upper := upper_bound m.map key
      match find_in_range m.map pay lower (upper - lower) with
      | some it =>
        -- found it so erase it
        ({ m with map := m.map.eraseIdx it }, outcome_t.returned 1)
      | none =>
        -- pay is not a member in range of key
        (m, outcome_t.returned 0)

/-- The flat multimap keeps its pairs in key order: no pair has a greater key than a pair
behind it. -/
def keys_sorted {KEY_T PAY_T : Type} [LinearOrder KEY_T] (map : List (KEY_T × PAY_T)) : Prop :=
  map.Pairwise fun a b => a.1 ≤ b.1

instance keys_sorted_decidable {KEY_T PAY_T : Type} [LinearOrder KEY_T]
    (map : List (KEY_T × PAY_T)) : Decidable (keys_sorted map) :=
  inferInstanceAs (Decidable (List.Pairwise (fun a b : KEY_T × PAY_T => a.1 ≤ b.1) map))

/-- The first position of a sequence at which the pair stands, the length of the sequence when
it stands nowhere. -/
def first_position {KEY_T PAY_T : Type} [DecidableEq KEY_T] [DecidableEq PAY_T]
    (x : KEY_T × PAY_T) : List (KEY_T × PAY_T) → Nat
  | [] => 0
  | e :: rest => if e = x then 0 else first_position x rest + 1

/-- A call that changes the multimap. -/
inductive multimap_call_t (KEY_T PAY_T : Type) where
  | emplace (key : KEY_T) (pay : PAY_T)
  | erase (key : KEY_T) (pay : PAY_T)
deriving DecidableEq, Repr

/-- The pair that a call names. -/
def multimap_call_t.pair {KEY_T PAY_T : Type} : multimap_call_t KEY_T PAY_T → KEY_T × PAY_T
  | .emplace key pay => (key, pay)
  | .erase key pay => (key, pay)

/-- Whether the call is an `emplace`. -/
def multimap_call_t.is_emplace {KEY_T PAY_T : Type} : multimap_call_t KEY_T PAY_T → Bool
  | .emplace _ _ => true
  | .erase _ _ => false

/-- The multimap after one call. -/
def multimap_call_t.apply {KEY_T PAY_T : Type} [LinearOrder KEY_T] [DecidableEq PAY_T]
    (c : multimap_call_t KEY_T PAY_T) (m : multimap_flat_sorted_vector_t KEY_T PAY_T) :
    multimap_flat_sorted_vector_t KEY_T PAY_T :=
  match c with
  | .emplace key pay => (m.emplace key pay).1
  | .erase key pay => (m.erase key pay).1

/-- The multimap after a sequence of calls, made one after the other. -/
def multimap_flat_sorted_vector_t.run {KEY_T PAY_T : Type} [LinearOrder KEY_T]
    [DecidableEq PAY_T] (m : multimap_flat_sorted_vector_t KEY_T PAY_T) :
    List (multimap_call_t KEY_T PAY_T) → multimap_flat_sorted_vector_t KEY_T PAY_T
  | [] => m
  | c :: rest => multimap_flat_sorted_vector_t.run (c.apply m) rest

/-- Whether a pair was emplaced and not erased since, over a sequence of calls and for what
held before it: the last call that names the pair decides. -/
def emplaced_and_not_erased {KEY_T PAY_T : Type} [DecidableEq KEY_T] [DecidableEq PAY_T]
    (x : KEY_T × PAY_T) : Bool → List (multimap_call_t KEY_T PAY_T) → Bool
  | before, [] => before
  | before, c :: rest =>
    emplaced_and_not_erased x (if c.pair = x then c.is_emplace else before) rest

/-- The distinct pairs emplaced and not since erased by a sequence of calls on an empty
multimap. -/
def live_pairs {KEY_T PAY_T : Type} [DecidableEq KEY_T] [DecidableEq PAY_T]
    (calls : List (multimap_call_t KEY_T PAY_T)) : List (KEY_T × PAY_T) :=
  (calls.map multimap_call_t.pair).dedup.filter fun x => emplaced_and_not_erased x false calls

/-- A new multimap, as the constructor leaves it in mode `RW_NEW`. -/
def multimap_flat_sorted_vector_t.create (KEY_T PAY_T : Type) :
    multimap_flat_sorted_vector_t KEY_T PAY_T :=
  { file_mode := file_mode_type_t.RW_NEW, map := [] }

/-! ## hashdb_iterator.hpp -/

/-- What `hashdb_iterator_t` uses of `map_multimap_iterator_t<T>`, whose header is not among
the sources: the step `++` and the dereference `*`, which gives the pair of a hash and a source
lookup encoding at a position that holds one. -/
structure map_multimap_iterator_ops (I T : Type) where
  next : I → I
  deref : I → Option (T × Nat)

/-- The class `hashdb_iterator_t<T>` (hashdb_iterator.hpp:35-124).  The functor
`hashdb_element_lookup_t` and the element type `hashdb_element_t` are not among the sources:
the functor is the function it computes and the element type is a parameter. -/
structure hashdb_iterator_t (I T E : Type) where
  hashdb_element_lookup : T × Nat → E
  map_multimap_iterator : I
  dereferenced_value_is_cached : Bool
  dereferenced_value : E

/-- The constructor from a `map_multimap_iterator_t` (hashdb_iterator.hpp:84-90).
`hashdb_element_lookup` and `default_value` are what the constructors without arguments of the
lookup and of the element leave; the initialiser `key(p_key)` names no member of the class and
has no part here. -/
def hashdb_iterator_t.create {I T E : Type} (hashdb_element_lookup : T × Nat → E)
    (default_value : E) (p_map_multimap_iterator : I) : hashdb_iterator_t I T E :=
  { hashdb_element_lookup := hashdb_element_lookup,
    map_multimap_iterator := p_map_multimap_iterator,
    dereferenced_value_is_cached := false,
    dereferenced_value := default_value }

/-- The accessor `increment` (hashdb_iterator.hpp:54-57). -/
def hashdb_iterator_t.increment {I T E : Type} (ops : map_multimap_iterator_ops I T)
    (s : hashdb_iterator_t I T E) : hashdb_iterator_t I T E :=
  { s with dereferenced_value_is_cached := false,
           map_multimap_iterator := ops.next s.map_multimap_iterator }

/-- The accessor `dereference` (hashdb_iterator.hpp:70-80); `none` when the underlying
iterator is dereferenced at a position that holds no pair. -/
def hashdb_iterator_t.dereference {I T E : Type} (ops : map_multimap_iterator_ops I T)
    (s : hashdb_iterator_t I T E) : Option (hashdb_iterator_t I T E) :=
  if s.dereferenced_value_is_cached = true then
    -- already valid
    some s
  else
    match ops.deref s.map_multimap_iterator with
    | none => none
    | some hashdb_pair =>
      some { s with dereferenced_value := s.hashdb_element_lookup hashdb_pair,
                    dereferenced_value_is_cached := true }

/-- The operator `++` in front (hashdb_iterator.hpp:101-104). -/
def hashdb_iterator_t.pre_increment {I T E : Type} (ops : map_multimap_iterator_ops I T)
    (s : hashdb_iterator_t I T E) : hashdb_iterator_t I T E :=
  s.increment ops

/-- The operator `++` behind (hashdb_iterator.hpp:105-109): the iterator afterwards and the
copy `temp` returned. -/
def hashdb_iterator_t.post_increment {I T E : Type} (ops : map_multimap_iterator_ops I T)
    (s : hashdb_iterator_t I T E) : hashdb_iterator_t I T E × hashdb_iterator_t I T E :=
  let temp := s
  (s.increment ops, temp)

/-- The operator `*` (hashdb_iterator.hpp:110-113): the iterator afterwards and the element
that the reference returned refers to. -/
def hashdb_iterator_t.star {I T E : Type} (ops : map_multimap_iterator_ops I T)
    (s : hashdb_iterator_t I T E) : Option (hashdb_iterator_t I T E × E) :=
  (s.dereference ops).map fun s1 => (s1, s1.dereferenced_value)

/-- The operator `->` (hashdb_iterator.hpp:114-117): the iterator afterwards and the element
that the pointer returned points to. -/
def hashdb_iterator_t.arrow {I T E : Type} (ops : map_multimap_iterator_ops I T)
    (s : hashdb_iterator_t I T E) : Option (hashdb_iterator_t I T E × E) :=
  (s.dereference ops).map fun s1 => (s1, s1.dereferenced_value)

/-- A use of the iterator through its public operators. -/
inductive iterator_call_t where
  | pre_increment
  | post_increment
  | star
  | arrow
deriving DecidableEq, Repr

/-- The iterator after a sequence of uses; `none` when one of them dereferences the underlying
iterator at a position that holds no pair. -/
def hashdb_iterator_t.run {I T E : Type} (ops : map_multimap_iterator_ops I T)
    (s : hashdb_iterator_t I T E) : List iterator_call_t → Option (hashdb_iterator_t I T E)
  | [] => some s
  | .pre_increment :: rest => hashdb_iterator_t.run ops (s.pre_increment ops) rest
  | .post_increment :: rest => hashdb_iterator_t.run ops (s.post_increment ops).1 rest
  | .star :: rest =>
    match s.star ops with
    | none => none
    | some r => hashdb_iterator_t.run ops r.1 rest
  | .arrow :: rest =>
    match s.arrow ops with
    | none => none
    | some r => hashdb_iterator_t.run ops r.1 rest

/-! ## Inputs for the concrete instances -/

/-- A scan manager whose hash manager knows only the hash "a" while its hash-data manager finds
every hash with the pairs (1,512) and (2,1024); the sources are files of 800 bytes of type
"exe" whose file hash is the byte 1 followed by the byte 171, and source 1 has one name. -/
def example_scan_manager : scan_manager_t :=
  { lmdb_hash_manager_find := fun h => decide (h = "a"),
    lmdb_hash_data_manager_find := fun _ =>
      { matched := true, low_entropy_label := "L", entropy := 7, block_label := "B",
        pairs := [(1, 512), (2, 1024)] },
    lmdb_source_data_manager_find := fun _ =>
      { file_binary_hash := String.mk [Char.ofNat 1, Char.ofNat 171], filesize := 800,
        file_type := "exe", low_entropy_count := 0 },
    lmdb_source_name_manager_find := fun id =>
      if id = 1 then [("repository1", "filename1")] else [],
    hashes := [],
    source_ids := [] }

/-- Managers for a run of the facade: the hash store is the list of the hashes inserted into
the hash manager, the hash-data store the list of the inserted (hash, source id, offset)
rows, every insert being accepted. -/
def example_hash_managers : hash_managers_t (List (String × Nat × Nat)) (List String) Unit :=
  { hash_data_insert := fun hd binary_hash source_id file_offset _ _ _ c =>
      ((binary_hash, source_id, file_offset) :: hd, c, true),
    hash_data_find := fun hd binary_hash =>
      { matched := decide (binary_hash ∈ hd.map Prod.fst), low_entropy_label := "",
        entropy := 0, block_label := "",
        pairs := (hd.filter fun row => decide (row.1 = binary_hash)).map Prod.snd },
    hash_find := fun hs binary_hash => decide (binary_hash ∈ hs) }

/-- The 16 zero bytes that the tests use as `binary_0`. -/
def binary_0 : String := String.mk (List.replicate 16 (Char.ofNat 0))

/-- The inserts of scenarios S1, S4 and S5 (sector size 512, both caps 2): the hash `binary_0`
is seen in source 1 at offset 512, in source 2 at offset 1024 and in source 3 at offset 1536. -/
def three_sources : List insert_call_t :=
  [.single binary_0 1 "bl" 1 512, .single binary_0 1 "bl" 2 1024,
   .single binary_0 1 "bl" 3 1536]

/-- Four sightings of `binary_0` in source 1 at four offsets, then one in source 2. -/
def five_offsets : List insert_call_t :=
  [.single binary_0 1 "bl" 1 0, .single binary_0 1 "bl" 1 512,
   .single binary_0 1 "bl" 1 1024, .single binary_0 1 "bl" 1 1536,
   .single binary_0 1 "bl" 2 2048]

/-- A scan manager whose source 1 has the file type a"b\c, the five characters a, double quote,
b, backslash, c, and one name pair with a double quote in the filename. -/
def quoted_type_scan_manager : scan_manager_t :=
  { example_scan_manager with
    lmdb_source_data_manager_find := fun _ =>
      { file_binary_hash := "", filesize := 0,
        file_type := String.mk [Char.ofNat 97, Char.ofNat 34, Char.ofNat 98, Char.ofNat 92,
          Char.ofNat 99],
        low_entropy_count := 0 },
    lmdb_source_name_manager_find := fun _ =>
      [("r", String.mk [Char.ofNat 102, Char.ofNat 34])] }

/-- The members of a settings object with all six keys. -/
def example_members : List (String × json_value_t) :=
  [("data_store_version", json_value_t.uint64 3), ("sector_size", json_value_t.uint64 512),
   ("block_size", json_value_t.uint64 512),
   ("max_id_offset_pairs", json_value_t.uint64 100000),
   ("hash_manager_hash_bytes", json_value_t.uint64 3),
   ("hash_manager_key_bits", json_value_t.uint64 28)]

/-- A parser for the runs: it knows the text of one settings object with all six keys, of one
object that has the version only, and of one array; every other text is a parse error. -/
def example_parse (line : String) : Option json_document_t :=
  if line = "\x7b\"data_store_version\":3,\"sector_size\":512,\"block_size\":512,"
      ++ "\"max_id_offset_pairs\":100000,\"hash_manager_hash_bytes\":3,"
      ++ "\"hash_manager_key_bits\":28\x7d" then
    some (json_document_t.object example_members)
  else if line = "\x7b\"data_store_version\":3\x7d" then
    some (json_document_t.object [("data_store_version", json_value_t.uint64 3)])
  else if line = "[3]" then some json_document_t.other
  else none

/-- A settings file with all six keys after one comment line. -/
def example_settings_file : file_t :=
  { contents := "# hashdb settings\n"
      ++ "\x7b\"data_store_version\":3,\"sector_size\":512,\"block_size\":512,"
      ++ "\"max_id_offset_pairs\":100000,\"hash_manager_hash_bytes\":3,"
      ++ "\"hash_manager_key_bits\":28\x7d\n",
    readable := true }

/-- A writable directory that holds the given settings file and an older backup. -/
def example_directory (f : file_t) : directory_t :=
  { writable := true,
    files := fun n =>
      if n = "settings.json" then some f
      else if n = "_old_settings.json" then some ⟨"older", true⟩
      else none }

/-- A file system with the directory "db" as above and nothing else; "new.hdb" can be
created. -/
def example_file_system (f : file_t) : file_system_t :=
  { directories := fun p => if p = "db" then some (example_directory f) else none,
    creatable := fun p => decide (p = "new.hdb") }

/-- Settings as a constructor may leave them, expecting data store version 3. -/
def example_settings : hashdb_settings_t :=
  { expected_data_store_version := 3, data_store_version := 0, sector_size := 0,
    block_size := 0, max_id_offset_pairs := 0, hash_manager_hash_bytes := 0,
    hash_manager_key_bits := 0, hash_prefix_bits := 0, hash_suffix_bytes := 0 }

/-- Externals for the runs: the settings are serialised as their data store version and sector
size, the stores and the log are one file each. -/
def example_externals : hashdb_externals_t :=
  { serialise := fun s => toString s.data_store_version ++ " " ++ toString s.sector_size,
    strerror_errno := "No such file or directory",
    default_settings := example_settings,
    create_stores := fun dir fs =>
      match fs.directories dir with
      | some d => fs.set dir (d.set "lmdb_hash_data_store" (some ⟨"", true⟩))
      | none => fs,
    create_log := fun dir command fs =>
      match fs.directories dir with
      | some d => fs.set dir (d.set "log.json" (some ⟨command, true⟩))
      | none => fs }

/-- A writable source metadata store that holds the record of source 1: 800 bytes with the
file hash "ab". -/
def example_source_metadata_manager : source_metadata_manager_t String :=
  { file_mode := file_mode_type_t.RW_MODIFY, map := [(1, ⟨800, "ab"⟩)] }

/-- The empty source metadata for the runs. -/
def example_empty_source_metadata : source_metadata_t String :=
  ⟨0, 0, ""⟩

/-- An underlying iterator for the runs: positions are numbers, the positions below 3 hold the
pair of the hash "h" with the position as its source lookup encoding, and 3 is the end. -/
def example_iterator_ops : map_multimap_iterator_ops Nat String :=
  { next := fun i => i + 1,
    deref := fun i => if i < 3 then some ("h", i) else none }

/-- An iterator at position 0 whose lookup gives the encoding times ten. -/
def example_iterator : hashdb_iterator_t Nat String Nat :=
  hashdb_iterator_t.create (fun p => p.2 * 10) 0 0

/-- A writable multimap in which the key 5 has the payloads 0, 1 and 5 and the keys 4 and 6 have
one payload each. -/
def example_multimap : multimap_flat_sorted_vector_t Nat Nat :=
  { file_mode := file_mode_type_t.RW_MODIFY, map := [(4, 4), (5, 0), (5, 1), (5, 5), (6, 6)] }

/-- The same pairs in a multimap opened read-only. -/
def example_read_only_multimap : multimap_flat_sorted_vector_t Nat Nat :=
  { example_multimap with file_mode := file_mode_type_t.READ_ONLY }

/-- A scan manager whose hash manager knows every hash, on the hash-data store that the given
insert calls leave with sector size 512 and both caps 4. -/
def example_reading_scan_manager (calls : List insert_call_t) : scan_manager_t :=
  scan_manager_t.reading { example_scan_manager with lmdb_hash_manager_find := fun _ => true }
    (hash_data_after ⟨512, 4, 4⟩ calls) (fun _ => "")

/-! ## Theorems -/

set_option maxRecDepth 100000

/-- C1: `scan_manager_t::find_hash` returns false with cleared outputs whenever the hash manager
reports the hash absent, whatever the hash-data manager would find, and otherwise returns exactly
what the hash-data manager's `find` gives. -/
theorem find_hash_consults_hash_manager (sm : scan_manager_t) (binary_hash : String) :
    (sm.lmdb_hash_manager_find binary_hash = false →
      sm.find_hash binary_hash
        = { matched := false, low_entropy_label := "", entropy := 0, block_label := "",
            pairs := [] }) ∧
    (sm.lmdb_hash_manager_find binary_hash = true →
      sm.find_hash binary_hash = sm.lmdb_hash_data_manager_find binary_hash) := by
  constructor
  · intro h
    simp [scan_manager_t.find_hash, h]
  · intro h
    simp [scan_manager_t.find_hash, h]

/-- C1 at a concrete scan manager: the hash "b" is absent from the hash manager and is not found
although the hash-data manager holds it, the hash "a" is found with the outputs of the hash-data
manager. -/
theorem find_hash_consults_hash_manager_witness :
    example_scan_manager.find_hash "b"
      = { matched := false, low_entropy_label := "", entropy := 0, block_label := "",
          pairs := [] } ∧
    example_scan_manager.find_hash "a" = example_scan_manager.lmdb_hash_data_manager_find "a" :=
  ⟨(find_hash_consults_hash_manager example_scan_manager "b").1 (by decide),
   (find_hash_consults_hash_manager example_scan_manager "a").2 (by decide)⟩

/-- C2 on the code: `import_manager_t::insert_hash` passes the hash to the hash-data manager
only, so the state of the hash manager is what it was, and a hash the hash manager did not
report before the insert is still short-circuited by `find_hash` afterwards, whatever the insert
returned and stored. -/
theorem insert_hash_leaves_hash_manager {HD HS C : Type} (ops : hash_managers_t HD HS C)
    (im : import_manager_t HD HS C) (binary_hash : String) (source_id file_offset : Nat)
    (low_entropy_label : String) (entropy : Nat) (block_label : String)
    (source_data : Nat → source_data_t) (source_names : Nat → source_names_t)
    (habsent : ops.hash_find im.lmdb_hash_manager binary_hash = false) :
    (im.insert_hash ops binary_hash source_id file_offset low_entropy_label entropy
        block_label).1.lmdb_hash_manager = im.lmdb_hash_manager ∧
    ((scan_manager_t.on ops
        (im.insert_hash ops binary_hash source_id file_offset low_entropy_label entropy
          block_label).1 source_data source_names).find_hash binary_hash).matched = false := by
  refine ⟨rfl, ?_⟩
  have h : (scan_manager_t.on ops
      (im.insert_hash ops binary_hash source_id file_offset low_entropy_label entropy
        block_label).1 source_data source_names).lmdb_hash_manager_find binary_hash = false :=
    habsent
  simp [scan_manager_t.find_hash, h]

/-- C2 at a concrete input: on a new database, `insert_hash` accepts the hash "h" for source 1
at offset 512 and the hash-data manager then finds it, yet `find_hash` on the same database
does not match it. -/
theorem insert_hash_leaves_hash_manager_witness :
    (import_manager_t.insert_hash example_hash_managers ⟨[], [], ()⟩ "h" 1 512 "" 0 "").2 = true ∧
    (example_hash_managers.hash_data_find
      (import_manager_t.insert_hash example_hash_managers ⟨[], [], ()⟩ "h" 1 512 "" 0
        "").1.lmdb_hash_data_manager "h").matched = true ∧
    ((scan_manager_t.on example_hash_managers
        (import_manager_t.insert_hash example_hash_managers ⟨[], [], ()⟩ "h" 1 512 "" 0 "").1
        (fun _ => ⟨"", 0, "", 0⟩) (fun _ => [])).find_hash "h").matched = false :=
  ⟨by decide, by decide,
   (insert_hash_leaves_hash_manager example_hash_managers ⟨[], [], ()⟩ "h" 1 512 "" 0 ""
      (fun _ => ⟨"", 0, "", 0⟩) (fun _ => []) (by decide)).2⟩

/-! ### The table -/

theorem table_get_put_same (key : String) (record : hash_data_record_t)
    (t : hash_data_table_t) : table_get key (table_put key record t) = some record := by
  induction t with
  | nil => simp [table_put, table_get]
  | cons x rest ih =>
    obtain ⟨k, r⟩ := x
    unfold table_put
    by_cases h1 : k = key
    · simp [h1, table_get]
    · by_cases h2 : key_lt key.data k.data = true
      · simp [h1, h2, table_get]
      · simp [h1, h2, table_get, ih]

theorem table_get_put_other (key other : String) (record : hash_data_record_t)
    (t : hash_data_table_t) (hne : other ≠ key) :
    table_get other (table_put key record t) = table_get other t := by
  induction t with
  | nil => simp [table_put, table_get, Ne.symm hne]
  | cons x rest ih =>
    obtain ⟨k, r⟩ := x
    unfold table_put
    by_cases h1 : k = key
    · subst h1
      simp [table_get, Ne.symm hne]
    · by_cases h2 : key_lt key.data k.data = true
      · simp [h1, h2, table_get, Ne.symm hne]
      · simp only [h1, h2, if_false, table_get, ih]

/-! ### Input validation -/

theorem table_get_empty_put (hash : String) (record : hash_data_record_t)
    (t : hash_data_table_t) (hne : hash ≠ "") (h : table_get "" t = none) :
    table_get "" (table_put hash record t) = none := by
  rw [table_get_put_other hash "" record t (Ne.symm hne)]
  exact h

theorem write_keeps_empty_key_absent (m : lmdb_hash_data_manager_t) (hash : String)
    (entropy : Nat) (block_label : String) (source_id sub_count : Nat)
    (file_offsets : List Nat) (bulk : Bool) (changes : lmdb_changes_t)
    (h : table_get "" m.table = none) :
    table_get "" (m.write hash entropy block_label source_id sub_count file_offsets bulk
      changes).manager.table = none := by
  unfold lmdb_hash_data_manager_t.write
  split
  · exact h
  · rename_i hne
    split
    · exact h
    · split
      · exact table_get_empty_put hash _ m.table hne h
      · exact table_get_empty_put hash _ m.table hne h

theorem inserts_keep_empty_key_absent (calls : List insert_call_t) :
    ∀ (m : lmdb_hash_data_manager_t) (changes : lmdb_changes_t),
      table_get "" m.table = none → table_get "" (m.inserts changes calls).1.table = none := by
  induction calls with
  | nil => intro m changes h; exact h
  | cons c rest ih =>
    intro m changes h
    simp only [lmdb_hash_data_manager_t.inserts]
    apply ih
    cases c <;> exact write_keeps_empty_key_absent _ _ _ _ _ _ _ _ _ h

/-- C3 as stated fails in a state that holds the hash: after the insert of `binary_0` for
source 1 at offset 512, the insert at offset 513 returns 0 and changes nothing, so the
following `find` of `binary_0` returns true with count 1 and the source entry, not false with
count 0 and no entries. -/
theorem invalid_insert_finds_stored_hash :
    513 % (hash_data_after ⟨512, 2, 2⟩ [.single binary_0 1 "bl" 1 512]).settings.sector_size
      ≠ 0 ∧
    ((hash_data_after ⟨512, 2, 2⟩ [.single binary_0 1 "bl" 1 512]).insert binary_0 1 "bl" 1
      513 no_changes).count = 0 ∧
    ((hash_data_after ⟨512, 2, 2⟩ [.single binary_0 1 "bl" 1 512]).insert binary_0 1 "bl" 1
      513 no_changes).manager.find binary_0
      = { found := true, entropy := 1, block_label := "bl", count := 1,
          source_id_offsets := [⟨1, 1, [512]⟩] } ∧
    ((hash_data_after ⟨512, 2, 2⟩ [.single binary_0 1 "bl" 1 512]).insert binary_0 1 "bl" 1
      513 no_changes).manager.find binary_0
      ≠ { found := false, entropy := 0, block_label := "", count := 0,
          source_id_offsets := [] } := by
  decide

/-- C3, amended: in every state of the hash-data manager, an insert with an empty hash key or
with a file offset that is not a multiple of `sector_size` returns 0 and leaves the manager and
every change counter as they were; so a following `find` of any hash answers as before the
insert: with (false, 0, "", 0, no entries) when the hash was not stored, which is always so for
the empty key after any inserts on a new manager, and with the stored record when it was; and
`first_hash()` of an empty store is still "". -/
theorem insert_invalid_changes_nothing (m : lmdb_hash_data_manager_t) (hash : String)
    (entropy : Nat) (block_label : String) (source_id file_offset : Nat)
    (changes : lmdb_changes_t)
    (hinvalid : hash = "" ∨ file_offset % m.settings.sector_size ≠ 0) :
    (m.insert hash entropy block_label source_id file_offset changes).count = 0 ∧
    (m.insert hash entropy block_label source_id file_offset changes).manager = m ∧
    (m.insert hash entropy block_label source_id file_offset changes).changes = changes ∧
    (∀ other : String,
      (m.insert hash entropy block_label source_id file_offset changes).manager.find other
        = m.find other) ∧
    ((m.find hash).found = false →
      (m.insert hash entropy block_label source_id file_offset changes).manager.find hash
        = { found := false, entropy := 0, block_label := "", count := 0,
            source_id_offsets := [] }) ∧
    (∀ (settings : hash_data_settings_t) (calls : List insert_call_t),
      ((hash_data_after settings calls).insert "" entropy block_label source_id file_offset
        changes).manager.find ""
        = { found := false, entropy := 0, block_label := "", count := 0,
            source_id_offsets := [] }) ∧
    (m.table = [] →
      (m.insert hash entropy block_label source_id file_offset changes).manager.first_hash
        = "") := by
  have hres : m.insert hash entropy block_label source_id file_offset changes
      = { manager := m, changes := changes, count := 0 } := by
    unfold lmdb_hash_data_manager_t.insert lmdb_hash_data_manager_t.write
    rcases hinvalid with h | h
    · simp [h]
    · by_cases he : hash = ""
      · simp [he]
      · simp [he, h]
  rw [hres]
  refine ⟨rfl, rfl, rfl, fun _ => rfl, ?_, ?_, ?_⟩
  · intro hnot
    unfold lmdb_hash_data_manager_t.find at hnot ⊢
    cases hg : table_get hash m.table with
    | none => rfl
    | some r => simp [hg] at hnot
  · intro settings calls
    have habs := inserts_keep_empty_key_absent calls (lmdb_hash_data_manager_t.create settings)
      no_changes rfl
    have hempty : (hash_data_after settings calls).insert "" entropy block_label source_id
        file_offset changes
        = { manager := hash_data_after settings calls, changes := changes, count := 0 } := by
      simp [lmdb_hash_data_manager_t.insert, lmdb_hash_data_manager_t.write]
    rw [hempty]
    unfold lmdb_hash_data_manager_t.find
    unfold hash_data_after
    rw [habs]
  · intro hempty
    simp [lmdb_hash_data_manager_t.first_hash, hempty]

/-- C3, amended, on the calls of `test_empty`: on a new manager with sector size 512, the
insert of the hash `binary_0` at offset 513 returns 0 and changes nothing, `binary_0` is not
found and the first hash is ""; and on a store that holds `binary_0`, `find` answers after the
insert at offset 513 as it did before. -/
theorem insert_invalid_changes_nothing_witness :
    513 % (lmdb_hash_data_manager_t.create ⟨512, 0, 0⟩).settings.sector_size ≠ 0 ∧
    ((lmdb_hash_data_manager_t.create ⟨512, 0, 0⟩).insert binary_0 1 "bl" 1 513
      no_changes).count = 0 ∧
    ((lmdb_hash_data_manager_t.create ⟨512, 0, 0⟩).insert binary_0 1 "bl" 1 513
      no_changes).manager.find binary_0
      = { found := false, entropy := 0, block_label := "", count := 0,
          source_id_offsets := [] } ∧
    ((lmdb_hash_data_manager_t.create ⟨512, 0, 0⟩).insert binary_0 1 "bl" 1 513
      no_changes).manager.first_hash = "" ∧
    ((hash_data_after ⟨512, 2, 2⟩ [.single binary_0 1 "bl" 1 512]).insert binary_0 1 "bl" 1
      513 no_changes).manager.find binary_0
      = (hash_data_after ⟨512, 2, 2⟩ [.single binary_0 1 "bl" 1 512]).find binary_0 :=
  ⟨by decide,
   (insert_invalid_changes_nothing (lmdb_hash_data_manager_t.create ⟨512, 0, 0⟩) binary_0 1
      "bl" 1 513 no_changes (Or.inr (by decide))).1,
   (insert_invalid_changes_nothing (lmdb_hash_data_manager_t.create ⟨512, 0, 0⟩) binary_0 1
      "bl" 1 513 no_changes (Or.inr (by decide))).2.2.2.2.1 (by decide),
   (insert_invalid_changes_nothing (lmdb_hash_data_manager_t.create ⟨512, 0, 0⟩) binary_0 1
      "bl" 1 513 no_changes (Or.inr (by decide))).2.2.2.2.2.2 rfl,
   (insert_invalid_changes_nothing
      (hash_data_after ⟨512, 2, 2⟩ [.single binary_0 1 "bl" 1 512]) binary_0 1 "bl" 1 513
      no_changes (Or.inr (by decide))).2.2.2.1 binary_0⟩

/-! ### File offsets under `max_sub_count` -/

theorem add_file_offset_length (settings : hash_data_settings_t) (file_offsets : List Nat)
    (changes : lmdb_changes_t) (o : Nat)
    (h : file_offsets.length ≤ settings.max_sub_count) :
    (add_file_offset settings file_offsets changes o).1.length ≤ settings.max_sub_count := by
  unfold add_file_offset
  split
  · exact h
  · split
    · rw [List.orderedInsert_length]
      omega
    · exact h

theorem add_file_offsets_length (settings : hash_data_settings_t) (new : List Nat) :
    ∀ (file_offsets : List Nat) (changes : lmdb_changes_t),
      file_offsets.length ≤ settings.max_sub_count →
      (add_file_offsets settings new file_offsets changes).1.length
        ≤ settings.max_sub_count := by
  induction new with
  | nil => intro fo ch h; simpa [add_file_offsets] using h
  | cons o rest ih =>
    intro fo ch h
    simp only [add_file_offsets]
    exact ih _ _ (add_file_offset_length settings fo ch o h)

/-- A dropped offset: a full set that does not hold the offset stays as it is. -/
theorem add_file_offset_full (settings : hash_data_settings_t) (file_offsets : List Nat)
    (changes : lmdb_changes_t) (o : Nat) (hfull : file_offsets.length = settings.max_sub_count)
    (hnew : o ∉ file_offsets) :
    add_file_offset settings file_offsets changes o = (file_offsets, changes) := by
  unfold add_file_offset
  simp [hnew, hfull]

/-! ### Source entries -/

theorem replace_source_entry_length (entry : source_id_offsets_t)
    (l : List source_id_offsets_t) : (replace_source_entry entry l).length = l.length := by
  induction l with
  | nil => rfl
  | cons e rest ih =>
    unfold replace_source_entry
    split <;> simp [ih]

theorem mem_replace_source_entry (entry x : source_id_offsets_t)
    (l : List source_id_offsets_t) (hx : x ∈ replace_source_entry entry l) :
    x = entry ∨ x ∈ l := by
  induction l with
  | nil => simp [replace_source_entry] at hx
  | cons e rest ih =>
    unfold replace_source_entry at hx
    split at hx
    · rcases List.mem_cons.1 hx with h | h
      · exact Or.inl h
      · exact Or.inr (List.mem_cons_of_mem _ h)
    · rcases List.mem_cons.1 hx with h | h
      · exact Or.inr (by simp [h])
      · rcases ih h with h' | h'
        · exact Or.inl h'
        · exact Or.inr (List.mem_cons_of_mem _ h')

theorem insert_source_entry_length (entry : source_id_offsets_t)
    (l : List source_id_offsets_t) : (insert_source_entry entry l).length = l.length + 1 := by
  induction l with
  | nil => rfl
  | cons e rest ih =>
    unfold insert_source_entry
    split <;> simp [ih]

theorem mem_insert_source_entry (entry x : source_id_offsets_t)
    (l : List source_id_offsets_t) (hx : x ∈ insert_source_entry entry l) :
    x = entry ∨ x ∈ l := by
  induction l with
  | nil => simpa [insert_source_entry] using hx
  | cons e rest ih =>
    unfold insert_source_entry at hx
    split at hx
    · rcases List.mem_cons.1 hx with h | h
      · exact Or.inl h
      · exact Or.inr h
    · rcases List.mem_cons.1 hx with h | h
      · exact Or.inr (by simp [h])
      · rcases ih h with h' | h'
        · exact Or.inl h'
        · exact Or.inr (List.mem_cons_of_mem _ h')

theorem find_replace_source_entry (entry e : source_id_offsets_t)
    (l : List source_id_offsets_t) (h : find_source_entry entry.source_id l = some e) :
    find_source_entry entry.source_id (replace_source_entry entry l) = some entry := by
  induction l with
  | nil => simp [find_source_entry] at h
  | cons x rest ih =>
    unfold find_source_entry at h
    unfold replace_source_entry
    by_cases hx : x.source_id = entry.source_id
    · simp [hx, find_source_entry]
    · simp only [hx, if_false] at h ⊢
      simp only [find_source_entry, hx, if_false]
      exact ih h

theorem sum_replace_source_entry (entry e : source_id_offsets_t)
    (l : List source_id_offsets_t) (h : find_source_entry entry.source_id l = some e) :
    sum_sub_count (replace_source_entry entry l) + e.sub_count
      = sum_sub_count l + entry.sub_count := by
  induction l with
  | nil => simp [find_source_entry] at h
  | cons x rest ih =>
    unfold find_source_entry at h
    unfold replace_source_entry
    by_cases hx : x.source_id = entry.source_id
    · simp only [hx, if_true, Option.some.injEq] at h
      subst h
      simp [hx, sum_sub_count]
      omega
    · simp only [hx, if_false] at h ⊢
      have := ih h
      simp only [sum_sub_count, List.map_cons, List.sum_cons] at this ⊢
      omega

theorem sum_insert_source_entry (entry : source_id_offsets_t)
    (l : List source_id_offsets_t) :
    sum_sub_count (insert_source_entry entry l) = sum_sub_count l + entry.sub_count := by
  induction l with
  | nil => simp [insert_source_entry, sum_sub_count]
  | cons x rest ih =>
    unfold insert_source_entry
    split
    · simp [sum_sub_count]; omega
    · simp only [sum_sub_count, List.map_cons, List.sum_cons] at ih ⊢
      omega

/-- The caps on one record: at most `max_id_offset_pairs` source entries, each with at most
`max_sub_count` file offsets. -/
theorem update_source_entries_caps (settings : hash_data_settings_t)
    (source_id sub_count : Nat) (file_offsets : List Nat) (bulk : Bool)
    (sources : List source_id_offsets_t) (changes : lmdb_changes_t)
    (hlen : sources.length ≤ settings.max_id_offset_pairs)
    (hoff : ∀ e ∈ sources, e.file_offsets.length ≤ settings.max_sub_count) :
    (update_source_entries settings source_id sub_count file_offsets bulk sources
        changes).1.length ≤ settings.max_id_offset_pairs ∧
    ∀ e ∈ (update_source_entries settings source_id sub_count file_offsets bulk sources
        changes).1, e.file_offsets.length ≤ settings.max_sub_count := by
  unfold update_source_entries
  cases hf : find_source_entry source_id sources with
  | some e0 =>
    have he0 : e0 ∈ sources := by
      clear hlen hoff
      induction sources with
      | nil => simp [find_source_entry] at hf
      | cons x rest ih =>
        unfold find_source_entry at hf
        split at hf
        · simp only [Option.some.injEq] at hf
          simp [hf]
        · exact List.mem_cons_of_mem _ (ih hf)
    refine ⟨?_, ?_⟩
    · simpa [replace_source_entry_length] using hlen
    · intro e he
      rcases mem_replace_source_entry _ _ _ he with h | h
      · subst h
        exact add_file_offsets_length settings file_offsets _ _ (hoff e0 he0)
      · exact hoff e h
  | none =>
    by_cases hroom : sources.length < settings.max_id_offset_pairs
    · simp only [hroom, if_true]
      refine ⟨?_, ?_⟩
      · rw [insert_source_entry_length]
        omega
      · intro e he
        rcases mem_insert_source_entry _ _ _ he with h | h
        · subst h
          exact add_file_offsets_length settings file_offsets _ _ (by simp)
        · exact hoff e h
    · simp only [hroom, if_false]
      exact ⟨hlen, hoff⟩

theorem write_keeps_settings (m : lmdb_hash_data_manager_t) (hash : String) (entropy : Nat)
    (block_label : String) (source_id sub_count : Nat) (file_offsets : List Nat) (bulk : Bool)
    (changes : lmdb_changes_t) :
    (m.write hash entropy block_label source_id sub_count file_offsets bulk
      changes).manager.settings = m.settings := by
  unfold lmdb_hash_data_manager_t.write
  split
  · rfl
  · split
    · rfl
    · split <;> rfl

theorem write_within_caps (m : lmdb_hash_data_manager_t) (hash : String) (entropy : Nat)
    (block_label : String) (source_id sub_count : Nat) (file_offsets : List Nat) (bulk : Bool)
    (changes : lmdb_changes_t) (h : table_within_caps m.settings m.table) :
    table_within_caps m.settings
      (m.write hash entropy block_label source_id sub_count file_offsets bulk
        changes).manager.table := by
  unfold lmdb_hash_data_manager_t.write
  split
  · exact h
  · split
    · exact h
    · split
      · rename_i hnone
        intro key r hr
        by_cases hk : key = hash
        · subst hk
          simp only [table_get_put_same, Option.some.injEq] at hr
          subst hr
          exact update_source_entries_caps m.settings source_id sub_count file_offsets bulk []
            changes (by simp) (by simp)
        · rw [table_get_put_other _ _ _ _ hk] at hr
          exact h key r hr
      · rename_i r0 hsome
        intro key r hr
        by_cases hk : key = hash
        · subst hk
          simp only [table_get_put_same, Option.some.injEq] at hr
          subst hr
          exact update_source_entries_caps m.settings source_id sub_count file_offsets bulk
            r0.sources _ (h key r0 hsome).1 (h key r0 hsome).2
        · rw [table_get_put_other _ _ _ _ hk] at hr
          exact h key r hr

theorem apply_settings (c : insert_call_t) (m : lmdb_hash_data_manager_t)
    (changes : lmdb_changes_t) : (c.apply m changes).manager.settings = m.settings := by
  cases c <;> exact write_keeps_settings _ _ _ _ _ _ _ _ _

theorem apply_within_caps (c : insert_call_t) (m : lmdb_hash_data_manager_t)
    (changes : lmdb_changes_t) (h : table_within_caps m.settings m.table) :
    table_within_caps m.settings (c.apply m changes).manager.table := by
  cases c <;> exact write_within_caps _ _ _ _ _ _ _ _ _ h

theorem inserts_within_caps (calls : List insert_call_t) :
    ∀ (m : lmdb_hash_data_manager_t) (changes : lmdb_changes_t),
      table_within_caps m.settings m.table →
      (m.inserts changes calls).1.settings = m.settings ∧
      table_within_caps m.settings (m.inserts changes calls).1.table := by
  induction calls with
  | nil => intro m ch h; exact ⟨rfl, h⟩
  | cons c rest ih =>
    intro m ch h
    simp only [lmdb_hash_data_manager_t.inserts]
    have h1 := apply_within_caps c m ch h
    rw [← apply_settings c m ch] at h1
    obtain ⟨hs, ht⟩ := ih _ (c.apply m ch).changes h1
    rw [apply_settings c m ch] at hs ht
    exact ⟨hs, ht⟩

/-! ### What a valid insert does to the record of its hash -/

theorem write_invalid (m : lmdb_hash_data_manager_t) (hash : String) (entropy : Nat)
    (block_label : String) (source_id sub_count : Nat) (file_offsets : List Nat) (bulk : Bool)
    (changes : lmdb_changes_t)
    (h : ¬ (hash ≠ "" ∧ ∀ o ∈ file_offsets, o % m.settings.sector_size = 0)) :
    m.write hash entropy block_label source_id sub_count file_offsets bulk changes
      = { manager := m, changes := changes, count := 0 } := by
  unfold lmdb_hash_data_manager_t.write
  by_cases he : hash = ""
  · simp [he]
  · simp only [he, if_false]
    have : ¬ ∀ o ∈ file_offsets, o % m.settings.sector_size = 0 := fun hall => h ⟨he, hall⟩
    push_neg at this
    obtain ⟨o, ho, hne⟩ := this
    have hany : (file_offsets.any fun o => decide (o % m.settings.sector_size ≠ 0)) = true := by
      rw [List.any_eq_true]
      exact ⟨o, ho, by simpa using hne⟩
    rw [if_pos hany]

theorem write_valid (m : lmdb_hash_data_manager_t) (hash : String) (entropy : Nat)
    (block_label : String) (source_id sub_count : Nat) (file_offsets : List Nat) (bulk : Bool)
    (changes : lmdb_changes_t) (hne : hash ≠ "")
    (hal : ∀ o ∈ file_offsets, o % m.settings.sector_size = 0) :
    (m.write hash entropy block_label source_id sub_count file_offsets bulk changes).count
      = (m.find hash).count + sub_count ∧
    ((m.write hash entropy block_label source_id sub_count file_offsets bulk
      changes).manager.find hash).count = (m.find hash).count + sub_count ∧
    (∃ ch, ((m.write hash entropy block_label source_id sub_count file_offsets bulk
      changes).manager.find hash).source_id_offsets
        = (update_source_entries m.settings source_id sub_count file_offsets bulk
            (m.find hash).source_id_offsets ch).1) ∧
    ∀ other, other ≠ hash →
      (m.write hash entropy block_label source_id sub_count file_offsets bulk
        changes).manager.find other = m.find other := by
  have hany : ¬ (file_offsets.any fun o => decide (o % m.settings.sector_size ≠ 0)) = true := by
    rw [List.any_eq_true]
    rintro ⟨o, ho, hno⟩
    simp [hal o ho] at hno
  unfold lmdb_hash_data_manager_t.write
  rw [if_neg hne, if_neg hany]
  cases hg : table_get hash m.table with
  | none =>
    simp only [lmdb_hash_data_manager_t.find, hg, table_get_put_same]
    refine ⟨by simp, by simp, ⟨changes, rfl⟩, ?_⟩
    intro other ho
    rw [table_get_put_other _ _ _ _ ho]
  | some r =>
    simp only [lmdb_hash_data_manager_t.find, hg, table_get_put_same]
    refine ⟨trivial, trivial, ⟨_, rfl⟩, ?_⟩
    intro other ho
    rw [table_get_put_other _ _ _ _ ho]

/-- C4: after any sequence of insert calls on a new manager, every source entry that `find`
returns holds at most `max_sub_count` file offsets and the record holds at most
`max_id_offset_pairs` source entries; and a further valid single-offset insert raises the
returned count and the count of the record by one, raises the `sub_count` of the entry of its
source by one also when the offset is dropped because that entry is full, and leaves the source
entries as they are when the source is dropped because the record is full. -/
theorem cap_enforcement (settings : hash_data_settings_t) (calls : List insert_call_t)
    (hash : String) :
    (∀ e ∈ ((hash_data_after settings calls).find hash).source_id_offsets,
      e.file_offsets.length ≤ settings.max_sub_count) ∧
    ((hash_data_after settings calls).find hash).source_id_offsets.length
      ≤ settings.max_id_offset_pairs ∧
    ∀ (entropy : Nat) (block_label : String) (source_id file_offset : Nat)
      (changes : lmdb_changes_t),
      hash ≠ "" → file_offset % settings.sector_size = 0 →
      ((hash_data_after settings calls).insert hash entropy block_label source_id file_offset
          changes).count = ((hash_data_after settings calls).find hash).count + 1 ∧
      (((hash_data_after settings calls).insert hash entropy block_label source_id file_offset
          changes).manager.find hash).count
        = ((hash_data_after settings calls).find hash).count + 1 ∧
      (∀ e, find_source_entry source_id
            ((hash_data_after settings calls).find hash).source_id_offsets = some e →
          ∃ e', find_source_entry source_id
              (((hash_data_after settings calls).insert hash entropy block_label source_id
                file_offset changes).manager.find hash).source_id_offsets = some e' ∧
            e'.sub_count = e.sub_count + 1 ∧
            (e.file_offsets.length = settings.max_sub_count → file_offset ∉ e.file_offsets →
              e'.file_offsets = e.file_offsets)) ∧
      (find_source_entry source_id
            ((hash_data_after settings calls).find hash).source_id_offsets = none →
          ((hash_data_after settings calls).find hash).source_id_offsets.length
            = settings.max_id_offset_pairs →
          (((hash_data_after settings calls).insert hash entropy block_label source_id
            file_offset changes).manager.find hash).source_id_offsets
            = ((hash_data_after settings calls).find hash).source_id_offsets) := by
  have hinv := inserts_within_caps calls (lmdb_hash_data_manager_t.create settings) no_changes
    (by intro key r hr; simp [lmdb_hash_data_manager_t.create, table_get] at hr)
  have hset : (hash_data_after settings calls).settings = settings := hinv.1
  have hcaps : table_within_caps settings (hash_data_after settings calls).table := hinv.2
  generalize hash_data_after settings calls = m at hset hcaps ⊢
  have hrec : ((m.find hash).source_id_offsets.length ≤ settings.max_id_offset_pairs) ∧
      ∀ e ∈ (m.find hash).source_id_offsets,
        e.file_offsets.length ≤ settings.max_sub_count := by
    unfold lmdb_hash_data_manager_t.find
    cases hg : table_get hash m.table with
    | none => simp
    | some r => exact hcaps hash r hg
  refine ⟨hrec.2, hrec.1, ?_⟩
  intro entropy block_label source_id file_offset changes hne hal
  have hal' : ∀ o ∈ [file_offset], o % m.settings.sector_size = 0 := by
    intro o ho
    simp only [List.mem_singleton] at ho
    rw [ho, hset]
    exact hal
  obtain ⟨h1, h2, ⟨ch, h3⟩, _⟩ := write_valid m hash entropy block_label source_id 1
    [file_offset] false changes hne hal'
  unfold lmdb_hash_data_manager_t.insert
  refine ⟨h1, h2, ?_, ?_⟩
  · intro e he
    rw [h3]
    unfold update_source_entries
    simp only [he]
    refine ⟨_, find_replace_source_entry
      { source_id := source_id, sub_count := e.sub_count + 1,
        file_offsets := (add_file_offsets m.settings [file_offset] e.file_offsets _).1 } e _ he,
      rfl, ?_⟩
    intro hfull hnew
    simp only [add_file_offsets]
    rw [add_file_offset_full m.settings e.file_offsets _ file_offset (by rw [hset]; exact hfull)
      hnew]
  · intro hnone hfull
    rw [h3]
    unfold update_source_entries
    simp only [hnone]
    rw [hset]
    simp [hfull]

/-- C4 on a run with sector size 512 and both caps 2: after four sightings in source 1 and one
in source 2 the record holds two entries, the entry of source 1 has `sub_count` 4 with the two
offsets 0 and 512, and a further insert for source 1 at offset 2048 returns count 6. -/
theorem cap_enforcement_witness :
    ((hash_data_after ⟨512, 2, 2⟩ five_offsets).find binary_0).source_id_offsets
      = [⟨1, 4, [0, 512]⟩, ⟨2, 1, [2048]⟩] ∧
    ((hash_data_after ⟨512, 2, 2⟩ five_offsets).find binary_0).source_id_offsets.length ≤ 2 ∧
    ((hash_data_after ⟨512, 2, 2⟩ five_offsets).insert binary_0 1 "bl" 1 2048
      no_changes).count
      = ((hash_data_after ⟨512, 2, 2⟩ five_offsets).find binary_0).count + 1 :=
  ⟨by decide,
   (cap_enforcement ⟨512, 2, 2⟩ five_offsets binary_0).2.1,
   ((cap_enforcement ⟨512, 2, 2⟩ five_offsets binary_0).2.2 1 "bl" 1 2048 no_changes
      (by decide) (by decide)).1⟩

/-! ### The count of a record against the `sub_count` of its entries -/

theorem find_count_eq (m : lmdb_hash_data_manager_t) (hash : String) :
    m.find_count hash = (m.find hash).count := by
  unfold lmdb_hash_data_manager_t.find_count lmdb_hash_data_manager_t.find
  cases table_get hash m.table <;> rfl

theorem apply_eq_write (c : insert_call_t) (m : lmdb_hash_data_manager_t)
    (changes : lmdb_changes_t) :
    ∃ entropy block_label bulk, c.apply m changes
      = m.write c.hash entropy block_label c.source_id c.sub_count c.file_offsets bulk
          changes := by
  cases c with
  | single hash entropy block_label source_id file_offset =>
    exact ⟨entropy, block_label, false, rfl⟩
  | bulk hash entropy block_label source_id sub_count file_offsets =>
    exact ⟨entropy, block_label, true, rfl⟩

theorem valid_iff (c : insert_call_t) (settings : hash_data_settings_t) :
    c.valid settings = true
      ↔ (c.hash ≠ "" ∧ ∀ o ∈ c.file_offsets, o % settings.sector_size = 0) := by
  simp [insert_call_t.valid, List.all_eq_true]

theorem apply_frame (c : insert_call_t) (m : lmdb_hash_data_manager_t)
    (changes : lmdb_changes_t) (hash : String) (hne : c.hash ≠ hash) :
    (c.apply m changes).manager.find hash = m.find hash := by
  obtain ⟨entropy, block_label, bulk, hw⟩ := apply_eq_write c m changes
  rw [hw]
  by_cases hv : c.hash ≠ "" ∧ ∀ o ∈ c.file_offsets, o % m.settings.sector_size = 0
  · exact (write_valid m c.hash entropy block_label c.source_id c.sub_count c.file_offsets
      bulk changes hv.1 hv.2).2.2.2 hash (Ne.symm hne)
  · rw [write_invalid m c.hash entropy block_label c.source_id c.sub_count c.file_offsets
      bulk changes hv]

theorem sum_update_source_entries (settings : hash_data_settings_t)
    (source_id sub_count : Nat) (file_offsets : List Nat) (bulk : Bool)
    (sources : List source_id_offsets_t) (changes : lmdb_changes_t) :
    sum_sub_count (update_source_entries settings source_id sub_count file_offsets bulk
        sources changes).1
      = sum_sub_count sources
        + (if (find_source_entry source_id sources).isNone = true
              ∧ ¬ sources.length < settings.max_id_offset_pairs then 0 else sub_count) := by
  unfold update_source_entries
  cases hf : find_source_entry source_id sources with
  | some e =>
    simp only [Option.isNone_some, Bool.false_eq_true, false_and, if_false]
    generalize (add_file_offsets settings file_offsets e.file_offsets _).1 = fo
    have hs := sum_replace_source_entry
      { source_id := source_id, sub_count := e.sub_count + sub_count, file_offsets := fo }
      e sources hf
    simp only [] at hs
    omega
  | none =>
    by_cases hroom : sources.length < settings.max_id_offset_pairs
    · simp only [hroom, if_true, sum_insert_source_entry, not_true_eq_false, and_false,
        if_false]
    · simp only [hroom, if_false, Option.isNone_none, not_false_eq_true, and_self, if_true,
        Nat.add_zero]

theorem apply_count_step (c : insert_call_t) (m : lmdb_hash_data_manager_t)
    (changes : lmdb_changes_t) (hash : String) (x : Nat)
    (h : (m.find hash).count = sum_sub_count (m.find hash).source_id_offsets + x) :
    ((c.apply m changes).manager.find hash).count
      = sum_sub_count ((c.apply m changes).manager.find hash).source_id_offsets + x
        + (if c.hash = hash ∧ c.capped m = true then c.sub_count else 0) := by
  by_cases hh : c.hash = hash
  · subst hh
    obtain ⟨entropy, block_label, bulk, hw⟩ := apply_eq_write c m changes
    rw [hw]
    by_cases hv : c.hash ≠ "" ∧ ∀ o ∈ c.file_offsets, o % m.settings.sector_size = 0
    · have hwv := write_valid m c.hash entropy block_label c.source_id
        c.sub_count c.file_offsets bulk changes hv.1 hv.2
      obtain ⟨ch, h3⟩ := hwv.2.2.1
      have h2 := hwv.2.1
      clear hwv
      have hval : c.valid m.settings = true := (valid_iff c m.settings).2 hv
      rw [h2, h3, h, sum_update_source_entries]
      have hcap : c.capped m = true ↔
          ((find_source_entry c.source_id (m.find c.hash).source_id_offsets).isNone = true
            ∧ ¬ (m.find c.hash).source_id_offsets.length
                < m.settings.max_id_offset_pairs) := by
        simp [insert_call_t.capped, lmdb_hash_data_manager_t.sources, hval]
      by_cases hc : c.capped m = true
      · rw [if_pos (hcap.1 hc), if_pos ⟨rfl, hc⟩]
        omega
      · rw [if_neg (fun hx => hc (hcap.2 hx)), if_neg (fun hx => hc hx.2)]
        omega
    · have hval : c.valid m.settings = false := by
        cases hb : c.valid m.settings with
        | false => rfl
        | true => exact absurd ((valid_iff c m.settings).1 hb) hv
      have hcap : c.capped m = false := by
        simp [insert_call_t.capped, hval]
      rw [write_invalid m c.hash entropy block_label c.source_id c.sub_count c.file_offsets
        bulk changes hv]
      simp [hcap, h]
  · rw [apply_frame c m changes hash hh]
    simp [hh, h]

theorem inserts_count (hash : String) (calls : List insert_call_t) :
    ∀ (m : lmdb_hash_data_manager_t) (changes : lmdb_changes_t) (x : Nat),
      (m.find hash).count = sum_sub_count (m.find hash).source_id_offsets + x →
      ((m.inserts changes calls).1.find hash).count
        = sum_sub_count ((m.inserts changes calls).1.find hash).source_id_offsets + x
          + capped_sub_count hash m changes calls := by
  induction calls with
  | nil =>
    intro m changes x h
    simpa [lmdb_hash_data_manager_t.inserts, capped_sub_count] using h
  | cons c rest ih =>
    intro m changes x h
    simp only [lmdb_hash_data_manager_t.inserts, capped_sub_count]
    have hstep := apply_count_step c m changes hash x h
    rw [ih _ _ (x + (if c.hash = hash ∧ c.capped m = true then c.sub_count else 0))
      (by rw [hstep]; omega)]
    omega

theorem inserts_frame (hash : String) (calls : List insert_call_t) :
    ∀ (m : lmdb_hash_data_manager_t) (changes : lmdb_changes_t),
      hash ∉ calls.map insert_call_t.hash →
      (m.inserts changes calls).1.find hash = m.find hash := by
  induction calls with
  | nil => intro m changes _; rfl
  | cons c rest ih =>
    intro m changes hnot
    simp only [List.map_cons, List.mem_cons, not_or] at hnot
    simp only [lmdb_hash_data_manager_t.inserts]
    rw [ih _ _ hnot.2, apply_frame c m changes hash (Ne.symm hnot.1)]

/-- On the inserts of scenario S5, with `max_id_offset_pairs` 2, the third source gets no entry
while the count is still raised, as section 4.I words it: `find` returns count 3 with entries
whose `sub_count` sum to 2. -/
theorem count_exceeds_sum_after_capped_source :
    ((hash_data_after ⟨512, 2, 2⟩ three_sources).find binary_0).count = 3 ∧
    sum_sub_count ((hash_data_after ⟨512, 2, 2⟩ three_sources).find binary_0).source_id_offsets
      = 2 ∧
    ¬ ((hash_data_after ⟨512, 2, 2⟩ three_sources).find_count binary_0
      = sum_sub_count
          ((hash_data_after ⟨512, 2, 2⟩ three_sources).find binary_0).source_id_offsets) := by
  decide

/-- After any sequence of single-offset and bulk inserts on a new manager, `find` and
`find_count` return the same count, and it is the sum of `sub_count` over the source
entries that `find` returns plus the `sub_count` of the inserts for the hash that met the
source cap, so the count is that sum as long as no insert met the cap; `find_count` is 0 for a
hash that no call inserted. -/
theorem count_is_sum_plus_capped (settings : hash_data_settings_t)
    (calls : List insert_call_t) (hash : String) :
    (hash_data_after settings calls).find_count hash
      = ((hash_data_after settings calls).find hash).count ∧
    ((hash_data_after settings calls).find hash).count
      = sum_sub_count ((hash_data_after settings calls).find hash).source_id_offsets
        + capped_sub_count hash (lmdb_hash_data_manager_t.create settings) no_changes calls ∧
    (capped_sub_count hash (lmdb_hash_data_manager_t.create settings) no_changes calls = 0 →
      (hash_data_after settings calls).find_count hash
        = sum_sub_count ((hash_data_after settings calls).find hash).source_id_offsets) ∧
    (hash ∉ calls.map insert_call_t.hash →
      (hash_data_after settings calls).find_count hash = 0) := by
  have hsum : ((hash_data_after settings calls).find hash).count
      = sum_sub_count ((hash_data_after settings calls).find hash).source_id_offsets
        + capped_sub_count hash (lmdb_hash_data_manager_t.create settings) no_changes
            calls := by
    have h := inserts_count hash calls (lmdb_hash_data_manager_t.create settings) no_changes 0
      (by simp [lmdb_hash_data_manager_t.create, lmdb_hash_data_manager_t.find, table_get,
            sum_sub_count])
    simpa [hash_data_after] using h
  refine ⟨find_count_eq _ _, hsum, ?_, ?_⟩
  · intro hzero
    rw [find_count_eq, hsum, hzero, Nat.add_zero]
  · intro hnot
    rw [find_count_eq]
    unfold hash_data_after
    rw [inserts_frame hash calls _ _ hnot]
    simp [lmdb_hash_data_manager_t.create, lmdb_hash_data_manager_t.find, table_get]

/-- The count on concrete runs: on the inserts of scenario S5 one sighting met the source cap
and the count 3 is the sum 2 plus that one; a run of five sightings that meets no source cap has
`find_count` equal to the sum of `sub_count`; and the hash "x", which no call inserted, has
`find_count` 0. -/
theorem count_is_sum_plus_capped_witness :
    capped_sub_count binary_0 (lmdb_hash_data_manager_t.create ⟨512, 2, 2⟩) no_changes
      three_sources = 1 ∧
    ((hash_data_after ⟨512, 2, 2⟩ three_sources).find binary_0).count
      = sum_sub_count
          ((hash_data_after ⟨512, 2, 2⟩ three_sources).find binary_0).source_id_offsets
        + capped_sub_count binary_0 (lmdb_hash_data_manager_t.create ⟨512, 2, 2⟩) no_changes
            three_sources ∧
    (hash_data_after ⟨512, 2, 2⟩ five_offsets).find_count binary_0
      = sum_sub_count
          ((hash_data_after ⟨512, 2, 2⟩ five_offsets).find binary_0).source_id_offsets ∧
    (hash_data_after ⟨512, 2, 2⟩ five_offsets).find_count "x" = 0 :=
  ⟨by decide,
   (count_is_sum_plus_capped ⟨512, 2, 2⟩ three_sources binary_0).2.1,
   (count_is_sum_plus_capped ⟨512, 2, 2⟩ five_offsets binary_0).2.2.1 (by decide),
   (count_is_sum_plus_capped ⟨512, 2, 2⟩ five_offsets "x").2.2.2 (by decide)⟩

/-! ### Streams -/

theorem intercalate_go_append (a b s : String) (l : List String) :
    String.intercalate.go (a ++ b) s l = a ++ String.intercalate.go b s l := by
  induction l generalizing b with
  | nil => simp [String.intercalate.go]
  | cons x rest ih =>
    simp only [String.intercalate.go]
    rw [← ih]
    simp [String.append_assoc]

theorem provide_id_offset_pairs_succ (pairs : id_offset_pairs_t) :
    ∀ (i : Nat) (ss : String),
      provide_id_offset_pairs pairs (i + 1) ss
        = String.intercalate.go ss "," (flattened_pairs pairs) := by
  induction pairs with
  | nil => intro i ss; simp [provide_id_offset_pairs, flattened_pairs, String.intercalate.go]
  | cons it rest ih =>
    intro i ss
    simp only [provide_id_offset_pairs, flattened_pairs, List.flatMap_cons, List.cons_append,
      List.nil_append, String.intercalate.go, Nat.succ_pos, if_true, gt_iff_lt]
    rw [ih]
    rfl

theorem provide_id_offset_pairs_zero (pairs : id_offset_pairs_t) (ss : String) :
    provide_id_offset_pairs pairs 0 ss = ss ++ ",".intercalate (flattened_pairs pairs) := by
  cases pairs with
  | nil => simp [provide_id_offset_pairs, flattened_pairs, String.intercalate]
  | cons it rest =>
    simp only [provide_id_offset_pairs, flattened_pairs, List.flatMap_cons, List.cons_append,
      List.nil_append, String.intercalate, String.intercalate.go, gt_iff_lt, lt_self_iff_false,
      if_false]
    rw [provide_id_offset_pairs_succ, ← intercalate_go_append]
    simp [flattened_pairs, String.append_assoc]

theorem provide_names_append (names : source_names_t) :
    ∀ (i : Nat) (a b : String),
      provide_names names i (a ++ b) = a ++ provide_names names i b := by
  induction names with
  | nil => intro i a b; simp [provide_names]
  | cons it rest ih =>
    intro i a b
    simp only [provide_names]
    split_ifs
    · simp only [String.append_assoc]
      rw [ih]
    · simp only [String.append_assoc]
      rw [ih]

theorem provide_source_information_append (manager : scan_manager_t) (source_id : Nat)
    (ss : String) :
    provide_source_information manager source_id ss
      = ss ++ source_information manager source_id := by
  unfold source_information provide_source_information
  simp only [String.append_assoc, String.empty_append]
  rw [provide_names_append, String.append_assoc]

theorem join_cons (s : String) (l : List String) :
    String.join (s :: l) = s ++ String.join l := by
  apply String.ext
  simp [String.join_eq]

theorem provide_sources_eq (manager : scan_manager_t) (pairs : id_offset_pairs_t) :
    ∀ (source_ids : List Nat) (ss : String),
      (provide_sources manager pairs source_ids ss).2
        = ss ++ String.join
            ((printed_source_ids pairs source_ids).map (source_information manager)) ∧
      ∀ s, s ∈ (provide_sources manager pairs source_ids ss).1
        ↔ s ∈ source_ids ∨ s ∈ pair_source_ids pairs := by
  induction pairs with
  | nil =>
    intro ids ss
    simp [provide_sources, printed_source_ids, pair_source_ids, String.join]
  | cons it rest ih =>
    intro ids ss
    by_cases hin : it.1 ∈ ids
    · simp only [provide_sources, printed_source_ids, hin, not_true_eq_false, if_false]
      refine ⟨(ih ids ss).1, ?_⟩
      intro s
      rw [(ih ids ss).2 s]
      simp only [pair_source_ids, List.map_cons, List.mem_cons]
      constructor
      · rintro (h | h)
        · exact Or.inl h
        · exact Or.inr (Or.inr h)
      · rintro (h | h | h)
        · exact Or.inl h
        · exact Or.inl (h ▸ hin)
        · exact Or.inr h
    · simp only [provide_sources, printed_source_ids, hin, not_false_eq_true, if_true]
      refine ⟨?_, ?_⟩
      · rw [(ih _ _).1, provide_source_information_append, List.map_cons, join_cons,
          String.append_assoc]
      · intro s
        rw [(ih _ _).2 s]
        simp only [pair_source_ids, List.map_cons, List.mem_cons]
        constructor
        · rintro ((h | h) | h)
          · exact Or.inr (Or.inl h)
          · exact Or.inl h
          · exact Or.inr (Or.inr h)
        · rintro (h | h | h)
          · exact Or.inl (Or.inr h)
          · exact Or.inl (Or.inl h)
          · exact Or.inr h

/-! ### One call of `find_expanded_hash` -/

theorem expands_iff (sm : scan_manager_t) (binary_hash : String) :
    sm.expands binary_hash = true
      ↔ (sm.find_hash binary_hash).matched = true ∧ binary_hash ∉ sm.hashes := by
  simp [scan_manager_t.expands]

theorem find_expanded_hash_of_expands (sm : scan_manager_t) (binary_hash : String)
    (h : sm.expands binary_hash = true) :
    (sm.find_expanded_hash binary_hash).matched = true ∧
    (sm.find_expanded_hash binary_hash).expanded_text
      = "[" ++ source_list_id_object (source_list_id (sm.find_hash binary_hash).pairs 0)
        ++ "," ++ sources_object ((sm.emitted binary_hash).map (source_information sm))
        ++ "," ++ id_offset_pairs_object (sm.find_hash binary_hash).pairs ++ "]" ∧
    (sm.find_expanded_hash binary_hash).manager.hashes = binary_hash :: sm.hashes ∧
    (∀ s, s ∈ (sm.find_expanded_hash binary_hash).manager.source_ids
      ↔ s ∈ sm.source_ids ∨ s ∈ pair_source_ids (sm.find_hash binary_hash).pairs) ∧
    same_lookups (sm.find_expanded_hash binary_hash).manager sm := by
  have hm := ((expands_iff sm binary_hash).1 h).1
  have hn := ((expands_iff sm binary_hash).1 h).2
  unfold scan_manager_t.find_expanded_hash
  simp only [hm, hn, if_false, Bool.true_eq_false]
  refine ⟨trivial, ?_, trivial, ?_, ⟨rfl, rfl, rfl, rfl⟩⟩
  · rw [provide_id_offset_pairs_zero, (provide_sources_eq sm _ _ _).1]
    simp only [scan_manager_t.emitted, h, if_true, source_list_id_object, sources_object,
      id_offset_pairs_object, String.append_assoc]
    rfl
  · intro s
    exact (provide_sources_eq sm _ _ _).2 s

theorem find_expanded_hash_of_not_expands (sm : scan_manager_t) (binary_hash : String)
    (h : sm.expands binary_hash = false) :
    sm.find_expanded_hash binary_hash
      = { manager := sm, matched := (sm.find_hash binary_hash).matched,
          expanded_text := "" } := by
  unfold scan_manager_t.find_expanded_hash
  by_cases hm : (sm.find_hash binary_hash).matched = true
  · have hin : binary_hash ∈ sm.hashes := by
      by_contra hn
      rw [(expands_iff sm binary_hash).2 ⟨hm, hn⟩] at h
      exact Bool.noConfusion h
    simp [hm, hin]
  · have hf : (sm.find_hash binary_hash).matched = false := by
      simpa using hm
    simp [hf]

theorem find_hash_congr (a b : scan_manager_t) (h : same_lookups a b) (binary_hash : String) :
    a.find_hash binary_hash = b.find_hash binary_hash := by
  unfold scan_manager_t.find_hash
  rw [h.1, h.2.1]

theorem source_information_congr (a b : scan_manager_t) (h : same_lookups a b) :
    source_information a = source_information b := by
  funext source_id
  unfold source_information provide_source_information scan_manager_t.find_source_data
    scan_manager_t.find_source_names
  rw [h.2.2.1, h.2.2.2]

theorem find_expanded_hash_lookups (sm : scan_manager_t) (binary_hash : String) :
    same_lookups (sm.find_expanded_hash binary_hash).manager sm := by
  cases h : sm.expands binary_hash with
  | true => exact (find_expanded_hash_of_expands sm binary_hash h).2.2.2.2
  | false =>
    rw [find_expanded_hash_of_not_expands sm binary_hash h]
    exact ⟨rfl, rfl, rfl, rfl⟩

theorem find_expanded_hash_hashes (sm : scan_manager_t) (binary_hash other : String) :
    other ∈ (sm.find_expanded_hash binary_hash).manager.hashes
      ↔ other ∈ sm.hashes ∨ (other = binary_hash ∧ (sm.find_hash other).matched = true) := by
  cases h : sm.expands binary_hash with
  | true =>
    rw [(find_expanded_hash_of_expands sm binary_hash h).2.2.1]
    have hm := ((expands_iff sm binary_hash).1 h).1
    simp only [List.mem_cons]
    constructor
    · rintro (h1 | h1)
      · exact Or.inr ⟨h1, h1 ▸ hm⟩
      · exact Or.inl h1
    · rintro (h1 | ⟨h1, _⟩)
      · exact Or.inr h1
      · exact Or.inl h1
  | false =>
    rw [find_expanded_hash_of_not_expands sm binary_hash h]
    constructor
    · exact Or.inl
    · rintro (h1 | ⟨h1, h2⟩)
      · exact h1
      · subst h1
        by_contra hn
        rw [(expands_iff sm other).2 ⟨h2, hn⟩] at h
        exact Bool.noConfusion h

/-! ### A session of calls -/

theorem run_lookups (calls : List String) :
    ∀ sm : scan_manager_t, same_lookups (sm.run calls) sm := by
  induction calls with
  | nil => intro sm; exact ⟨rfl, rfl, rfl, rfl⟩
  | cons h rest ih =>
    intro sm
    simp only [scan_manager_t.run]
    have h1 := ih (sm.find_expanded_hash h).manager
    have h2 := find_expanded_hash_lookups sm h
    exact ⟨h1.1.trans h2.1, h1.2.1.trans h2.2.1, h1.2.2.1.trans h2.2.2.1,
      h1.2.2.2.trans h2.2.2.2⟩

theorem run_hashes (calls : List String) :
    ∀ (sm : scan_manager_t) (other : String),
      other ∈ (sm.run calls).hashes
        ↔ other ∈ sm.hashes ∨ (other ∈ calls ∧ (sm.find_hash other).matched = true) := by
  induction calls with
  | nil => intro sm other; simp [scan_manager_t.run]
  | cons h rest ih =>
    intro sm other
    simp only [scan_manager_t.run]
    rw [ih, find_expanded_hash_hashes,
      find_hash_congr _ _ (find_expanded_hash_lookups sm h) other]
    simp only [List.mem_cons]
    tauto

theorem run_append (a b : List String) :
    ∀ sm : scan_manager_t, sm.run (a ++ b) = (sm.run a).run b := by
  induction a with
  | nil => intro sm; rfl
  | cons h rest ih => intro sm; exact ih _

/-! ### The memo set of source ids -/

theorem printed_source_ids_spec (pairs : id_offset_pairs_t) :
    ∀ source_ids : List Nat,
      (printed_source_ids pairs source_ids).Nodup ∧
      ∀ s, s ∈ printed_source_ids pairs source_ids
        ↔ s ∈ pair_source_ids pairs ∧ s ∉ source_ids := by
  induction pairs with
  | nil => intro ids; simp [printed_source_ids, pair_source_ids]
  | cons it rest ih =>
    intro ids
    by_cases hin : it.1 ∈ ids
    · simp only [printed_source_ids, hin, not_true_eq_false, if_false]
      refine ⟨(ih ids).1, ?_⟩
      intro s
      rw [(ih ids).2 s]
      simp only [pair_source_ids, List.map_cons, List.mem_cons]
      constructor
      · rintro ⟨h1, h2⟩
        exact ⟨Or.inr h1, h2⟩
      · rintro ⟨h1 | h1, h2⟩
        · exact absurd (h1 ▸ hin) h2
        · exact ⟨h1, h2⟩
    · simp only [printed_source_ids, hin, not_false_eq_true, if_true]
      refine ⟨?_, ?_⟩
      · refine List.nodup_cons.2 ⟨?_, (ih _).1⟩
        intro hmem
        exact ((ih _).2 it.1).1 hmem |>.2 (List.mem_cons_self _ _)
      · intro s
        simp only [List.mem_cons, (ih _).2 s, pair_source_ids, List.map_cons, not_or]
        constructor
        · rintro (h1 | ⟨h1, h2, h3⟩)
          · exact ⟨Or.inl h1, h1 ▸ hin⟩
          · exact ⟨Or.inr h1, h3⟩
        · rintro ⟨h1 | h1, h2⟩
          · exact Or.inl h1
          · by_cases hs : s = it.1
            · exact Or.inl hs
            · exact Or.inr ⟨h1, hs, h2⟩

theorem find_expanded_hash_source_ids (sm : scan_manager_t) (binary_hash : String) (s : Nat) :
    s ∈ (sm.find_expanded_hash binary_hash).manager.source_ids
      ↔ s ∈ sm.source_ids ∨ s ∈ sm.emitted binary_hash := by
  cases h : sm.expands binary_hash with
  | true =>
    rw [(find_expanded_hash_of_expands sm binary_hash h).2.2.2.1 s]
    simp only [scan_manager_t.emitted, h, if_true, (printed_source_ids_spec _ _).2 s]
    tauto
  | false =>
    rw [find_expanded_hash_of_not_expands sm binary_hash h]
    simp [scan_manager_t.emitted, h]

theorem emitted_nodup (sm : scan_manager_t) (binary_hash : String) :
    (sm.emitted binary_hash).Nodup ∧ ∀ s ∈ sm.emitted binary_hash, s ∉ sm.source_ids := by
  unfold scan_manager_t.emitted
  split
  · exact ⟨(printed_source_ids_spec _ _).1, fun s hs => (((printed_source_ids_spec _ _).2 s).1 hs).2⟩
  · simp

theorem trace_nodup (calls : List String) :
    ∀ sm : scan_manager_t,
      (sm.trace calls).flatten.Nodup ∧ ∀ s ∈ (sm.trace calls).flatten, s ∉ sm.source_ids := by
  induction calls with
  | nil => intro sm; simp [scan_manager_t.trace]
  | cons h rest ih =>
    intro sm
    simp only [scan_manager_t.trace, List.flatten_cons]
    obtain ⟨hn, hd⟩ := ih (sm.find_expanded_hash h).manager
    refine ⟨?_, ?_⟩
    · refine List.nodup_append.2 ⟨(emitted_nodup sm h).1, hn, ?_⟩
      intro s hs1 hs2
      exact hd s hs2 ((find_expanded_hash_source_ids sm h s).2 (Or.inr hs1))
    · intro s hs
      rcases List.mem_append.1 hs with h1 | h1
      · exact (emitted_nodup sm h).2 s h1
      · intro hin
        exact hd s h1 ((find_expanded_hash_source_ids sm h s).2 (Or.inl hin))

/-- In a session that starts with empty memo sets, the memo set of source ids holds the source
ids of the pairs of the hashes expanded so far. -/
theorem run_source_ids (calls : List String) :
    ∀ sm : scan_manager_t,
      (∀ s, s ∈ sm.source_ids
        ↔ ∃ h ∈ sm.hashes, s ∈ pair_source_ids (sm.find_hash h).pairs) →
      ∀ s, s ∈ (sm.run calls).source_ids
        ↔ ∃ h ∈ (sm.run calls).hashes, s ∈ pair_source_ids (sm.find_hash h).pairs := by
  induction calls with
  | nil => intro sm hinv; simpa [scan_manager_t.run] using hinv
  | cons c rest ih =>
    intro sm hinv s
    simp only [scan_manager_t.run]
    have hl := find_expanded_hash_lookups sm c
    have hstep : ∀ s, s ∈ (sm.find_expanded_hash c).manager.source_ids
        ↔ ∃ h ∈ (sm.find_expanded_hash c).manager.hashes,
            s ∈ pair_source_ids ((sm.find_expanded_hash c).manager.find_hash h).pairs := by
      intro s
      simp only [find_hash_congr _ _ hl]
      cases he : sm.expands c with
      | true =>
        rw [(find_expanded_hash_of_expands sm c he).2.2.2.1 s,
          (find_expanded_hash_of_expands sm c he).2.2.1, hinv s]
        simp only [List.mem_cons, exists_eq_or_imp]
        exact or_comm
      | false =>
        rw [find_expanded_hash_of_not_expands sm c he]
        exact hinv s
    have := ih (sm.find_expanded_hash c).manager hstep s
    simpa only [find_hash_congr _ _ hl] using this

/-! ### The models against known values -/

/-- The CRC-32 model gives the standard check value 0xCBF43926 on the bytes of "123456789". -/
theorem crc32_check_value :
    crc32 0 [49, 50, 51, 52, 53, 54, 55, 56, 57] = 0xCBF43926 := by
  decide

/-- The hash-data model on the scenarios S1 to S6 of the spec (sector size 512, both caps 2):
the first insert returns 1, the record ends with count 5 and the entries
(1, sub_count 3, offset 512) and (2, sub_count 1, offset 1024) under entropy 2, and the counters
show two sources and two offsets inserted, one data change and two duplicate offsets. -/
theorem hash_data_scenarios :
    ((lmdb_hash_data_manager_t.create ⟨512, 2, 2⟩).insert binary_0 1 "bl" 1 512
      no_changes).count = 1 ∧
    (lmdb_hash_data_manager_t.create ⟨512, 2, 2⟩).inserts no_changes
      [.single binary_0 1 "bl" 1 512, .single binary_0 1 "bl" 1 512,
       .single binary_0 2 "bl" 1 512, .single binary_0 2 "bl" 2 1024,
       .single binary_0 2 "bl" 3 1536, .single binary_0 2 "bl" 1 513]
      = ({ settings := ⟨512, 2, 2⟩,
           table := [(binary_0, ⟨2, "bl", 5, [⟨1, 3, [512]⟩, ⟨2, 1, [1024]⟩]⟩)] },
         ⟨2, 2, 1, 2, 0⟩) := by
  decide

/-! ### CRC-32 in chaining form -/

theorem crc32_nil (crc : Nat) : crc32 crc [] = crc := by
  simp [crc32, Nat.xor_assoc]

theorem crc32_append (crc : Nat) (a b : List Nat) :
    crc32 (crc32 crc a) b = crc32 crc (a ++ b) := by
  simp [crc32, List.foldl_append, Nat.xor_assoc]

theorem source_list_id_eq_crc32 (pairs : id_offset_pairs_t) :
    ∀ crc : Nat, source_list_id pairs crc = crc32 crc (pairs.flatMap fun p => le64 p.1) := by
  induction pairs with
  | nil => intro crc; simp [source_list_id, crc32_nil]
  | cons it rest ih =>
    intro crc
    simp only [source_list_id, List.flatMap_cons]
    rw [ih, crc32_append]

/-! ### The claims on `find_expanded_hash` -/

/-- C6: on a scan manager whose memo set of hashes starts empty, the first call of
`find_expanded_hash` for a hash that `find_hash` matches returns true with a non-empty text,
and every later call for the same hash, whatever calls come between, returns true with the empty
text. -/
theorem find_expanded_hash_memoizes_hashes (sm : scan_manager_t) (before between : List String)
    (binary_hash : String) (hfresh : sm.hashes = []) (hfirst : binary_hash ∉ before)
    (hmatch : (sm.find_hash binary_hash).matched = true) :
    ((sm.run before).find_expanded_hash binary_hash).matched = true ∧
    ((sm.run before).find_expanded_hash binary_hash).expanded_text ≠ "" ∧
    ((((sm.run before).find_expanded_hash binary_hash).manager.run between).find_expanded_hash
      binary_hash).matched = true ∧
    ((((sm.run before).find_expanded_hash binary_hash).manager.run between).find_expanded_hash
      binary_hash).expanded_text = "" := by
  have hl1 := run_lookups before sm
  have hm1 : ((sm.run before).find_hash binary_hash).matched = true := by
    rw [find_hash_congr _ _ hl1]
    exact hmatch
  have hn1 : binary_hash ∉ (sm.run before).hashes := by
    rw [run_hashes, hfresh]
    simp [hfirst]
  have hexp := (expands_iff _ _).2 ⟨hm1, hn1⟩
  obtain ⟨h1, h2, h3, _, h5⟩ := find_expanded_hash_of_expands (sm.run before) binary_hash hexp
  refine ⟨h1, ?_, ?_⟩
  · rw [h2]
    intro heq
    have hlen := congrArg String.length heq
    simp only [String.length_append] at hlen
    have e1 : ("]" : String).length = 1 := rfl
    have e2 : ("" : String).length = 0 := rfl
    omega
  · generalize ((sm.run before).find_expanded_hash binary_hash).manager = sm2 at h3 h5 ⊢
    have hl3 := run_lookups between sm2
    have hm3 : ((sm2.run between).find_hash binary_hash).matched = true := by
      rw [find_hash_congr _ _ hl3, find_hash_congr _ _ h5]
      exact hm1
    have hin3 : binary_hash ∈ (sm2.run between).hashes := by
      rw [run_hashes, h3]
      exact Or.inl (List.mem_cons_self _ _)
    have hnot : (sm2.run between).expands binary_hash = false := by
      cases hb : (sm2.run between).expands binary_hash with
      | false => rfl
      | true => exact absurd hin3 ((expands_iff _ _).1 hb).2
    rw [find_expanded_hash_of_not_expands _ _ hnot]
    exact ⟨hm3, rfl⟩

/-- C6 on a session: the hash "a" is matched; its first expansion, after a call for "b", gives
a text, and the call after two more calls gives the empty text. -/
theorem find_expanded_hash_memoizes_hashes_witness :
    ((example_scan_manager.run ["b"]).find_expanded_hash "a").matched = true ∧
    ((example_scan_manager.run ["b"]).find_expanded_hash "a").expanded_text ≠ "" ∧
    ((((example_scan_manager.run ["b"]).find_expanded_hash "a").manager.run
      ["b", "a"]).find_expanded_hash "a").matched = true ∧
    ((((example_scan_manager.run ["b"]).find_expanded_hash "a").manager.run
      ["b", "a"]).find_expanded_hash "a").expanded_text = "" :=
  find_expanded_hash_memoizes_hashes example_scan_manager ["b"] ["b", "a"] "a" rfl
    (by decide) (by decide)

theorem trace_append (a b : List String) :
    ∀ sm : scan_manager_t, sm.trace (a ++ b) = sm.trace a ++ (sm.run a).trace b := by
  induction a with
  | nil => intro sm; rfl
  | cons h rest ih =>
    intro sm
    show sm.emitted h :: (sm.find_expanded_hash h).manager.trace (rest ++ b) = _
    rw [ih]
    rfl

/-- C7: in a session of `find_expanded_hash` calls on a scan manager whose memo sets start
empty, no source id has its source information emitted twice, neither in two calls nor twice
in one; the call after the calls `before` emits the source id `s` exactly when it is an
expansion (its hash is matched and was not called before), `s` is a source id of its pairs and
no earlier expansion had `s` among its pairs; and the text of an expansion carries the source
information of the emitted ids, each once, in its "sources" object. -/
theorem find_expanded_hash_memoizes_sources (sm : scan_manager_t)
    (hfresh : sm.hashes = [] ∧ sm.source_ids = []) (calls : List String) :
    (sm.trace calls).flatten.Nodup ∧
    (∀ (before after : List String) (h : String), calls = before ++ h :: after →
      sm.trace calls
        = sm.trace before ++ (sm.run before).emitted h
            :: ((sm.run before).find_expanded_hash h).manager.trace after) ∧
    (∀ (before : List String) (h : String) (s : Nat),
      s ∈ (sm.run before).emitted h ↔
        ((sm.find_hash h).matched = true ∧ h ∉ before) ∧
        s ∈ pair_source_ids (sm.find_hash h).pairs ∧
        ∀ h' ∈ before, (sm.find_hash h').matched = true →
          s ∉ pair_source_ids (sm.find_hash h').pairs) ∧
    (∀ (before : List String) (h : String), (sm.run before).expands h = true →
      ((sm.run before).find_expanded_hash h).expanded_text
        = "[" ++ source_list_id_object (source_list_id (sm.find_hash h).pairs 0)
          ++ "," ++ sources_object (((sm.run before).emitted h).map (source_information sm))
          ++ "," ++ id_offset_pairs_object (sm.find_hash h).pairs ++ "]") := by
  refine ⟨(trace_nodup calls sm).1, ?_, ?_, ?_⟩
  · intro before after h hcalls
    rw [hcalls, trace_append]
    rfl
  · intro before h s
    have hl := run_lookups before sm
    have hinv := run_source_ids before sm (by simp [hfresh.1, hfresh.2]) s
    have hh : ∀ x, x ∈ (sm.run before).hashes
        ↔ x ∈ before ∧ (sm.find_hash x).matched = true := by
      intro x
      rw [run_hashes, hfresh.1]
      simp
    unfold scan_manager_t.emitted
    by_cases hexp : (sm.run before).expands h = true
    · have hexp' := (expands_iff _ _).1 hexp
      rw [find_hash_congr _ _ hl, hh] at hexp'
      simp only [hexp, if_true, (printed_source_ids_spec _ _).2 s, find_hash_congr _ _ hl, hinv]
      constructor
      · rintro ⟨h1, h2⟩
        refine ⟨⟨hexp'.1, fun hb => hexp'.2 ⟨hb, hexp'.1⟩⟩, h1, ?_⟩
        intro h' hb hm hs
        exact h2 ⟨h', (hh h').2 ⟨hb, hm⟩, hs⟩
      · rintro ⟨_, h1, h2⟩
        refine ⟨h1, ?_⟩
        rintro ⟨h', hb, hs⟩
        exact h2 h' ((hh h').1 hb).1 ((hh h').1 hb).2 hs
    · rw [if_neg hexp]
      simp only [List.not_mem_nil, false_iff]
      rintro ⟨⟨hm, hb⟩, _, _⟩
      apply hexp
      rw [expands_iff, find_hash_congr _ _ hl, hh]
      exact ⟨hm, fun hx => hb hx.1⟩
  · intro before h hexp
    have hl := run_lookups before sm
    rw [(find_expanded_hash_of_expands _ _ hexp).2.1, find_hash_congr _ _ hl,
      source_information_congr _ _ hl]

/-- C7 on a session: the calls "a", "b", "a" on the example manager emit the sources 1 and 2
in the first call, each once, and nothing afterwards. -/
theorem find_expanded_hash_memoizes_sources_witness :
    (example_scan_manager.trace ["a", "b", "a"]).flatten.Nodup ∧
    example_scan_manager.trace ["a", "b", "a"] = [[1, 2], [], []] :=
  ⟨(find_expanded_hash_memoizes_sources example_scan_manager ⟨rfl, rfl⟩ ["a", "b", "a"]).1,
   by decide⟩

theorem crc32_bit_lt (c : Nat) (h : c < 2 ^ 32) : crc32_bit c < 2 ^ 32 := by
  unfold crc32_bit
  split
  · exact Nat.xor_lt_two_pow (by omega) (by norm_num)
  · omega

theorem crc32_byte_lt (c b : Nat) (hc : c < 2 ^ 32) (hb : b < 256) :
    crc32_byte c b < 2 ^ 32 := by
  unfold crc32_byte
  have h0 : c ^^^ b < 2 ^ 32 := Nat.xor_lt_two_pow hc (by omega)
  exact crc32_bit_lt _ (crc32_bit_lt _ (crc32_bit_lt _ (crc32_bit_lt _ (crc32_bit_lt _
    (crc32_bit_lt _ (crc32_bit_lt _ (crc32_bit_lt _ h0)))))))

theorem crc32_lt (crc : Nat) (buf : List Nat) (hc : crc < 2 ^ 32) (hb : ∀ b ∈ buf, b < 256) :
    crc32 crc buf < 2 ^ 32 := by
  unfold crc32
  have h0 : crc ^^^ 0xFFFFFFFF < 2 ^ 32 := Nat.xor_lt_two_pow hc (by norm_num)
  have hfold : ∀ (l : List Nat) (c : Nat), c < 2 ^ 32 → (∀ b ∈ l, b < 256) →
      l.foldl crc32_byte c < 2 ^ 32 := by
    intro l
    induction l with
    | nil => intro c h _; simpa using h
    | cons x rest ih =>
      intro c h hl
      simp only [List.foldl_cons]
      exact ih _ (crc32_byte_lt c x h (hl x (List.mem_cons_self _ _)))
        (fun b hb' => hl b (List.mem_cons_of_mem _ hb'))
  exact Nat.xor_lt_two_pow (hfold buf _ h0 hb) (by norm_num)

/-- C8: the `source_list_id` that an expansion emits is the CRC-32, chained from 0, of the
8-byte little-endian encodings of the source id of every pair, one block per pair in the order
of the pairs; it is a 32-bit value and the text starts with it as object[0]. -/
theorem source_list_id_is_crc32 (sm : scan_manager_t) (binary_hash : String)
    (hexp : sm.expands binary_hash = true) :
    source_list_id (sm.find_hash binary_hash).pairs 0
      = crc32 0 ((sm.find_hash binary_hash).pairs.flatMap fun p => le64 p.1) ∧
    crc32 0 ((sm.find_hash binary_hash).pairs.flatMap fun p => le64 p.1) < 2 ^ 32 ∧
    ∃ rest, (sm.find_expanded_hash binary_hash).expanded_text
      = "[\x7b\"source_list_id\":"
        ++ toString (crc32 0 ((sm.find_hash binary_hash).pairs.flatMap fun p => le64 p.1))
        ++ "\x7d" ++ rest := by
  refine ⟨source_list_id_eq_crc32 _ 0, ?_, ?_⟩
  · apply crc32_lt _ _ (by norm_num)
    intro b hb
    simp only [List.mem_flatMap, le64, List.mem_map] at hb
    obtain ⟨_, _, i, _, rfl⟩ := hb
    exact Nat.mod_lt _ (by norm_num)
  · rw [(find_expanded_hash_of_expands sm binary_hash hexp).2.1, source_list_id_eq_crc32]
    refine ⟨"," ++ sources_object ((sm.emitted binary_hash).map (source_information sm))
      ++ "," ++ id_offset_pairs_object (sm.find_hash binary_hash).pairs ++ "]", ?_⟩
    simp only [source_list_id_object, String.append_assoc]
    rfl

/-- C8 on the pairs (1,512),(2,1024): the `source_list_id` is the CRC-32 of the eight bytes of 1
followed by the eight bytes of 2, which is 16178617. -/
theorem source_list_id_is_crc32_witness :
    source_list_id [(1, 512), (2, 1024)] 0
      = crc32 0 ([1, 0, 0, 0, 0, 0, 0, 0] ++ [2, 0, 0, 0, 0, 0, 0, 0]) ∧
    crc32 0 ([1, 0, 0, 0, 0, 0, 0, 0] ++ [2, 0, 0, 0, 0, 0, 0, 0]) = 16178617 :=
  ⟨(source_list_id_is_crc32 example_scan_manager "a" (by decide)).1, by decide⟩

/-- A first expansion of a matched hash returns true with the text "[" object[0] ","
object[1] "," object[2] "]", whose third object is the `id_offset_pairs` array of the pairs of
the hash flattened as id, offset, id, offset in the order the pairs container is walked, with a
comma between the numbers only; when the container is walked by source id and then by offset,
the source ids of the array ascend and so do the offsets of one source id. -/
theorem expansion_text_of_ordered_pairs (sm : scan_manager_t) (binary_hash : String)
    (hexp : sm.expands binary_hash = true)
    (hasc : (sm.find_hash binary_hash).pairs.Pairwise pair_lt) :
    (sm.find_expanded_hash binary_hash).matched = true ∧
    (sm.find_expanded_hash binary_hash).expanded_text
      = "[" ++ source_list_id_object (source_list_id (sm.find_hash binary_hash).pairs 0)
        ++ "," ++ sources_object ((sm.emitted binary_hash).map (source_information sm))
        ++ "," ++ id_offset_pairs_object (sm.find_hash binary_hash).pairs ++ "]" ∧
    id_offset_pairs_object (sm.find_hash binary_hash).pairs
      = "\x7b\"id_offset_pairs\":["
        ++ ",".intercalate
            ((sm.find_hash binary_hash).pairs.flatMap fun p => [toString p.1, toString p.2])
        ++ "]\x7d" ∧
    (pair_source_ids (sm.find_hash binary_hash).pairs).Pairwise (· ≤ ·) ∧
    ∀ id : Nat,
      (((sm.find_hash binary_hash).pairs.filter fun p => decide (p.1 = id)).map
        Prod.snd).Pairwise (· < ·) := by
  refine ⟨(find_expanded_hash_of_expands sm binary_hash hexp).1,
    (find_expanded_hash_of_expands sm binary_hash hexp).2.1, rfl, ?_, ?_⟩
  · unfold pair_source_ids
    refine List.Pairwise.map Prod.fst ?_ hasc
    intro p q hpq
    rcases hpq with h | ⟨h, _⟩
    · exact Nat.le_of_lt h
    · exact Nat.le_of_eq h
  · intro id
    have hf := List.Pairwise.and_mem.1
      (hasc.filter fun p => decide (p.1 = id))
    refine List.Pairwise.map Prod.snd ?_ hf
    intro p q ⟨hp, hq, hpq⟩
    have hp1 : p.1 = id := by simpa using (List.mem_filter.1 hp).2
    have hq1 : q.1 = id := by simpa using (List.mem_filter.1 hq).2
    rcases hpq with h | ⟨_, h⟩
    · omega
    · exact h

/-! ### The order of the pairs of a record -/

theorem mem_of_find_source_entry (source_id : Nat) (e : source_id_offsets_t)
    (l : List source_id_offsets_t) (h : find_source_entry source_id l = some e) :
    e ∈ l ∧ e.source_id = source_id := by
  induction l with
  | nil => exact Option.noConfusion (show (none : Option source_id_offsets_t) = some e from h)
  | cons x rest ih =>
    have h2 : (if x.source_id = source_id then some x else find_source_entry source_id rest)
        = some e := h
    by_cases hx : x.source_id = source_id
    · rw [if_pos hx] at h2
      simp only [Option.some.injEq] at h2
      subst h2
      exact ⟨List.mem_cons_self _ _, hx⟩
    · rw [if_neg hx] at h2
      exact ⟨List.mem_cons_of_mem _ (ih h2).1, (ih h2).2⟩

theorem not_mem_of_find_source_entry (source_id : Nat) (l : List source_id_offsets_t)
    (h : find_source_entry source_id l = none) :
    ∀ e ∈ l, e.source_id ≠ source_id := by
  induction l with
  | nil =>
    intro e he
    exact absurd he (List.not_mem_nil _)
  | cons x rest ih =>
    have h2 : (if x.source_id = source_id then some x else find_source_entry source_id rest)
        = none := h
    by_cases hx : x.source_id = source_id
    · rw [if_pos hx] at h2
      exact Option.noConfusion h2
    · rw [if_neg hx] at h2
      intro e he
      rcases List.mem_cons.1 he with he | he
      · rw [he]
        exact hx
      · exact ih h2 e he

theorem add_file_offset_ordered (settings : hash_data_settings_t) (file_offsets : List Nat)
    (changes : lmdb_changes_t) (o : Nat) (h : file_offsets.Pairwise (· < ·)) :
    (add_file_offset settings file_offsets changes o).1.Pairwise (· < ·) := by
  unfold add_file_offset
  by_cases hmem : o ∈ file_offsets
  · rw [if_pos hmem]
    exact h
  · rw [if_neg hmem]
    by_cases hroom : file_offsets.length < settings.max_sub_count
    · rw [if_pos hroom]
      have hle : List.Sorted (· ≤ ·) file_offsets := List.Pairwise.imp Nat.le_of_lt h
      have hnd : file_offsets.Nodup := List.Pairwise.imp Nat.ne_of_lt h
      exact List.Sorted.lt_of_le (List.Sorted.orderedInsert o file_offsets hle)
        ((List.perm_orderedInsert (· ≤ ·) o file_offsets).nodup_iff.2
          (List.nodup_cons.2 ⟨hmem, hnd⟩))
    · rw [if_neg hroom]
      exact h

theorem add_file_offsets_ordered (settings : hash_data_settings_t) (new : List Nat) :
    ∀ (file_offsets : List Nat) (changes : lmdb_changes_t),
      file_offsets.Pairwise (· < ·) →
      (add_file_offsets settings new file_offsets changes).1.Pairwise (· < ·) := by
  induction new with
  | nil =>
    intro fo ch h
    exact h
  | cons o rest ih =>
    intro fo ch h
    exact ih _ _ (add_file_offset_ordered settings fo ch o h)

theorem replace_source_entry_ids (entry : source_id_offsets_t)
    (l : List source_id_offsets_t) :
    (replace_source_entry entry l).map (fun e => e.source_id)
      = l.map fun e => e.source_id := by
  induction l with
  | nil => rfl
  | cons x rest ih =>
    show ((if x.source_id = entry.source_id then entry :: rest
      else x :: replace_source_entry entry rest).map fun e => e.source_id) = _
    by_cases hx : x.source_id = entry.source_id
    · rw [if_pos hx, List.map_cons, List.map_cons, hx]
    · rw [if_neg hx, List.map_cons, List.map_cons, ih]

theorem insert_source_entry_ids (entry : source_id_offsets_t)
    (l : List source_id_offsets_t)
    (hs : (l.map fun e => e.source_id).Pairwise (· < ·))
    (hnew : ∀ e ∈ l, e.source_id ≠ entry.source_id) :
    ((insert_source_entry entry l).map fun e => e.source_id).Pairwise (· < ·) := by
  induction l with
  | nil => exact List.pairwise_singleton _ _
  | cons x rest ih =>
    have hx : ∀ y ∈ rest.map (fun e => e.source_id), x.source_id < y :=
      (List.pairwise_cons.1 hs).1
    have hrest : (rest.map fun e => e.source_id).Pairwise (· < ·) :=
      (List.pairwise_cons.1 hs).2
    show ((if entry.source_id < x.source_id then entry :: x :: rest
      else x :: insert_source_entry entry rest).map fun e => e.source_id).Pairwise (· < ·)
    by_cases hlt : entry.source_id < x.source_id
    · rw [if_pos hlt]
      refine List.pairwise_cons.2 ⟨?_, hs⟩
      intro y hy
      rcases List.mem_cons.1 hy with hy | hy
      · rw [hy]
        exact hlt
      · exact Nat.lt_trans hlt (hx y hy)
    · rw [if_neg hlt]
      have hne : x.source_id ≠ entry.source_id := hnew x (List.mem_cons_self _ _)
      refine List.pairwise_cons.2 ⟨?_, ih hrest
        (fun e he => hnew e (List.mem_cons_of_mem _ he))⟩
      intro y hy
      show x.source_id < y
      obtain ⟨e, he, hey⟩ := List.mem_map.1 hy
      have hey2 : e.source_id = y := hey
      rcases mem_insert_source_entry entry e rest he with h | h
      · rw [← hey2, h]
        omega
      · rw [← hey2]
        exact hx _ (List.mem_map.2 ⟨e, h, rfl⟩)

theorem update_source_entries_ordered (settings : hash_data_settings_t)
    (source_id sub_count : Nat) (file_offsets : List Nat) (bulk : Bool)
    (sources : List source_id_offsets_t) (changes : lmdb_changes_t)
    (h : sources_ordered sources) :
    sources_ordered
      (update_source_entries settings source_id sub_count file_offsets bulk sources
        changes).1 := by
  unfold update_source_entries
  cases hf : find_source_entry source_id sources with
  | some e0 =>
    have he0 := mem_of_find_source_entry source_id e0 sources hf
    refine ⟨?_, ?_⟩
    · simp only
      rw [replace_source_entry_ids]
      exact h.1
    · intro e he
      rcases mem_replace_source_entry _ _ _ he with h1 | h1
      · subst h1
        exact add_file_offsets_ordered settings file_offsets _ _ (h.2 e0 he0.1)
      · exact h.2 e h1
  | none =>
    have hnew := not_mem_of_find_source_entry source_id sources hf
    by_cases hroom : sources.length < settings.max_id_offset_pairs
    · simp only [hroom, if_true]
      refine ⟨insert_source_entry_ids _ sources h.1 hnew, ?_⟩
      intro e he
      rcases mem_insert_source_entry _ _ _ he with h1 | h1
      · subst h1
        exact add_file_offsets_ordered settings file_offsets _ _ List.Pairwise.nil
      · exact h.2 e h1
    · simp only [hroom, if_false]
      exact h

theorem write_ordered (m : lmdb_hash_data_manager_t) (hash : String) (entropy : Nat)
    (block_label : String) (source_id sub_count : Nat) (file_offsets : List Nat) (bulk : Bool)
    (changes : lmdb_changes_t) (h : table_ordered m.table) :
    table_ordered
      (m.write hash entropy block_label source_id sub_count file_offsets bulk
        changes).manager.table := by
  unfold lmdb_hash_data_manager_t.write
  split
  · exact h
  · split
    · exact h
    · split
      · intro key r hr
        by_cases hk : key = hash
        · subst hk
          simp only [table_get_put_same, Option.some.injEq] at hr
          subst hr
          exact update_source_entries_ordered m.settings source_id sub_count file_offsets bulk
            [] changes ⟨List.Pairwise.nil, fun e he => absurd he (List.not_mem_nil _)⟩
        · rw [table_get_put_other _ _ _ _ hk] at hr
          exact h key r hr
      · rename_i r0 hsome
        intro key r hr
        by_cases hk : key = hash
        · subst hk
          simp only [table_get_put_same, Option.some.injEq] at hr
          subst hr
          exact update_source_entries_ordered m.settings source_id sub_count file_offsets bulk
            r0.sources _ (h key r0 hsome)
        · rw [table_get_put_other _ _ _ _ hk] at hr
          exact h key r hr

theorem inserts_ordered (calls : List insert_call_t) :
    ∀ (m : lmdb_hash_data_manager_t) (changes : lmdb_changes_t),
      table_ordered m.table → table_ordered (m.inserts changes calls).1.table := by
  induction calls with
  | nil =>
    intro m ch h
    exact h
  | cons c rest ih =>
    intro m ch h
    simp only [lmdb_hash_data_manager_t.inserts]
    apply ih
    cases c <;> exact write_ordered _ _ _ _ _ _ _ _ _ h

theorem find_sources_ordered (settings : hash_data_settings_t) (calls : List insert_call_t)
    (hash : String) :
    sources_ordered ((hash_data_after settings calls).find hash).source_id_offsets := by
  have hinv := inserts_ordered calls (lmdb_hash_data_manager_t.create settings) no_changes
    (by
      intro key r hr
      exact Option.noConfusion (show (none : Option hash_data_record_t) = some r from hr))
  unfold lmdb_hash_data_manager_t.find
  cases hg : table_get hash (hash_data_after settings calls).table with
  | none => exact ⟨List.Pairwise.nil, fun e he => absurd he (List.not_mem_nil _)⟩
  | some r => exact hinv hash r hg

theorem id_offset_pairs_ordered (sources : List source_id_offsets_t)
    (h : sources_ordered sources) : (id_offset_pairs_of sources).Pairwise pair_lt := by
  unfold id_offset_pairs_of
  rw [List.pairwise_flatMap]
  refine ⟨?_, ?_⟩
  · intro e he
    refine List.Pairwise.map _ ?_ (h.2 e he)
    intro a b hab
    exact Or.inr ⟨rfl, hab⟩
  · have hids := List.pairwise_map.1 h.1
    refine List.Pairwise.imp ?_ hids
    intro a b hab x hx y hy
    obtain ⟨_, _, hx2⟩ := List.mem_map.1 hx
    obtain ⟨_, _, hy2⟩ := List.mem_map.1 hy
    rw [← hx2, ← hy2]
    exact Or.inl hab

/-- C9: on the hash-data store that any sequence of inserts leaves, a first expansion of a
matched hash returns true with the text "[" object[0] "," object[1] "," object[2] "]", whose
third object is the `id_offset_pairs` array of the pairs of the record flattened as id, offset,
id, offset with a comma between the numbers only; the pairs are those of the source entries of
the record, which the store keeps by ascending source id with ascending offsets, so the source
ids of the array ascend and so do the offsets of one source id. -/
theorem first_expansion_text (base : scan_manager_t) (settings : hash_data_settings_t)
    (calls : List insert_call_t) (labels : String → String) (binary_hash : String)
    (hexp : (base.reading (hash_data_after settings calls) labels).expands binary_hash
      = true) :
    ((base.reading (hash_data_after settings calls) labels).find_expanded_hash
      binary_hash).matched = true ∧
    ((base.reading (hash_data_after settings calls) labels).find_expanded_hash
      binary_hash).expanded_text
      = "[" ++ source_list_id_object (source_list_id
            ((base.reading (hash_data_after settings calls) labels).find_hash
              binary_hash).pairs 0)
        ++ "," ++ sources_object
            (((base.reading (hash_data_after settings calls) labels).emitted binary_hash).map
              (source_information (base.reading (hash_data_after settings calls) labels)))
        ++ "," ++ id_offset_pairs_object
            ((base.reading (hash_data_after settings calls) labels).find_hash
              binary_hash).pairs ++ "]" ∧
    id_offset_pairs_object
        ((base.reading (hash_data_after settings calls) labels).find_hash binary_hash).pairs
      = "\x7b\"id_offset_pairs\":["
        ++ ",".intercalate
            (((base.reading (hash_data_after settings calls) labels).find_hash
              binary_hash).pairs.flatMap fun p => [toString p.1, toString p.2])
        ++ "]\x7d" ∧
    ((base.reading (hash_data_after settings calls) labels).find_hash binary_hash).pairs
      = id_offset_pairs_of
          ((hash_data_after settings calls).find binary_hash).source_id_offsets ∧
    ((base.reading (hash_data_after settings calls) labels).find_hash
      binary_hash).pairs.Pairwise pair_lt ∧
    (pair_source_ids
      ((base.reading (hash_data_after settings calls) labels).find_hash
        binary_hash).pairs).Pairwise (· ≤ ·) ∧
    ∀ id : Nat,
      ((((base.reading (hash_data_after settings calls) labels).find_hash
        binary_hash).pairs.filter fun p => decide (p.1 = id)).map Prod.snd).Pairwise
        (· < ·) := by
  have hpairs : ((base.reading (hash_data_after settings calls) labels).find_hash
      binary_hash).pairs
      = id_offset_pairs_of
          ((hash_data_after settings calls).find binary_hash).source_id_offsets := by
    have hm := ((expands_iff _ binary_hash).1 hexp).1
    unfold scan_manager_t.find_hash at hm ⊢
    by_cases hk : (base.reading (hash_data_after settings calls)
        labels).lmdb_hash_manager_find binary_hash = true
    · rw [if_pos hk]
      rfl
    · rw [if_neg hk] at hm
      exact Bool.noConfusion hm
  have hasc : ((base.reading (hash_data_after settings calls) labels).find_hash
      binary_hash).pairs.Pairwise pair_lt := by
    rw [hpairs]
    exact id_offset_pairs_ordered _ (find_sources_ordered settings calls binary_hash)
  have h := expansion_text_of_ordered_pairs _ binary_hash hexp hasc
  exact ⟨h.1, h.2.1, h.2.2.1, hpairs, hasc, h.2.2.2.1, h.2.2.2.2⟩

/-- C9 on scenario S7: after the inserts of source 1 at offset 512 and of source 2 at offset
1024 the first expansion of the hash returns true and its third object is the array
[1,512,2,1024]; and after inserts made in the order (2,1024), (1,512), (1,0) the array is
[1,0,1,512,2,1024]. -/
theorem first_expansion_text_witness :
    ((example_reading_scan_manager
      [.single binary_0 1 "bl" 1 512, .single binary_0 1 "bl" 2 1024]).find_expanded_hash
        binary_0).matched = true ∧
    id_offset_pairs_object
        ((example_reading_scan_manager
          [.single binary_0 1 "bl" 1 512, .single binary_0 1 "bl" 2 1024]).find_hash
            binary_0).pairs
      = "\x7b\"id_offset_pairs\":[1,512,2,1024]\x7d" ∧
    id_offset_pairs_object
        ((example_reading_scan_manager
          [.single binary_0 1 "bl" 2 1024, .single binary_0 1 "bl" 1 512,
            .single binary_0 1 "bl" 1 0]).find_hash binary_0).pairs
      = "\x7b\"id_offset_pairs\":[1,0,1,512,2,1024]\x7d" :=
  ⟨(first_expansion_text
      { example_scan_manager with lmdb_hash_manager_find := fun _ => true } ⟨512, 4, 4⟩
      [.single binary_0 1 "bl" 1 512, .single binary_0 1 "bl" 2 1024] (fun _ => "") binary_0
      (by decide)).1,
   by decide, by decide⟩

/-- C10 on the code: the first expansion of "a" on the example manager emits the source objects
of the sources 1 and 2 one right after the other, the closing brace of the first followed by the
opening brace of the second with no comma between them. -/
theorem sources_array_without_comma :
    (example_scan_manager.find_expanded_hash "a").expanded_text
      = "[\x7b\"source_list_id\":16178617\x7d,\x7b\"sources\":["
        ++ "\x7b\"source_id\":1\"file_hash\":\"01ab\",\"filesize\":800,\"file_type\":\"exe\""
        ++ ",\"low_entropy_count\":0,\"names\"[\x7b\"repository_name\":\"repository1\""
        ++ ",\"filename\":\"filename1\"\x7d]\x7d"
        ++ "\x7b\"source_id\":2\"file_hash\":\"01ab\",\"filesize\":800,\"file_type\":\"exe\""
        ++ ",\"low_entropy_count\":0,\"names\"[]\x7d"
        ++ "]\x7d,\x7b\"id_offset_pairs\":[1,512,2,1024]\x7d]" := by
  decide

/-! ### The text of `provide_source_information` -/

theorem provide_names_succ (names : source_names_t) :
    ∀ (i : Nat) (ss : String),
      provide_names names (i + 1) ss
        = String.intercalate.go ss "," (names.map name_pair_text) := by
  induction names with
  | nil => intro i ss; simp [provide_names, String.intercalate.go]
  | cons it rest ih =>
    intro i ss
    simp only [provide_names, List.map_cons, String.intercalate.go, Nat.succ_pos, if_true,
      gt_iff_lt]
    rw [ih]
    simp only [name_pair_text, String.append_assoc]

theorem provide_names_zero (names : source_names_t) :
    provide_names names 0 "" = ",".intercalate (names.map name_pair_text) := by
  cases names with
  | nil => simp [provide_names, String.intercalate]
  | cons it rest =>
    simp only [provide_names, List.map_cons, String.intercalate, gt_iff_lt, lt_self_iff_false,
      if_false]
    rw [provide_names_succ]
    simp only [name_pair_text, String.append_assoc, String.empty_append]

theorem provide_names_from_empty (names : source_names_t) (i : Nat) (ss : String) :
    provide_names names i ss = ss ++ provide_names names i "" := by
  have h := provide_names_append names i ss ""
  rwa [String.append_empty] at h

theorem source_information_eq (manager : scan_manager_t) (source_id : Nat) :
    source_information manager source_id
      = "\x7b\"source_id\":" ++ toString source_id
        ++ "\"file_hash\":\"" ++ to_hex (manager.find_source_data source_id).file_binary_hash
        ++ "\""
        ++ ",\"filesize\":" ++ toString (manager.find_source_data source_id).filesize
        ++ ",\"file_type\":\"" ++ (manager.find_source_data source_id).file_type ++ "\""
        ++ ",\"low_entropy_count\":"
        ++ toString (manager.find_source_data source_id).low_entropy_count
        ++ ",\"names\"["
        ++ ",".intercalate ((manager.find_source_names source_id).map name_pair_text)
        ++ "]\x7d" := by
  unfold source_information provide_source_information
  simp only []
  rw [provide_names_from_empty, provide_names_zero]
  simp only [String.append_assoc, String.empty_append]

/-- C11 on the code: for every source id the text of `provide_source_information`, which
`find_expanded_source` returns as it is, has the quote of the key "file_hash" right after the
digits of the source id and the bracket of the name list right after the key "names": against
the source object of the grammar, written from the same members, it lacks the comma and the
colon, so it is two characters shorter and differs from it; the name pairs are separated by
commas. -/
theorem source_information_lacks_comma_and_colon (manager : scan_manager_t) (source_id : Nat) :
    manager.find_expanded_source source_id = source_information manager source_id ∧
    source_information manager source_id
      = "\x7b\"source_id\":" ++ toString source_id
        ++ "\"file_hash\":\"" ++ to_hex (manager.find_source_data source_id).file_binary_hash
        ++ "\""
        ++ ",\"filesize\":" ++ toString (manager.find_source_data source_id).filesize
        ++ ",\"file_type\":\"" ++ (manager.find_source_data source_id).file_type ++ "\""
        ++ ",\"low_entropy_count\":"
        ++ toString (manager.find_source_data source_id).low_entropy_count
        ++ ",\"names\"["
        ++ ",".intercalate ((manager.find_source_names source_id).map name_pair_text)
        ++ "]\x7d" ∧
    (source_information manager source_id).length + 2
      = (source_information_grammar manager source_id).length ∧
    source_information manager source_id ≠ source_information_grammar manager source_id := by
  have hlen : (source_information manager source_id).length + 2
      = (source_information_grammar manager source_id).length := by
    rw [source_information_eq]
    unfold source_information_grammar
    simp only [String.length_append]
    have e1 : ("\"file_hash\":\"" : String).length + 1 = (",\"file_hash\":\"" : String).length :=
      by decide
    have e2 : (",\"names\"[" : String).length + 1 = (",\"names\":[" : String).length := by
      decide
    omega
  refine ⟨rfl, source_information_eq manager source_id, hlen, ?_⟩
  intro heq
  rw [heq] at hlen
  omega

/-- C12 on the code: the file type a"b\c is written as it is, its double quote and its
backslash unescaped, while the double quote in the filename of the name pair is escaped. -/
theorem file_type_written_unescaped :
    source_information quoted_type_scan_manager 1
      = "\x7b\"source_id\":1\"file_hash\":\"\",\"filesize\":0,\"file_type\":\"a\"b\\c\""
        ++ ",\"low_entropy_count\":0,\"names\"[\x7b\"repository_name\":\"r\""
        ++ ",\"filename\":\"f\\\"\"\x7d]\x7d" ∧
    escape_json (quoted_type_scan_manager.find_source_data 1).file_type = "a\\\"b\\\\c" := by
  decide

/-! ### `escape_json` -/

theorem escape_json_foldl (l : List Char) :
    ∀ acc : String,
      l.foldl (fun ss c => ss ++ escape_char c) acc = acc ++ String.join (l.map escape_char) := by
  induction l with
  | nil => intro acc; simp [String.join]
  | cons c rest ih =>
    intro acc
    simp only [List.foldl_cons, List.map_cons, join_cons]
    rw [ih, String.append_assoc]

theorem escape_json_eq_join (s : String) :
    escape_json s = String.join (s.data.map escape_char) := by
  unfold escape_json
  rw [escape_json_foldl, String.empty_append]

theorem join_append (l1 l2 : List String) :
    String.join (l1 ++ l2) = String.join l1 ++ String.join l2 := by
  induction l1 with
  | nil => simp [String.join]
  | cons x rest ih => simp only [List.cons_append, join_cons, ih, String.append_assoc]

theorem escape_json_data (s : String) :
    (escape_json s).data = s.data.flatMap fun c => (escape_char c).data := by
  rw [escape_json_eq_join, String.data_join]
  induction s.data with
  | nil => rfl
  | cons c rest ih => simp only [List.map_cons, List.flatten_cons, List.flatMap_cons, ih]

theorem escape_char_of_not_escaped (c : Char) (h : c ∉ escaped_chars) :
    escape_char c = String.singleton c := by
  simp only [escaped_chars, List.mem_cons, List.mem_singleton, not_or, List.not_mem_nil,
    or_false] at h
  obtain ⟨h1, h2, h3, h4, h5, h6, h7, h8⟩ := h
  simp [escape_char, h1, h2, h3, h4, h5, h6, h7, h8]

theorem flatMap_escape_char_of_not_escaped (l : List Char)
    (h : ∀ c ∈ l, c ∉ escaped_chars) :
    (l.flatMap fun c => (escape_char c).data) = l := by
  induction l with
  | nil => rfl
  | cons c rest ih =>
    rw [List.flatMap_cons, ih (fun x hx => h x (List.mem_cons_of_mem _ hx)),
      escape_char_of_not_escaped c (h c (List.mem_cons_self _ _))]
    rfl

/-- C13: for every string, `escape_json` is the concatenation over its characters, in order, of
the text for each character: the two-character escape for backslash, double quote, slash,
backspace, form feed, newline, carriage return and tab, and the character itself for every
other character; so a string with none of the eight comes back as it is, and `escape_json`
distributes over concatenation. -/
theorem escape_json_spec (s a b : String) :
    escape_json s = String.join (s.data.map escape_char) ∧
    (escape_char (Char.ofNat 92) = "\\\\" ∧ escape_char (Char.ofNat 34) = "\\\"" ∧
      escape_char (Char.ofNat 47) = "\\/" ∧ escape_char (Char.ofNat 8) = "\\b" ∧
      escape_char (Char.ofNat 12) = "\\f" ∧ escape_char (Char.ofNat 10) = "\\n" ∧
      escape_char (Char.ofNat 13) = "\\r" ∧ escape_char (Char.ofNat 9) = "\\t") ∧
    (∀ c : Char, c ∉ escaped_chars → escape_char c = String.singleton c) ∧
    ((∀ c ∈ s.data, c ∉ escaped_chars) → escape_json s = s) ∧
    escape_json (a ++ b) = escape_json a ++ escape_json b := by
  refine ⟨escape_json_eq_join s, by decide, escape_char_of_not_escaped, ?_, ?_⟩
  · intro hnone
    apply String.ext
    rw [escape_json_data]
    exact flatMap_escape_char_of_not_escaped s.data hnone
  · rw [escape_json_eq_join, escape_json_eq_join, escape_json_eq_join, String.data_append,
      List.map_append, join_append]

/-- C13 on concrete strings: "hashdb 3" has none of the eight characters and comes back as it
is, and the escape of a/b followed by a newline is the escape of a/ followed by the escape of
b and the newline, which is a\/b\n. -/
theorem escape_json_spec_witness :
    escape_json "hashdb 3" = "hashdb 3" ∧
    escape_json ("a/" ++ "b\n") = escape_json "a/" ++ escape_json "b\n" ∧
    escape_json "a/b\n" = "a\\/b\\n" :=
  ⟨(escape_json_spec "hashdb 3" "" "").2.2.2.1 (by decide),
   (escape_json_spec "" "a/" "b\n").2.2.2.2,
   by decide⟩

theorem valid_json_string_body_escape_char (c : Char) (rest : List Char)
    (hc : c.toNat < 32 → c ∈ escaped_chars) :
    valid_json_string_body ((escape_char c).data ++ rest) = valid_json_string_body rest := by
  by_cases hmem : c ∈ escaped_chars
  · simp only [escaped_chars, List.mem_cons, List.mem_singleton, List.not_mem_nil,
      or_false] at hmem
    rcases hmem with h | h | h | h | h | h | h | h <;> subst h <;> rfl
  · rw [escape_char_of_not_escaped c hmem]
    have hge : ¬ c.toNat < 32 := fun hlt => hmem (hc hlt)
    simp only [escaped_chars, List.mem_cons, List.mem_singleton, not_or, List.not_mem_nil,
      or_false] at hmem
    show valid_json_string_body (c :: rest) = valid_json_string_body rest
    conv_lhs => unfold valid_json_string_body
    simp only [if_neg hmem.1, if_neg hmem.2.1, if_neg hge]

theorem valid_json_string_body_flatMap (l : List Char)
    (h : ∀ c ∈ l, c.toNat < 32 → c ∈ escaped_chars) :
    valid_json_string_body (l.flatMap fun c => (escape_char c).data) = true := by
  induction l with
  | nil => rfl
  | cons c rest ih =>
    rw [List.flatMap_cons, valid_json_string_body_escape_char c _ (h c (List.mem_cons_self _ _))]
    exact ih (fun x hx => h x (List.mem_cons_of_mem _ hx))

/-- What holds of `escape_json` for C14: the output is a valid string body whenever every
control character of the input is one of backspace, form feed, newline, carriage return and
tab. -/
theorem escape_json_valid_of_escaped_controls (s : String)
    (h : ∀ c ∈ s.data, c.toNat < 32 → c ∈ escaped_chars) :
    valid_json_string_body (escape_json s).data = true := by
  rw [escape_json_data]
  exact valid_json_string_body_flatMap s.data h

/-- C14 on the code: the control character with code 1 is none of the eight cases of the
`switch`, so `escape_json` writes it as it is and the text between the quotes holds a raw
control character: it is not a valid JSON string body; the same holds inside a longer string. -/
theorem escape_json_keeps_control_character :
    escape_json (String.mk [Char.ofNat 1]) = String.mk [Char.ofNat 1] ∧
    valid_json_string_body (escape_json (String.mk [Char.ofNat 1])).data = false ∧
    valid_json_string_body
      (escape_json (String.mk [Char.ofNat 97, Char.ofNat 1, Char.ofNat 98])).data = false := by
  decide

/-! ### The settings file and its content line -/

theorem file_system_set_same (fs : file_system_t) (path : String) (d : directory_t) :
    (fs.set path d).directories path = some d := by
  simp [file_system_t.set]

theorem file_system_set_other (fs : file_system_t) (path other : String) (d : directory_t)
    (h : other ≠ path) : (fs.set path d).directories other = fs.directories other := by
  simp [file_system_t.set, h]

theorem directory_set_same (d : directory_t) (name : String) (f : Option file_t) :
    (d.set name f).files name = f := by
  simp [directory_t.set]

theorem directory_set_other (d : directory_t) (name other : String) (f : Option file_t)
    (h : other ≠ name) : (d.set name f).files other = d.files other := by
  simp [directory_t.set, h]

theorem append_ne_empty (a b : String) (h : a.length ≠ 0) : a ++ b ≠ "" := by
  intro heq
  have hlen := congrArg String.length heq
  rw [String.length_append] at hlen
  have e : ("" : String).length = 0 := rfl
  omega

theorem segments_ne_nil (l : List Char) : segments l ≠ [] := by
  cases l with
  | nil => simp [segments]
  | cons c rest =>
    unfold segments
    split
    · simp
    · split <;> simp

theorem segments_line (l rest : List Char) (h : Char.ofNat 10 ∉ l) :
    segments (l ++ Char.ofNat 10 :: rest) = l :: segments rest := by
  induction l with
  | nil => simp [segments]
  | cons c tail ih =>
    have hc : c ≠ Char.ofNat 10 := fun e => h (e ▸ List.mem_cons_self _ _)
    have ht : Char.ofNat 10 ∉ tail := fun e => h (List.mem_cons_of_mem _ e)
    rw [List.cons_append, segments, if_neg hc, ih ht]

theorem content_line_skip (s : List Char) (rest : List (List Char)) (hrest : rest ≠ [])
    (hs : s.length = 0 ∨ s.head? = some (Char.ofNat 35)) :
    content_line (s :: rest) = content_line rest := by
  cases rest with
  | nil => exact absurd rfl hrest
  | cons x xs =>
    show (if s.length = 0 ∨ s.head? = some (Char.ofNat 35) then content_line (x :: xs) else s)
      = content_line (x :: xs)
    rw [if_pos hs]

theorem settings_line_leading_lines (lines : List String) (contents : String)
    (h : ∀ l ∈ lines, (l = "" ∨ l.data.head? = some (Char.ofNat 35))
      ∧ Char.ofNat 10 ∉ l.data) :
    settings_line (leading_lines lines ++ contents) = settings_line contents := by
  induction lines with
  | nil => simp [leading_lines, String.join]
  | cons l rest ih =>
    have hl := h l (List.mem_cons_self _ _)
    have ih' := ih (fun x hx => h x (List.mem_cons_of_mem _ hx))
    unfold settings_line at ih' ⊢
    have hdata : (leading_lines (l :: rest) ++ contents).data
        = l.data ++ Char.ofNat 10 :: (leading_lines rest ++ contents).data := by
      simp only [leading_lines, List.map_cons, join_cons, String.data_append]
      simp
    rw [hdata, segments_line _ _ hl.2, content_line_skip _ _ (segments_ne_nil _), ih']
    rcases hl.1 with h1 | h1
    · left
      rw [h1]
      rfl
    · right
      exact h1

/-! ### `read_settings` -/

theorem read_settings_of_object (parse : String → Option json_document_t) (fs : file_system_t)
    (hashdb_dir : String) (settings : hashdb_settings_t) (d : directory_t) (f : file_t)
    (members : List (String × json_value_t))
    (hd : fs.directories hashdb_dir = some d) (hf : d.files "settings.json" = some f)
    (hr : f.readable = true) (hline : settings_line f.contents ≠ "")
    (hparse : parse (settings_line f.contents) = some (json_document_t.object members)) :
    read_settings parse fs hashdb_dir settings
      = (get_uint64 members "data_store_version").bind fun v1 =>
        (get_uint64 members "sector_size").bind fun v2 =>
        (get_uint64 members "block_size").bind fun v3 =>
        (get_uint64 members "max_id_offset_pairs").bind fun v4 =>
        (get_uint64 members "hash_manager_hash_bytes").bind fun v5 =>
        (get_uint64 members "hash_manager_key_bits").bind fun v6 =>
          if v1 < settings.expected_data_store_version then
            some ⟨false, "The hashdb at path \x27" ++ hashdb_dir ++ "\x27 is not compatible.",
              { settings with
                data_store_version := v1, sector_size := v2, block_size := v3,
                max_id_offset_pairs := v4, hash_manager_hash_bytes := v5,
                hash_manager_key_bits := v6 }⟩
          else
            some ⟨true, "",
              { settings with
                data_store_version := v1, sector_size := v2, block_size := v3,
                max_id_offset_pairs := v4, hash_manager_hash_bytes := v5,
                hash_manager_key_bits := v6 }⟩ := by
  have hlen : ¬ (settings_line f.contents).length = 0 := by
    intro h0
    apply hline
    apply String.ext
    exact List.length_eq_zero.1 h0
  unfold read_settings
  simp only [hd, hf, hr, Bool.true_eq_false, if_false, hlen, hparse]

/-- C15: for a settings file that can be read and whose content line parses to a JSON object
holding an unsigned integer under each of the six keys, `read_settings` stores the six values
and returns (false, "The hashdb at path '<dir>' is not compatible.") when the data store
version is below the expected one, and (true, "") otherwise. -/
theorem read_settings_version (parse : String → Option json_document_t) (fs : file_system_t)
    (hashdb_dir : String) (settings : hashdb_settings_t) (d : directory_t) (f : file_t)
    (members : List (String × json_value_t)) (v1 v2 v3 v4 v5 v6 : Nat)
    (hd : fs.directories hashdb_dir = some d) (hf : d.files "settings.json" = some f)
    (hr : f.readable = true) (hline : settings_line f.contents ≠ "")
    (hparse : parse (settings_line f.contents) = some (json_document_t.object members))
    (h1 : get_uint64 members "data_store_version" = some v1)
    (h2 : get_uint64 members "sector_size" = some v2)
    (h3 : get_uint64 members "block_size" = some v3)
    (h4 : get_uint64 members "max_id_offset_pairs" = some v4)
    (h5 : get_uint64 members "hash_manager_hash_bytes" = some v5)
    (h6 : get_uint64 members "hash_manager_key_bits" = some v6) :
    (v1 < settings.expected_data_store_version →
      read_settings parse fs hashdb_dir settings
        = some ⟨false, "The hashdb at path \x27" ++ hashdb_dir ++ "\x27 is not compatible.",
            { settings with
              data_store_version := v1, sector_size := v2, block_size := v3,
              max_id_offset_pairs := v4, hash_manager_hash_bytes := v5,
              hash_manager_key_bits := v6 }⟩) ∧
    (settings.expected_data_store_version ≤ v1 →
      read_settings parse fs hashdb_dir settings
        = some ⟨true, "",
            { settings with
              data_store_version := v1, sector_size := v2, block_size := v3,
              max_id_offset_pairs := v4, hash_manager_hash_bytes := v5,
              hash_manager_key_bits := v6 }⟩) := by
  rw [read_settings_of_object parse fs hashdb_dir settings d f members hd hf hr hline hparse,
    h1, h2, h3, h4, h5, h6]
  simp only [Option.some_bind]
  constructor
  · intro hlt
    rw [if_pos hlt]
  · intro hge
    rw [if_neg (Nat.not_lt.2 hge)]

/-- C15 on a settings file with data store version 3 after a comment line: it is accepted when
version 3 is expected and reported as not compatible when version 4 is expected. -/
theorem read_settings_version_witness :
    read_settings example_parse (example_file_system example_settings_file) "db"
        example_settings
      = some ⟨true, "",
          { example_settings with
            data_store_version := 3, sector_size := 512, block_size := 512,
            max_id_offset_pairs := 100000, hash_manager_hash_bytes := 3,
            hash_manager_key_bits := 28 }⟩ ∧
    read_settings example_parse (example_file_system example_settings_file) "db"
        { example_settings with expected_data_store_version := 4 }
      = some ⟨false, "The hashdb at path \x27db\x27 is not compatible.",
          { example_settings with
            expected_data_store_version := 4,
            data_store_version := 3, sector_size := 512, block_size := 512,
            max_id_offset_pairs := 100000, hash_manager_hash_bytes := 3,
            hash_manager_key_bits := 28 }⟩ :=
  ⟨(read_settings_version example_parse (example_file_system example_settings_file) "db"
      example_settings (example_directory example_settings_file) example_settings_file
      example_members 3 512 512 100000 3 28 rfl rfl rfl (by decide) (by decide) rfl rfl rfl rfl rfl rfl).2
      (by decide),
   (read_settings_version example_parse (example_file_system example_settings_file) "db"
      { example_settings with expected_data_store_version := 4 }
      (example_directory example_settings_file) example_settings_file
      example_members 3 512 512 100000 3 28 rfl rfl rfl (by decide) (by decide) rfl rfl rfl rfl rfl rfl).1
      (by decide)⟩

theorem message_ne_empty (a b c : String) (h : a.length ≠ 0) : a ++ b ++ c ≠ "" := by
  rw [String.append_assoc]
  exact append_ne_empty a (b ++ c) h

theorem content_line_of_skipped (segs : List (List Char))
    (h : ∀ s ∈ segs, s.length = 0 ∨ s.head? = some (Char.ofNat 35)) :
    (content_line segs).length = 0 ∨ (content_line segs).head? = some (Char.ofNat 35) := by
  induction segs with
  | nil => left; rfl
  | cons s rest ih =>
    cases rest with
    | nil => exact h s (List.mem_cons_self _ _)
    | cons x xs =>
      rw [content_line_skip s (x :: xs) (by simp) (h s (List.mem_cons_self _ _))]
      exact ih (fun y hy => h y (List.mem_cons_of_mem _ hy))

/-- C16: `read_settings`, and with it `is_valid_hashdb`, returns a pair with ok = false and a
message, the settings untouched: "No hashdb at path '<dir>'." when the directory does not
exist, "Path '<dir>' is not a hashdb database." when it exists without settings.json, and a
non-empty message when the file has only empty lines and lines that start with the character #,
when its content line does not parse as JSON, and when it parses to a value that is not an
object.  A line that starts with # is no JSON text for the parser. -/
theorem read_settings_rejects (parse : String → Option json_document_t) (fs : file_system_t)
    (hashdb_dir : String) (settings : hashdb_settings_t)
    (hjson : ∀ line : String, line.data.head? = some (Char.ofNat 35) → parse line = none) :
    (fs.directories hashdb_dir = none →
      read_settings parse fs hashdb_dir settings
        = some ⟨false, "No hashdb at path \x27" ++ hashdb_dir ++ "\x27.", settings⟩ ∧
      is_valid_hashdb parse fs settings hashdb_dir
        = some (false, "No hashdb at path \x27" ++ hashdb_dir ++ "\x27.")) ∧
    (∀ d, fs.directories hashdb_dir = some d → d.files "settings.json" = none →
      read_settings parse fs hashdb_dir settings
        = some ⟨false, "Path \x27" ++ hashdb_dir ++ "\x27 is not a hashdb database.",
            settings⟩ ∧
      is_valid_hashdb parse fs settings hashdb_dir
        = some (false, "Path \x27" ++ hashdb_dir ++ "\x27 is not a hashdb database.")) ∧
    (∀ d f, fs.directories hashdb_dir = some d → d.files "settings.json" = some f →
      ((∀ s ∈ segments f.contents.data, s.length = 0 ∨ s.head? = some (Char.ofNat 35)) ∨
        parse (settings_line f.contents) = none ∨
        parse (settings_line f.contents) = some json_document_t.other) →
      ∃ message, message ≠ "" ∧
        read_settings parse fs hashdb_dir settings = some ⟨false, message, settings⟩ ∧
        is_valid_hashdb parse fs settings hashdb_dir = some (false, message)) := by
  refine ⟨?_, ?_, ?_⟩
  · intro hd
    simp [is_valid_hashdb, read_settings, hd]
  · intro d hd hf
    simp [is_valid_hashdb, read_settings, hd, hf]
  · intro d f hd hf hbad
    unfold is_valid_hashdb read_settings
    simp only [hd, hf]
    by_cases hr : f.readable = false
    · exact ⟨"Unable to open settings file at Path \x27" ++ hashdb_dir ++ ".",
        message_ne_empty _ _ _ (by decide), by simp [hr], by simp [hr]⟩
    · by_cases hlen : (settings_line f.contents).length = 0
      · exact ⟨"Empty settings file at path \x27" ++ hashdb_dir ++ "\x27.",
          message_ne_empty _ _ _ (by decide), by simp [hr, hlen], by simp [hr, hlen]⟩
      · have hcases : parse (settings_line f.contents) = none ∨
            parse (settings_line f.contents) = some json_document_t.other := by
          rcases hbad with h | h | h
          · left
            apply hjson
            rcases content_line_of_skipped _ h with h0 | h0
            · exact absurd h0 hlen
            · exact h0
          · exact Or.inl h
          · exact Or.inr h
        rcases hcases with h | h
        · exact ⟨"Invalid settings file at path \x27" ++ hashdb_dir ++ "\x27.",
            message_ne_empty _ _ _ (by decide), by simp [hr, hlen, h], by simp [hr, hlen, h]⟩
        · exact ⟨"Invalid JSON in settings file at path \x27" ++ hashdb_dir ++ "\x27.",
            message_ne_empty _ _ _ (by decide), by simp [hr, hlen, h], by simp [hr, hlen, h]⟩

/-- C16 on concrete files: a missing directory, a file of comment lines only, a line that is no
JSON and a line that is a JSON array are each rejected with the message of their case. -/
theorem read_settings_rejects_witness :
    read_settings example_parse (example_file_system example_settings_file) "nowhere"
        example_settings
      = some ⟨false, "No hashdb at path \x27nowhere\x27.", example_settings⟩ ∧
    read_settings example_parse (example_file_system ⟨"# one\n\n# two\n", true⟩) "db"
        example_settings
      = some ⟨false, "Empty settings file at path \x27db\x27.", example_settings⟩ ∧
    read_settings example_parse (example_file_system ⟨"# one\n# two", true⟩) "db"
        example_settings
      = some ⟨false, "Invalid settings file at path \x27db\x27.", example_settings⟩ ∧
    read_settings example_parse (example_file_system ⟨"sector_size=512\n", true⟩) "db"
        example_settings
      = some ⟨false, "Invalid settings file at path \x27db\x27.", example_settings⟩ ∧
    read_settings example_parse (example_file_system ⟨"[3]\n", true⟩) "db" example_settings
      = some ⟨false, "Invalid JSON in settings file at path \x27db\x27.", example_settings⟩ :=
  ⟨((read_settings_rejects example_parse (example_file_system example_settings_file) "nowhere"
      example_settings (by
        intro line h
        have h1 : line ≠ "[3]" := by rintro rfl; simp at h
        have h2 : line ≠ "\x7b\"data_store_version\":3\x7d" := by rintro rfl; simp at h
        have h3 : line ≠ "\x7b\"data_store_version\":3,\"sector_size\":512,\"block_size\":512,"
            ++ "\"max_id_offset_pairs\":100000,\"hash_manager_hash_bytes\":3,"
            ++ "\"hash_manager_key_bits\":28\x7d" := by rintro rfl; simp at h
        unfold example_parse
        rw [if_neg h3, if_neg h2, if_neg h1])).1 rfl).1,
   by decide, by decide, by decide, by decide⟩

theorem get_uint64_none (members : List (String × json_value_t)) (key : String)
    (h : members.lookup key = none ∨ members.lookup key = some json_value_t.other) :
    get_uint64 members key = none := by
  unfold get_uint64
  rcases h with h | h <;> rw [h]

/-- C17 on the code: for a settings file whose content line parses to a JSON object in which
one of the six keys is missing, or holds a value that is not an unsigned integer,
`read_settings` reaches `document[key].GetUint64()` without a check, the assertion of rapidjson
fails and no (ok, message) pair is returned. -/
theorem read_settings_asserts_on_missing_key (parse : String → Option json_document_t)
    (fs : file_system_t) (hashdb_dir : String) (settings : hashdb_settings_t) (d : directory_t)
    (f : file_t) (members : List (String × json_value_t)) (key : String)
    (hd : fs.directories hashdb_dir = some d) (hf : d.files "settings.json" = some f)
    (hr : f.readable = true) (hline : settings_line f.contents ≠ "")
    (hparse : parse (settings_line f.contents) = some (json_document_t.object members))
    (hkey : key ∈ settings_keys)
    (hmiss : members.lookup key = none ∨ members.lookup key = some json_value_t.other) :
    read_settings parse fs hashdb_dir settings = none := by
  rw [read_settings_of_object parse fs hashdb_dir settings d f members hd hf hr hline hparse]
  have hnone := get_uint64_none members key hmiss
  simp only [settings_keys, List.mem_cons, List.mem_singleton, List.not_mem_nil,
    or_false] at hkey
  rcases hkey with h | h | h | h | h | h <;> subst h
  · rw [hnone]
    rfl
  · cases get_uint64 members "data_store_version" <;> simp [hnone]
  · cases get_uint64 members "data_store_version" <;>
      cases get_uint64 members "sector_size" <;> simp [hnone]
  · cases get_uint64 members "data_store_version" <;>
      cases get_uint64 members "sector_size" <;>
      cases get_uint64 members "block_size" <;> simp [hnone]
  · cases get_uint64 members "data_store_version" <;>
      cases get_uint64 members "sector_size" <;>
      cases get_uint64 members "block_size" <;>
      cases get_uint64 members "max_id_offset_pairs" <;> simp [hnone]
  · cases get_uint64 members "data_store_version" <;>
      cases get_uint64 members "sector_size" <;>
      cases get_uint64 members "block_size" <;>
      cases get_uint64 members "max_id_offset_pairs" <;>
      cases get_uint64 members "hash_manager_hash_bytes" <;> simp [hnone]

/-- C17 at a concrete input: the settings file whose content line is the JSON object with the
key data_store_version only has no sector_size, and `read_settings` returns no pair. -/
theorem read_settings_asserts_on_missing_key_witness :
    read_settings example_parse
      (example_file_system ⟨"\x7b\"data_store_version\":3\x7d\n", true⟩) "db" example_settings
      = none :=
  read_settings_asserts_on_missing_key example_parse
    (example_file_system ⟨"\x7b\"data_store_version\":3\x7d\n", true⟩) "db" example_settings
    (example_directory ⟨"\x7b\"data_store_version\":3\x7d\n", true⟩)
    ⟨"\x7b\"data_store_version\":3\x7d\n", true⟩
    [("data_store_version", json_value_t.uint64 3)] "sector_size"
    rfl rfl rfl (by decide) (by decide) (by decide) (Or.inl (by decide))

theorem content_line_first (s : List Char) (rest : List (List Char))
    (hs : ¬ (s.length = 0 ∨ s.head? = some (Char.ofNat 35))) :
    content_line (s :: rest) = s := by
  cases rest with
  | nil => rfl
  | cons x xs =>
    show (if s.length = 0 ∨ s.head? = some (Char.ofNat 35) then content_line (x :: xs) else s)
      = s
    rw [if_neg hs]

theorem settings_line_first (l rest : String) (hne : l ≠ "")
    (hhash : l.data.head? ≠ some (Char.ofNat 35)) (hnl : Char.ofNat 10 ∉ l.data) :
    settings_line (l ++ "\n" ++ rest) = l := by
  unfold settings_line
  have hdata : (l ++ "\n" ++ rest).data = l.data ++ Char.ofNat 10 :: rest.data := by
    simp [String.data_append]
  rw [hdata, segments_line _ _ hnl, content_line_first]
  rintro (h | h)
  · apply hne
    apply String.ext
    exact List.length_eq_zero.1 h
  · exact hhash h

theorem settings_line_leading_lines_only (lines : List String)
    (h : ∀ l ∈ lines, (l = "" ∨ l.data.head? = some (Char.ofNat 35))
      ∧ Char.ofNat 10 ∉ l.data) :
    settings_line (leading_lines lines) = "" := by
  have h0 := settings_line_leading_lines lines "" h
  rw [String.append_empty] at h0
  rw [h0]
  rfl

theorem read_settings_of_line (parse : String → Option json_document_t) (fs : file_system_t)
    (hashdb_dir : String) (settings : hashdb_settings_t) (d : directory_t) (contents : String) :
    read_settings parse
        (fs.set hashdb_dir (d.set "settings.json" (some ⟨contents, true⟩))) hashdb_dir settings
      = if (settings_line contents).length = 0 then
          some ⟨false, "Empty settings file at path \x27" ++ hashdb_dir ++ "\x27.", settings⟩
        else
          match parse (settings_line contents) with
          | none =>
            some ⟨false, "Invalid settings file at path \x27" ++ hashdb_dir ++ "\x27.",
              settings⟩
          | some json_document_t.other =>
            some ⟨false, "Invalid JSON in settings file at path \x27" ++ hashdb_dir ++ "\x27.",
              settings⟩
          | some (json_document_t.object members) =>
            (get_uint64 members "data_store_version").bind fun v1 =>
            (get_uint64 members "sector_size").bind fun v2 =>
            (get_uint64 members "block_size").bind fun v3 =>
            (get_uint64 members "max_id_offset_pairs").bind fun v4 =>
            (get_uint64 members "hash_manager_hash_bytes").bind fun v5 =>
            (get_uint64 members "hash_manager_key_bits").bind fun v6 =>
              if v1 < settings.expected_data_store_version then
                some ⟨false,
                  "The hashdb at path \x27" ++ hashdb_dir ++ "\x27 is not compatible.",
                  { settings with
                    data_store_version := v1, sector_size := v2, block_size := v3,
                    max_id_offset_pairs := v4, hash_manager_hash_bytes := v5,
                    hash_manager_key_bits := v6 }⟩
              else
                some ⟨true, "",
                  { settings with
                    data_store_version := v1, sector_size := v2, block_size := v3,
                    max_id_offset_pairs := v4, hash_manager_hash_bytes := v5,
                    hash_manager_key_bits := v6 }⟩ := by
  unfold read_settings
  simp only [file_system_set_same, directory_set_same, Bool.true_eq_false, if_false]

/-- C18: `read_settings` decodes the first line of settings.json that is not empty and does not
start with the character #: for a settings file made of lines that are empty or start with #,
then a line `l` that is neither, then anything, the result is that of parsing `l`, "Invalid
settings file" when `l` is no JSON, "Invalid JSON in settings file" when it is no object, and
for an object with the six values the settings read from it with the outcome of the version
test; a file of such leading lines only is an "Empty settings file".  Hence lines that are
empty or start with #, put before the contents of any settings file, change nothing of what
`read_settings` returns, neither the pair nor the settings, nor whether it returns. -/
theorem read_settings_skips_leading_lines (parse : String → Option json_document_t)
    (fs : file_system_t) (hashdb_dir : String) (settings : hashdb_settings_t)
    (d : directory_t) (f : file_t) (lines : List String)
    (hd : fs.directories hashdb_dir = some d) (hf : d.files "settings.json" = some f)
    (hlines : ∀ l ∈ lines, (l = "" ∨ l.data.head? = some (Char.ofNat 35))
      ∧ Char.ofNat 10 ∉ l.data) :
    (∀ l rest : String, l ≠ "" → l.data.head? ≠ some (Char.ofNat 35) →
      Char.ofNat 10 ∉ l.data →
      settings_line (leading_lines lines ++ (l ++ "\n" ++ rest)) = l) ∧
    settings_line (leading_lines lines ++ f.contents) = settings_line f.contents ∧
    read_settings parse
        (fs.set hashdb_dir
          (d.set "settings.json" (some { f with contents := leading_lines lines ++ f.contents })))
        hashdb_dir settings
      = read_settings parse fs hashdb_dir settings ∧
    (∀ l rest : String, l ≠ "" → l.data.head? ≠ some (Char.ofNat 35) →
      Char.ofNat 10 ∉ l.data →
      (parse l = none →
        read_settings parse
            (fs.set hashdb_dir (d.set "settings.json"
              (some ⟨leading_lines lines ++ (l ++ "\n" ++ rest), true⟩))) hashdb_dir settings
          = some ⟨false, "Invalid settings file at path \x27" ++ hashdb_dir ++ "\x27.",
              settings⟩) ∧
      (parse l = some json_document_t.other →
        read_settings parse
            (fs.set hashdb_dir (d.set "settings.json"
              (some ⟨leading_lines lines ++ (l ++ "\n" ++ rest), true⟩))) hashdb_dir settings
          = some ⟨false,
              "Invalid JSON in settings file at path \x27" ++ hashdb_dir ++ "\x27.",
              settings⟩) ∧
      (∀ (members : List (String × json_value_t)) (v1 v2 v3 v4 v5 v6 : Nat),
        parse l = some (json_document_t.object members) →
        get_uint64 members "data_store_version" = some v1 →
        get_uint64 members "sector_size" = some v2 →
        get_uint64 members "block_size" = some v3 →
        get_uint64 members "max_id_offset_pairs" = some v4 →
        get_uint64 members "hash_manager_hash_bytes" = some v5 →
        get_uint64 members "hash_manager_key_bits" = some v6 →
        read_settings parse
            (fs.set hashdb_dir (d.set "settings.json"
              (some ⟨leading_lines lines ++ (l ++ "\n" ++ rest), true⟩))) hashdb_dir settings
          = some ⟨decide (settings.expected_data_store_version ≤ v1),
              if v1 < settings.expected_data_store_version then
                "The hashdb at path \x27" ++ hashdb_dir ++ "\x27 is not compatible."
              else "",
              { settings with
                data_store_version := v1, sector_size := v2, block_size := v3,
                max_id_offset_pairs := v4, hash_manager_hash_bytes := v5,
                hash_manager_key_bits := v6 }⟩)) ∧
    read_settings parse
        (fs.set hashdb_dir (d.set "settings.json" (some ⟨leading_lines lines, true⟩)))
        hashdb_dir settings
      = some ⟨false, "Empty settings file at path \x27" ++ hashdb_dir ++ "\x27.",
          settings⟩ := by
  have hline := settings_line_leading_lines lines f.contents hlines
  refine ⟨?_, hline, ?_, ?_, ?_⟩
  · intro l rest hne hhash hnl
    rw [settings_line_leading_lines lines _ hlines, settings_line_first l rest hne hhash hnl]
  · unfold read_settings
    simp only [file_system_set_same, directory_set_same, hd, hf, hline]
  · intro l rest hne hhash hnl
    have hl : settings_line (leading_lines lines ++ (l ++ "\n" ++ rest)) = l := by
      rw [settings_line_leading_lines lines _ hlines, settings_line_first l rest hne hhash hnl]
    have hlen : ¬ l.length = 0 := by
      intro h0
      apply hne
      apply String.ext
      exact List.length_eq_zero.1 h0
    rw [read_settings_of_line parse fs hashdb_dir settings d _, hl, if_neg hlen]
    refine ⟨?_, ?_, ?_⟩
    · intro hp
      rw [hp]
    · intro hp
      rw [hp]
    · intro members v1 v2 v3 v4 v5 v6 hp h1 h2 h3 h4 h5 h6
      rw [hp]
      simp only [h1, h2, h3, h4, h5, h6, Option.some_bind]
      by_cases hv : v1 < settings.expected_data_store_version
      · rw [if_pos hv, if_pos hv]
        have : decide (settings.expected_data_store_version ≤ v1) = false := by
          simpa using hv
        rw [this]
      · rw [if_neg hv, if_neg hv]
        have : decide (settings.expected_data_store_version ≤ v1) = true := by
          simpa using hv
        rw [this]
  · rw [read_settings_of_line parse fs hashdb_dir settings d _,
      settings_line_leading_lines_only lines hlines]
    rfl

/-- C18 on a concrete file: two comment lines and an empty line before the settings file of the
runs leave the result as it is, and the settings with data store version 3 are read; the line
"[3]" behind two skipped lines is parsed and refused as no object, whatever follows it; and
the three skipped lines alone are an empty settings file. -/
theorem read_settings_skips_leading_lines_witness :
    read_settings example_parse
        ((example_file_system example_settings_file).set "db"
          ((example_directory example_settings_file).set "settings.json"
            (some { example_settings_file with
              contents := leading_lines ["# created by hashdb", "", "#"]
                ++ example_settings_file.contents })))
        "db" example_settings
      = read_settings example_parse (example_file_system example_settings_file) "db"
          example_settings ∧
    (read_settings example_parse (example_file_system example_settings_file) "db"
      example_settings).map (fun r => (r.ok, r.settings.data_store_version))
      = some (true, 3) ∧
    read_settings example_parse
        ((example_file_system example_settings_file).set "db"
          ((example_directory example_settings_file).set "settings.json"
            (some ⟨leading_lines ["# one", ""] ++ ("[3]" ++ "\n" ++ "# more\nlines"), true⟩)))
        "db" example_settings
      = some ⟨false, "Invalid JSON in settings file at path \x27db\x27.", example_settings⟩ ∧
    read_settings example_parse
        ((example_file_system example_settings_file).set "db"
          ((example_directory example_settings_file).set "settings.json"
            (some ⟨leading_lines ["# created by hashdb", "", "#"], true⟩)))
        "db" example_settings
      = some ⟨false, "Empty settings file at path \x27db\x27.", example_settings⟩ :=
  ⟨(read_settings_skips_leading_lines example_parse (example_file_system example_settings_file)
      "db" example_settings (example_directory example_settings_file) example_settings_file
      ["# created by hashdb", "", "#"] rfl rfl (by decide)).2.2.1,
   by decide,
   ((read_settings_skips_leading_lines example_parse
      (example_file_system example_settings_file) "db" example_settings
      (example_directory example_settings_file) example_settings_file
      ["# one", ""] rfl rfl (by decide)).2.2.2.1 "[3]" "# more\nlines" (by decide) (by decide)
      (by decide)).2.1 rfl,
   (read_settings_skips_leading_lines example_parse (example_file_system example_settings_file)
      "db" example_settings (example_directory example_settings_file) example_settings_file
      ["# created by hashdb", "", "#"] rfl rfl (by decide)).2.2.2.2⟩

/-! ### `write_settings` and `create_hashdb` -/

theorem rename_status_writable (d : directory_t) (source : String)
    (h : d.rename_status source = 0) : d.writable = true := by
  unfold directory_t.rename_status at h
  by_cases hw : d.writable = true
  · exact hw
  · rw [if_neg (fun hc => hw hc.1)] at h
    exact absurd h (by decide)

theorem remove_writable (d : directory_t) (name : String) :
    (d.remove name).writable = d.writable := by
  unfold directory_t.remove
  split <;> rfl

/-- C19: when settings.json exists and the rename succeeds, `write_settings` returns (true, "")
and leaves the former settings file under the name _old_settings.json, whatever was there
before, the serialisation of the new settings followed by a newline in settings.json, and
every other file and directory as it was; when settings.json does not exist,
_old_settings.json is as it was. -/
theorem write_settings_keeps_prior (serialise : hashdb_settings_t → String)
    (strerror_errno : String) (fs : file_system_t) (hashdb_dir : String)
    (settings : hashdb_settings_t) :
    (∀ d f, fs.directories hashdb_dir = some d → d.files "settings.json" = some f →
      (d.remove "_old_settings.json").rename_status "settings.json" = 0 →
      (write_settings serialise strerror_errno fs hashdb_dir settings).2 = (true, "") ∧
      ∃ d2, (write_settings serialise strerror_errno fs hashdb_dir settings).1.directories
            hashdb_dir = some d2 ∧
        d2.files "_old_settings.json" = some f ∧
        d2.files "settings.json" = some ⟨serialise settings ++ "\n", true⟩ ∧
        ∀ n, n ≠ "settings.json" → n ≠ "_old_settings.json" → d2.files n = d.files n) ∧
    (∀ d, fs.directories hashdb_dir = some d → d.files "settings.json" = none →
      ∃ d2, (write_settings serialise strerror_errno fs hashdb_dir settings).1.directories
            hashdb_dir = some d2 ∧
        d2.files "_old_settings.json" = d.files "_old_settings.json") ∧
    (fs.directories hashdb_dir = none →
      (write_settings serialise strerror_errno fs hashdb_dir settings).1 = fs) ∧
    (∀ p, p ≠ hashdb_dir →
      (write_settings serialise strerror_errno fs hashdb_dir settings).1.directories p
        = fs.directories p) := by
  refine ⟨?_, ?_, ?_, ?_⟩
  · intro d f hd hf hren
    have hw : d.writable = true := by
      rw [← remove_writable d "_old_settings.json"]
      exact rename_status_writable _ _ hren
    have hd1 : (d.remove "_old_settings.json").rename "settings.json" "_old_settings.json"
        = ((d.set "_old_settings.json" none).set "_old_settings.json" (some f)).set
            "settings.json" none := by
      unfold directory_t.rename
      rw [if_pos hren]
      simp only [directory_t.remove, hw, if_true]
      rw [directory_set_other d "_old_settings.json" "settings.json" none (by decide), hf]
    unfold write_settings
    simp only [hd, hf, Option.isSome_some, if_true, hd1, directory_set_same]
    have hw1 : (((d.set "_old_settings.json" none).set "_old_settings.json" (some f)).set
        "settings.json" none).writable = true := hw
    simp only [hw1, Bool.true_eq_false, if_false, file_system_set_same]
    refine ⟨trivial, _, rfl, ?_, ?_, ?_⟩
    · simp [directory_t.set]
    · simp [directory_t.set]
    · intro n h1 h2
      simp [directory_t.set, h1, h2]
  · intro d hd hf
    unfold write_settings
    simp only [hd, hf, Option.isSome_none, Bool.false_eq_true, if_false]
    by_cases hw : d.writable = false
    · rw [if_pos hw]
      exact ⟨d, file_system_set_same _ _ _, rfl⟩
    · rw [if_neg hw]
      exact ⟨_, file_system_set_same _ _ _, by simp [directory_t.set]⟩
  · intro hd
    unfold write_settings
    simp only [hd]
  · intro p hp
    unfold write_settings
    cases hd : fs.directories hashdb_dir with
    | none => rfl
    | some d =>
      simp only []
      generalize (if (d.files "settings.json").isSome = true then
        (d.remove "_old_settings.json").rename "settings.json" "_old_settings.json"
        else d) = d1
      cases hf1 : d1.files "settings.json" with
      | some f1 =>
        exact file_system_set_other _ _ _ _ hp
      | none =>
        simp only []
        by_cases hw : d1.writable = false
        · rw [if_pos hw]
          exact file_system_set_other _ _ _ _ hp
        · rw [if_neg hw]
          exact file_system_set_other _ _ _ _ hp

/-- C19 on a concrete directory: the settings file of the runs is found again under
_old_settings.json, in place of the older backup, and settings.json holds the new settings and
a newline. -/
theorem write_settings_keeps_prior_witness :
    (write_settings example_externals.serialise "" (example_file_system example_settings_file)
      "db" { example_settings with data_store_version := 3, sector_size := 512 }).2
      = (true, "") ∧
    ((write_settings example_externals.serialise ""
        (example_file_system example_settings_file) "db"
        { example_settings with data_store_version := 3, sector_size := 512 }).1.directories
      "db").map (fun d => (d.files "_old_settings.json", d.files "settings.json"))
      = some (some example_settings_file, some ⟨"3 512\n", true⟩) :=
  ⟨((write_settings_keeps_prior example_externals.serialise ""
      (example_file_system example_settings_file) "db"
      { example_settings with data_store_version := 3, sector_size := 512 }).1
      (example_directory example_settings_file) example_settings_file rfl rfl
      (by decide)).1,
   by decide⟩

/-- When the directory takes no new entries, the settings file is not moved: the stream opens on
it, the new settings overwrite it and the call returns (true, ""). -/
theorem write_settings_overwrites_unmoved (serialise : hashdb_settings_t → String)
    (strerror_errno : String) (fs : file_system_t) (hashdb_dir : String)
    (settings : hashdb_settings_t) (d : directory_t) (f : file_t)
    (hd : fs.directories hashdb_dir = some d) (hf : d.files "settings.json" = some f)
    (hw : d.writable = false) :
    write_settings serialise strerror_errno fs hashdb_dir settings
      = (fs.set hashdb_dir
          (d.set "settings.json" (some { f with contents := serialise settings ++ "\n" })),
          (true, "")) := by
  have hren : (d.remove "_old_settings.json").rename "settings.json" "_old_settings.json"
      = d := by
    unfold directory_t.rename directory_t.rename_status directory_t.remove
    simp [hw]
  unfold write_settings
  simp only [hd, hf, Option.isSome_some, if_true, hren]

/-- C20: for a path that exists, `create_hashdb` returns (false, "Path '<hashdb_dir>' already
exists.") and the file system is as it was; for a path that does not exist and where the
directory can be made, it returns (true, "") after the new directory got a settings.json that
holds the serialisation, with a newline, of settings whose data store version is 3 and whose
sector size, block size, maximum of id offset pairs, hash prefix bits and hash suffix bytes are
the five parameters, and after the stores and the log were created over that. -/
theorem create_hashdb_refuses_existing_path (x : hashdb_externals_t) (fs : file_system_t)
    (hashdb_dir : String)
    (sector_size block_size max_id_offset_pairs hash_prefix_bits hash_suffix_bytes : Nat)
    (command_string : String) :
    ((fs.directories hashdb_dir).isSome = true →
      create_hashdb x fs hashdb_dir sector_size block_size max_id_offset_pairs
          hash_prefix_bits hash_suffix_bytes command_string
        = (fs, (false, "Path \x27" ++ hashdb_dir ++ "\x27 already exists."))) ∧
    (fs.directories hashdb_dir = none → fs.creatable hashdb_dir = true →
      create_hashdb x fs hashdb_dir sector_size block_size max_id_offset_pairs
          hash_prefix_bits hash_suffix_bytes command_string
        = (x.create_log hashdb_dir command_string
            (x.create_stores hashdb_dir
              ((fs.set hashdb_dir { writable := true, files := fun _ => none }).set hashdb_dir
                (directory_t.set { writable := true, files := fun _ => none } "settings.json"
                  (some ⟨x.serialise (create_hashdb_settings x.default_settings sector_size
                    block_size max_id_offset_pairs hash_prefix_bits hash_suffix_bytes)
                    ++ "\n", true⟩)))),
           (true, ""))) ∧
    (create_hashdb_settings x.default_settings sector_size block_size max_id_offset_pairs
        hash_prefix_bits hash_suffix_bytes).data_store_version = 3 ∧
    (create_hashdb_settings x.default_settings sector_size block_size max_id_offset_pairs
        hash_prefix_bits hash_suffix_bytes).sector_size = sector_size ∧
    (create_hashdb_settings x.default_settings sector_size block_size max_id_offset_pairs
        hash_prefix_bits hash_suffix_bytes).block_size = block_size ∧
    (create_hashdb_settings x.default_settings sector_size block_size max_id_offset_pairs
        hash_prefix_bits hash_suffix_bytes).max_id_offset_pairs = max_id_offset_pairs ∧
    (create_hashdb_settings x.default_settings sector_size block_size max_id_offset_pairs
        hash_prefix_bits hash_suffix_bytes).hash_prefix_bits = hash_prefix_bits ∧
    (create_hashdb_settings x.default_settings sector_size block_size max_id_offset_pairs
        hash_prefix_bits hash_suffix_bytes).hash_suffix_bytes = hash_suffix_bytes := by
  refine ⟨?_, ?_, rfl, rfl, rfl, rfl, rfl, rfl⟩
  · intro hex
    unfold create_hashdb
    rw [if_pos hex]
  · intro hnone hmk
    unfold create_hashdb
    simp only [hnone, Option.isSome_none, Bool.false_eq_true, if_false, hmk, Bool.true_eq_false]
    simp only [write_settings, file_system_set_same, Option.isSome_none, Bool.false_eq_true,
      if_false, Bool.true_eq_false]

/-- C20 on concrete paths: "db" exists and is refused with nothing changed; "new.hdb" is
created with a settings.json that holds version 3 and sector size 512. -/
theorem create_hashdb_refuses_existing_path_witness :
    create_hashdb example_externals (example_file_system example_settings_file) "db" 512 4096
        100000 28 3 "create"
      = (example_file_system example_settings_file,
          (false, "Path \x27db\x27 already exists.")) ∧
    (create_hashdb example_externals (example_file_system example_settings_file) "new.hdb" 512
        4096 100000 28 3 "create").2 = (true, "") ∧
    ((create_hashdb example_externals (example_file_system example_settings_file) "new.hdb" 512
        4096 100000 28 3 "create").1.directories "new.hdb").map
        (fun d => d.files "settings.json")
      = some (some ⟨"3 512\n", true⟩) :=
  ⟨(create_hashdb_refuses_existing_path example_externals
      (example_file_system example_settings_file) "db" 512 4096 100000 28 3 "create").1 rfl,
   congrArg Prod.snd ((create_hashdb_refuses_existing_path example_externals
      (example_file_system example_settings_file) "new.hdb" 512 4096 100000 28 3
      "create").2.1 rfl rfl),
   by decide⟩

/-! ### `find_expanded_hash` on a hash that does not match -/

/-- C27: when `find_hash` does not match the hash, `find_expanded_hash` returns false with an
empty `expanded_text` and leaves the scan manager, its two memo sets included, as it was; so
when the hash matches later, the manager holding the memo sets that the call left, a hash that
was not expanded before is expanded in full, with the same result as if the call had not been
made. -/
theorem find_expanded_hash_unmatched (sm : scan_manager_t) (binary_hash : String)
    (h : (sm.find_hash binary_hash).matched = false) :
    sm.find_expanded_hash binary_hash
      = { manager := sm, matched := false, expanded_text := "" } ∧
    (sm.find_expanded_hash binary_hash).manager.hashes = sm.hashes ∧
    (sm.find_expanded_hash binary_hash).manager.source_ids = sm.source_ids ∧
    ∀ later : scan_manager_t,
      later.hashes = (sm.find_expanded_hash binary_hash).manager.hashes →
      later.source_ids = (sm.find_expanded_hash binary_hash).manager.source_ids →
      (later.find_hash binary_hash).matched = true → binary_hash ∉ sm.hashes →
      later.find_expanded_hash binary_hash
        = scan_manager_t.find_expanded_hash
            { later with hashes := sm.hashes, source_ids := sm.source_ids } binary_hash ∧
      (later.find_expanded_hash binary_hash).matched = true ∧
      (later.find_expanded_hash binary_hash).expanded_text
        = "[" ++ source_list_id_object (source_list_id (later.find_hash binary_hash).pairs 0)
          ++ "," ++ sources_object
            ((printed_source_ids (later.find_hash binary_hash).pairs sm.source_ids).map
              (source_information later))
          ++ "," ++ id_offset_pairs_object (later.find_hash binary_hash).pairs ++ "]" ∧
      (later.find_expanded_hash binary_hash).manager.hashes = binary_hash :: sm.hashes := by
  have hcall : sm.find_expanded_hash binary_hash
      = { manager := sm, matched := false, expanded_text := "" } := by
    unfold scan_manager_t.find_expanded_hash
    simp only [h, if_true]
  rw [hcall]
  refine ⟨rfl, rfl, rfl, ?_⟩
  intro later hh hs hm hn
  have hh1 : later.hashes = sm.hashes := hh
  have hs1 : later.source_ids = sm.source_ids := hs
  have hlater : later = { later with hashes := sm.hashes, source_ids := sm.source_ids } := by
    cases later
    simp only at hh1 hs1
    subst hh1 hs1
    rfl
  have hexp : later.expands binary_hash = true :=
    (expands_iff later binary_hash).2 ⟨hm, by rw [hh1]; exact hn⟩
  have hfull := find_expanded_hash_of_expands later binary_hash hexp
  refine ⟨congrArg (fun m => scan_manager_t.find_expanded_hash m binary_hash) hlater,
    hfull.1, ?_, ?_⟩
  · rw [hfull.2.1]
    simp only [scan_manager_t.emitted, hexp, if_true, hs1]
  · rw [hfull.2.2.1, hh1]

/-- C27 on the example manager: the hash "b" is not known to the hash manager, the call
returns false with no text and the memo sets stay empty; a manager that then knows "b" expands
it in full. -/
theorem find_expanded_hash_unmatched_witness :
    example_scan_manager.find_expanded_hash "b"
      = { manager := example_scan_manager, matched := false, expanded_text := "" } ∧
    (scan_manager_t.find_expanded_hash
      { example_scan_manager with lmdb_hash_manager_find := fun _ => true } "b").matched
      = true :=
  ⟨(find_expanded_hash_unmatched example_scan_manager "b" (by decide)).1,
   ((find_expanded_hash_unmatched example_scan_manager "b" (by decide)).2.2.2
      { example_scan_manager with lmdb_hash_manager_find := fun _ => true }
      rfl rfl (by decide) (by decide)).2.1⟩

/-! ### The elapsed time of `stamp` -/

theorem timeval_difference_microseconds (t1 reference : timeval) :
    (timeval_difference t1 reference).microseconds
      = t1.microseconds - reference.microseconds := by
  unfold timeval_difference timeval.microseconds
  by_cases h : t1.tv_usec > reference.tv_usec
  · rw [if_pos h]
    simp only
    ring
  · rw [if_neg h]
    simp only
    ring

/-- C29 on the code: the text of `stamp` holds the two differences that it computes against
`t_last_timestamp` and against `t0`, and for each of them seconds * 1000000 + microseconds is
the elapsed time in microseconds; the microsecond field is between 1 and 999999 when the two
`tv_usec` fields, both in 0..999999, differ; but when they are equal the branch taken is the
one that borrows a second, the microsecond field is 1000000 and the seconds are one less than
the elapsed seconds. -/
theorem stamp_difference_borrows_on_equal_microseconds (ts : timestamp_t) (name : String)
    (t1 t2 reference : timeval) :
    (ts.stamp name t1 t2).2
      = "\x7b\"name\":\"" ++ escape_json name ++ "\""
        ++ ", \"delta\":" ++ format_timeval (timeval_difference t1 ts.t_last_timestamp)
        ++ ", \"total\":" ++ format_timeval (timeval_difference t1 ts.t0) ++ "\x7d\n" ∧
    (ts.stamp name t1 t2).1 = { t0 := ts.t0, t_last_timestamp := t2 } ∧
    (timeval_difference t1 reference).tv_sec * 1000000
        + (timeval_difference t1 reference).tv_usec
      = t1.microseconds - reference.microseconds ∧
    (0 ≤ t1.tv_usec → t1.tv_usec ≤ 999999 → 0 ≤ reference.tv_usec →
      reference.tv_usec ≤ 999999 → t1.tv_usec ≠ reference.tv_usec →
      1 ≤ (timeval_difference t1 reference).tv_usec ∧
      (timeval_difference t1 reference).tv_usec ≤ 999999) ∧
    (t1.tv_usec = reference.tv_usec →
      (timeval_difference t1 reference).tv_usec = 1000000 ∧
      (timeval_difference t1 reference).tv_sec = t1.tv_sec - reference.tv_sec - 1) := by
  refine ⟨?_, rfl, timeval_difference_microseconds t1 reference, ?_, ?_⟩
  · simp only [timestamp_t.stamp, String.append_assoc]
    rfl
  · intro h1 h2 h3 h4 hne
    unfold timeval_difference
    by_cases h : t1.tv_usec > reference.tv_usec
    · rw [if_pos h]
      simp only
      omega
    · rw [if_neg h]
      simp only
      omega
  · intro heq
    unfold timeval_difference
    have h : ¬ t1.tv_usec > reference.tv_usec := by omega
    rw [if_neg h]
    simp only
    constructor
    · omega
    · trivial

/-- C29 at concrete times: one second after the start and the last stamp, with the same
microseconds 5, `stamp` computes 0 seconds and 1000000 microseconds and prints 0.1000000; at
the very time of the start it prints -1.1000000; half a second later it prints 0.500000. -/
theorem stamp_difference_borrows_on_equal_microseconds_witness :
    ((timeval_difference ⟨101, 5⟩ ⟨100, 5⟩).tv_usec = 1000000 ∧
      (timeval_difference ⟨101, 5⟩ ⟨100, 5⟩).tv_sec = 101 - 100 - 1) ∧
    (1 ≤ (timeval_difference ⟨101, 5⟩ ⟨100, 500005⟩).tv_usec ∧
      (timeval_difference ⟨101, 5⟩ ⟨100, 500005⟩).tv_usec ≤ 999999) ∧
    ((timestamp_t.create ⟨100, 5⟩ ⟨100, 5⟩).stamp "x" ⟨101, 5⟩ ⟨101, 9⟩).2
      = "\x7b\"name\":\"x\", \"delta\":0.1000000, \"total\":0.1000000\x7d\n" ∧
    ((timestamp_t.create ⟨100, 5⟩ ⟨100, 5⟩).stamp "x" ⟨100, 5⟩ ⟨100, 9⟩).2
      = "\x7b\"name\":\"x\", \"delta\":-1.1000000, \"total\":-1.1000000\x7d\n" ∧
    ((timestamp_t.create ⟨100, 5⟩ ⟨100, 5⟩).stamp "x" ⟨100, 500005⟩ ⟨100, 500009⟩).2
      = "\x7b\"name\":\"x\", \"delta\":0.500000, \"total\":0.500000\x7d\n" :=
  ⟨(stamp_difference_borrows_on_equal_microseconds (timestamp_t.create ⟨100, 5⟩ ⟨100, 5⟩) "x"
      ⟨101, 5⟩ ⟨101, 9⟩ ⟨100, 5⟩).2.2.2.2 rfl,
   (stamp_difference_borrows_on_equal_microseconds (timestamp_t.create ⟨100, 5⟩ ⟨100, 5⟩) "x"
      ⟨101, 5⟩ ⟨101, 9⟩ ⟨100, 500005⟩).2.2.2.1 (by decide) (by decide) (by decide) (by decide)
      (by decide),
   by decide, by decide, by decide⟩

/-! ### `source_metadata_manager_t` -/

theorem btree_map_find_key {hash_t : Type} (map : List (Nat × map_value_t hash_t)) (key : Nat)
    (it : Nat × map_value_t hash_t) (h : btree_map_find map key = some it) : it.1 = key := by
  unfold btree_map_find at h
  have := List.find?_some h
  simpa using this

theorem btree_map_find_append {hash_t : Type} (map : List (Nat × map_value_t hash_t))
    (key other : Nat) (value : map_value_t hash_t) :
    btree_map_find (map ++ [(key, value)]) other
      = match btree_map_find map other with
        | some it => some it
        | none => if key = other then some (key, value) else none := by
  unfold btree_map_find
  rw [List.find?_append]
  cases h : List.find? (fun e => decide (e.1 = other)) map with
  | some it => rfl
  | none =>
    by_cases hk : key = other
    · simp [hk]
    · simp [hk]

theorem insert_of_writable {hash_t : Type} (m : source_metadata_manager_t hash_t)
    (s : source_metadata_t hash_t) (hw : m.file_mode ≠ file_mode_type_t.READ_ONLY) :
    m.insert s
      = some ({ m with map := (btree_map_emplace m.map s.source_lookup_index
            ⟨s.file_size, s.file_hash⟩).1 },
          (btree_map_emplace m.map s.source_lookup_index ⟨s.file_size, s.file_hash⟩).2) := by
  unfold source_metadata_manager_t.insert
  rw [if_neg hw]

theorem find_after_insert {hash_t : Type} (m r : source_metadata_manager_t hash_t)
    (empty s : source_metadata_t hash_t) (b : Bool) (i : Nat) (h : m.insert s = some (r, b)) :
    r.file_mode = m.file_mode ∧
    r.find empty i
      = if (m.find empty i).1 = true then m.find empty i
        else if s.source_lookup_index = i then (true, s) else (false, empty) := by
  unfold source_metadata_manager_t.insert at h
  by_cases hw : m.file_mode = file_mode_type_t.READ_ONLY
  · rw [if_pos hw] at h
    exact Option.noConfusion h
  · rw [if_neg hw] at h
    simp only [Option.some.injEq, Prod.mk.injEq] at h
    rw [← h.1]
    refine ⟨rfl, ?_⟩
    unfold source_metadata_manager_t.find btree_map_emplace
    simp only
    cases hs : btree_map_find m.map s.source_lookup_index with
    | some it =>
      simp only
      cases hi : btree_map_find m.map i with
      | some it2 => simp
      | none =>
        have hne : s.source_lookup_index ≠ i := by
          intro he
          rw [he, hi] at hs
          exact Option.noConfusion hs
        simp [hne]
    | none =>
      simp only [btree_map_find_append]
      cases hi : btree_map_find m.map i with
      | some it2 => simp
      | none =>
        by_cases he : s.source_lookup_index = i
        · simp [he]
          cases s
          simp only at he
          subst he
          rfl
        · simp [he]

theorem find_after_inserts {hash_t : Type} (empty : source_metadata_t hash_t)
    (list : List (source_metadata_t hash_t)) :
    ∀ m : source_metadata_manager_t hash_t, m.file_mode ≠ file_mode_type_t.READ_ONLY →
      ∃ r, m.inserts list = some r ∧ ∀ i,
        r.find empty i
          = if (m.find empty i).1 = true then m.find empty i
            else match list.find? (fun s => decide (s.source_lookup_index = i)) with
              | some s => (true, s)
              | none => (false, empty) := by
  induction list with
  | nil =>
    intro m _
    refine ⟨m, rfl, ?_⟩
    intro i
    unfold source_metadata_manager_t.find
    cases btree_map_find m.map i <;> simp
  | cons s rest ih =>
    intro m hw
    have hins := insert_of_writable m s hw
    obtain ⟨hmode, _⟩ := find_after_insert m _ empty s _ 0 hins
    obtain ⟨r, hr, hfind⟩ := ih _ (by rw [hmode]; exact hw)
    refine ⟨r, ?_, ?_⟩
    · show (match m.insert s with
        | none => none
        | some r => source_metadata_manager_t.inserts r.1 rest) = some r
      rw [hins]
      exact hr
    · intro i
      rw [hfind i, (find_after_insert m _ empty s _ i hins).2]
      by_cases hm : (m.find empty i).1 = true
      · simp [hm]
      · by_cases he : s.source_lookup_index = i
        · simp [hm, he]
        · simp [hm, he]

/-- C21: in a store that is not read-only, `insert` of source metadata whose source lookup
index has no record returns true and stores the file size and the file hash under that index,
every other record staying as it was; when the index has a record, `insert` returns false and
the store is as it was, so the record is equal to what it was. -/
theorem source_metadata_insert_spec {hash_t : Type} (m : source_metadata_manager_t hash_t)
    (s : source_metadata_t hash_t) (hw : m.file_mode ≠ file_mode_type_t.READ_ONLY) :
    (btree_map_find m.map s.source_lookup_index = none →
      ∃ r, m.insert s = some (r, true) ∧ r.file_mode = m.file_mode ∧
        btree_map_find r.map s.source_lookup_index
          = some (s.source_lookup_index, ⟨s.file_size, s.file_hash⟩) ∧
        r.size = m.size + 1 ∧
        ∀ i, i ≠ s.source_lookup_index → btree_map_find r.map i = btree_map_find m.map i) ∧
    (∀ it, btree_map_find m.map s.source_lookup_index = some it →
      m.insert s = some (m, false)) := by
  rw [insert_of_writable m s hw]
  unfold btree_map_emplace
  constructor
  · intro hnone
    simp only [hnone]
    refine ⟨_, rfl, rfl, ?_, ?_, ?_⟩
    · simp only [btree_map_find_append, hnone, if_true]
    · simp [source_metadata_manager_t.size]
    · intro i hi
      simp only [btree_map_find_append]
      cases btree_map_find m.map i with
      | some it => rfl
      | none => simp [Ne.symm hi]
  · intro it hsome
    simp only [hsome]

/-- C21 on the example store: source 2 is new and is stored with 900 bytes; source 1 is there
and a second insert of it, even with another size, returns false and changes nothing. -/
theorem source_metadata_insert_spec_witness :
    (∃ r, example_source_metadata_manager.insert ⟨2, 900, "cd"⟩ = some (r, true) ∧
      r.file_mode = example_source_metadata_manager.file_mode ∧
      btree_map_find r.map 2 = some (2, ⟨900, "cd"⟩) ∧
      r.size = example_source_metadata_manager.size + 1 ∧
      ∀ i, i ≠ 2 → btree_map_find r.map i
        = btree_map_find example_source_metadata_manager.map i) ∧
    example_source_metadata_manager.insert ⟨1, 5, "ef"⟩
      = some (example_source_metadata_manager, false) ∧
    example_source_metadata_manager.insert ⟨2, 900, "cd"⟩
      = some ({ example_source_metadata_manager with
          map := [(1, ⟨800, "ab"⟩), (2, ⟨900, "cd"⟩)] }, true) :=
  ⟨(source_metadata_insert_spec example_source_metadata_manager ⟨2, 900, "cd"⟩
      (by decide)).1 (by decide),
   (source_metadata_insert_spec example_source_metadata_manager ⟨1, 5, "ef"⟩
      (by decide)).2 _ rfl,
   by decide⟩

/-- C22: `find` returns true with the index, the file size and the file hash of the record
stored under the source lookup index, and false with the empty source metadata when there is
none; after any inserts into a new store that is not read-only, the record found is that of
the first insert for the index, the one that succeeded.  The method is `const`: it gives back
the pair only. -/
theorem source_metadata_find_spec {hash_t : Type} (m : source_metadata_manager_t hash_t)
    (empty : source_metadata_t hash_t) (i : Nat) (mode : file_mode_type_t)
    (list : List (source_metadata_t hash_t)) :
    (∀ it, btree_map_find m.map i = some it →
      m.find empty i = (true, ⟨i, it.2.file_size, it.2.file_hash⟩)) ∧
    (btree_map_find m.map i = none → m.find empty i = (false, empty)) ∧
    (mode ≠ file_mode_type_t.READ_ONLY →
      ∃ r, source_metadata_manager_t.inserts { file_mode := mode, map := [] } list = some r ∧
        r.find empty i
          = match list.find? (fun s => decide (s.source_lookup_index = i)) with
            | some s => (true, s)
            | none => (false, empty)) := by
  refine ⟨?_, ?_, ?_⟩
  · intro it hit
    unfold source_metadata_manager_t.find
    rw [hit]
    simp only
    rw [btree_map_find_key m.map i it hit]
  · intro hnone
    unfold source_metadata_manager_t.find
    rw [hnone]
  · intro hw
    obtain ⟨r, hr, hfind⟩ := find_after_inserts empty list
      { file_mode := mode, map := [] } hw
    refine ⟨r, hr, ?_⟩
    rw [hfind i]
    simp [source_metadata_manager_t.find, btree_map_find]

/-- C22 on the example store: source 1 is found with its 800 bytes and source 7 is not; after
the inserts of source 3 with 10 bytes and again with 20 bytes into a new store, source 3 is
found with 10 bytes. -/
theorem source_metadata_find_spec_witness :
    example_source_metadata_manager.find example_empty_source_metadata 1
      = (true, ⟨1, 800, "ab"⟩) ∧
    example_source_metadata_manager.find example_empty_source_metadata 7
      = (false, example_empty_source_metadata) ∧
    (source_metadata_manager_t.inserts { file_mode := file_mode_type_t.RW_NEW, map := [] }
        [⟨3, 10, "x"⟩, ⟨3, 20, "y"⟩]).map
        (fun r => r.find example_empty_source_metadata 3)
      = some (true, ⟨3, 10, "x"⟩) :=
  ⟨(source_metadata_find_spec example_source_metadata_manager example_empty_source_metadata 1
      file_mode_type_t.RW_NEW []).1 _ rfl,
   (source_metadata_find_spec example_source_metadata_manager example_empty_source_metadata 7
      file_mode_type_t.RW_NEW []).2.1 rfl,
   by decide⟩

/-! ### The cache of `hashdb_iterator_t` -/

/-- The cached value, when there is one, is the lookup of the pair at the current position. -/
theorem cache_coherent_create {I T E : Type} (ops : map_multimap_iterator_ops I T)
    (lookup : T × Nat → E) (d : E) (it : I) :
    (hashdb_iterator_t.create lookup d it).dereferenced_value_is_cached = true →
      ∃ p, ops.deref (hashdb_iterator_t.create lookup d it).map_multimap_iterator = some p ∧
        (hashdb_iterator_t.create lookup d it).dereferenced_value = lookup p := by
  intro h
  exact Bool.noConfusion h

theorem cache_coherent_dereference {I T E : Type} (ops : map_multimap_iterator_ops I T)
    (s r : hashdb_iterator_t I T E)
    (hs : s.dereferenced_value_is_cached = true →
      ∃ p, ops.deref s.map_multimap_iterator = some p ∧
        s.dereferenced_value = s.hashdb_element_lookup p)
    (h : s.dereference ops = some r) :
    r.hashdb_element_lookup = s.hashdb_element_lookup ∧
    r.map_multimap_iterator = s.map_multimap_iterator ∧
    r.dereferenced_value_is_cached = true ∧
    ∃ p, ops.deref r.map_multimap_iterator = some p ∧
      r.dereferenced_value = r.hashdb_element_lookup p := by
  unfold hashdb_iterator_t.dereference at h
  by_cases hc : s.dereferenced_value_is_cached = true
  · rw [if_pos hc] at h
    simp only [Option.some.injEq] at h
    subst h
    exact ⟨rfl, rfl, hc, hs hc⟩
  · rw [if_neg hc] at h
    cases hd : ops.deref s.map_multimap_iterator with
    | none =>
      rw [hd] at h
      exact Option.noConfusion h
    | some p =>
      rw [hd] at h
      simp only [Option.some.injEq] at h
      subst h
      exact ⟨rfl, rfl, rfl, p, hd, rfl⟩

theorem dereference_defined {I T E : Type} (ops : map_multimap_iterator_ops I T)
    (s : hashdb_iterator_t I T E) (p : T × Nat)
    (hs : s.dereferenced_value_is_cached = true →
      ∃ p, ops.deref s.map_multimap_iterator = some p ∧
        s.dereferenced_value = s.hashdb_element_lookup p)
    (hp : ops.deref s.map_multimap_iterator = some p) :
    s.dereference ops
      = some { s with dereferenced_value := s.hashdb_element_lookup p,
                      dereferenced_value_is_cached := true } := by
  unfold hashdb_iterator_t.dereference
  by_cases hc : s.dereferenced_value_is_cached = true
  · rw [if_pos hc]
    obtain ⟨q, hq, hv⟩ := hs hc
    rw [hp] at hq
    simp only [Option.some.injEq] at hq
    subst hq
    cases s
    simp only at hc hv
    subst hc hv
    rfl
  · rw [if_neg hc, hp]

theorem cache_coherent_run {I T E : Type} (ops : map_multimap_iterator_ops I T)
    (calls : List iterator_call_t) :
    ∀ s r : hashdb_iterator_t I T E,
      (s.dereferenced_value_is_cached = true →
        ∃ p, ops.deref s.map_multimap_iterator = some p ∧
          s.dereferenced_value = s.hashdb_element_lookup p) →
      s.run ops calls = some r →
      r.hashdb_element_lookup = s.hashdb_element_lookup ∧
      (r.dereferenced_value_is_cached = true →
        ∃ p, ops.deref r.map_multimap_iterator = some p ∧
          r.dereferenced_value = r.hashdb_element_lookup p) := by
  induction calls with
  | nil =>
    intro s r hs h
    simp only [hashdb_iterator_t.run, Option.some.injEq] at h
    subst h
    exact ⟨rfl, hs⟩
  | cons c rest ih =>
    intro s r hs h
    cases c with
    | pre_increment =>
      exact ih (s.pre_increment ops) r (fun hc => Bool.noConfusion hc) h
    | post_increment =>
      exact ih (s.post_increment ops).1 r (fun hc => Bool.noConfusion hc) h
    | star =>
      simp only [hashdb_iterator_t.run, hashdb_iterator_t.star] at h
      cases hd : s.dereference ops with
      | none =>
        rw [hd] at h
        exact Option.noConfusion h
      | some s1 =>
        rw [hd] at h
        have hco := cache_coherent_dereference ops s s1 hs hd
        have := ih s1 r (fun _ => hco.2.2.2) h
        exact ⟨this.1.trans hco.1, this.2⟩
    | arrow =>
      simp only [hashdb_iterator_t.run, hashdb_iterator_t.arrow] at h
      cases hd : s.dereference ops with
      | none =>
        rw [hd] at h
        exact Option.noConfusion h
      | some s1 =>
        rw [hd] at h
        have hco := cache_coherent_dereference ops s s1 hs hd
        have := ih s1 r (fun _ => hco.2.2.2) h
        exact ⟨this.1.trans hco.1, this.2⟩

/-- C30: in every state that the constructor, the two increments and the operators `*` and
`->` lead to, a cached value is the lookup of the pair at the current position of the
underlying iterator; at a position that holds a pair the operators `*` and `->` return, and
give, the lookup of that pair, leaving the position as it is and the value cached; an
increment clears the cache and moves the underlying iterator one step; and the increment
written behind returns the iterator as it was before the step. -/
theorem hashdb_iterator_cache_coherent {I T E : Type} (ops : map_multimap_iterator_ops I T)
    (lookup : T × Nat → E) (default_value : E) (position : I) (calls : List iterator_call_t)
    (s : hashdb_iterator_t I T E)
    (hrun : (hashdb_iterator_t.create lookup default_value position).run ops calls = some s) :
    s.hashdb_element_lookup = lookup ∧
    (s.dereferenced_value_is_cached = true →
      ∃ p, ops.deref s.map_multimap_iterator = some p ∧ s.dereferenced_value = lookup p) ∧
    (∀ p, ops.deref s.map_multimap_iterator = some p →
      s.star ops
        = some ({ s with dereferenced_value := lookup p,
                         dereferenced_value_is_cached := true }, lookup p) ∧
      s.arrow ops
        = some ({ s with dereferenced_value := lookup p,
                         dereferenced_value_is_cached := true }, lookup p)) ∧
    (∀ r e, s.star ops = some (r, e) ∨ s.arrow ops = some (r, e) →
      ∃ p, ops.deref s.map_multimap_iterator = some p ∧ e = lookup p ∧
        r.map_multimap_iterator = s.map_multimap_iterator) ∧
    (s.pre_increment ops).dereferenced_value_is_cached = false ∧
    (s.pre_increment ops).map_multimap_iterator = ops.next s.map_multimap_iterator ∧
    (s.post_increment ops).1 = s.pre_increment ops ∧
    (s.post_increment ops).2 = s := by
  have hinv := cache_coherent_run ops calls _ s
    (cache_coherent_create ops lookup default_value position) hrun
  have hl : s.hashdb_element_lookup = lookup := hinv.1
  have hco := hinv.2
  refine ⟨hl, ?_, ?_, ?_, rfl, rfl, rfl, rfl⟩
  · intro hc
    obtain ⟨p, hp, hv⟩ := hco hc
    exact ⟨p, hp, hl ▸ hv⟩
  · intro p hp
    have hd := dereference_defined ops s p hco hp
    unfold hashdb_iterator_t.star hashdb_iterator_t.arrow
    rw [hd, ← hl]
    exact ⟨rfl, rfl⟩
  · intro r e hre
    have hstar : ∃ s1, s.dereference ops = some s1 ∧ r = s1 ∧ e = s1.dereferenced_value := by
      unfold hashdb_iterator_t.star hashdb_iterator_t.arrow at hre
      cases hd : s.dereference ops with
      | none =>
        rw [hd] at hre
        rcases hre with h | h <;> exact Option.noConfusion h
      | some s1 =>
        rw [hd] at hre
        refine ⟨s1, rfl, ?_⟩
        rcases hre with h | h <;>
          · simp only [Option.map_some', Option.some.injEq, Prod.mk.injEq] at h
            exact ⟨h.1.symm, h.2.symm⟩
    obtain ⟨s1, hd, hr, he⟩ := hstar
    have h1 := cache_coherent_dereference ops s s1 hco hd
    obtain ⟨p, hp, hv⟩ := h1.2.2.2
    refine ⟨p, ?_, ?_, ?_⟩
    · rw [← h1.2.1]
      exact hp
    · rw [he, hv, h1.1, hl]
    · rw [hr]
      exact h1.2.1

/-- C30 on the example iterator: after `*`, a step, `->`, the step written behind and `*`, the
iterator is at position 2 and holds the cached value 20, which is the lookup of the pair at
position 2. -/
theorem hashdb_iterator_cache_coherent_witness :
    (example_iterator.run example_iterator_ops
      [.star, .pre_increment, .arrow, .post_increment, .star]).map
        (fun s => (s.map_multimap_iterator, s.dereferenced_value_is_cached,
          s.dereferenced_value))
      = some (2, true, 20) ∧
    (∃ p, example_iterator_ops.deref 2 = some p ∧ 20 = p.2 * 10) :=
  ⟨by decide,
   (hashdb_iterator_cache_coherent example_iterator_ops (fun p => p.2 * 10) 0 0
      [.star, .pre_increment, .arrow, .post_increment, .star]
      ⟨fun p => p.2 * 10, 2, true, 20⟩ rfl).2.1 rfl⟩

/-! ### The flat multimap: bounds, the search loop and `emplace` -/

theorem first_position_cons_ne {KEY_T PAY_T : Type} [DecidableEq KEY_T] [DecidableEq PAY_T]
    (x e : KEY_T × PAY_T) (rest : List (KEY_T × PAY_T)) (h : e ≠ x) :
    first_position x (e :: rest) = first_position x rest + 1 := by
  show (if e = x then 0 else first_position x rest + 1) = _
  rw [if_neg h]

theorem first_position_cons_self {KEY_T PAY_T : Type} [DecidableEq KEY_T] [DecidableEq PAY_T]
    (x : KEY_T × PAY_T) (rest : List (KEY_T × PAY_T)) :
    first_position x (x :: rest) = 0 := by
  show (if x = x then 0 else first_position x rest + 1) = _
  rw [if_pos rfl]

theorem first_position_le {KEY_T PAY_T : Type} [DecidableEq KEY_T] [DecidableEq PAY_T]
    (x : KEY_T × PAY_T) (l : List (KEY_T × PAY_T)) : first_position x l ≤ l.length := by
  induction l with
  | nil => exact Nat.le_refl _
  | cons e rest ih =>
    by_cases h : e = x
    · rw [h, first_position_cons_self]
      exact Nat.zero_le _
    · rw [first_position_cons_ne x e rest h]
      exact Nat.succ_le_succ ih

theorem first_position_eq_length {KEY_T PAY_T : Type} [DecidableEq KEY_T] [DecidableEq PAY_T]
    (x : KEY_T × PAY_T) (l : List (KEY_T × PAY_T)) :
    first_position x l = l.length ↔ x ∉ l := by
  induction l with
  | nil => simp [first_position]
  | cons e rest ih =>
    by_cases h : e = x
    · rw [h, first_position_cons_self]
      simp
    · rw [first_position_cons_ne x e rest h, List.length_cons, Nat.succ_inj', ih]
      simp [Ne.symm h]

theorem get_first_position {KEY_T PAY_T : Type} [DecidableEq KEY_T] [DecidableEq PAY_T]
    (x : KEY_T × PAY_T) (l : List (KEY_T × PAY_T)) (hx : x ∈ l) :
    l.get? (first_position x l) = some x := by
  induction l with
  | nil => exact absurd hx (List.not_mem_nil _)
  | cons e rest ih =>
    by_cases h : e = x
    · rw [h, first_position_cons_self]
      rfl
    · rw [first_position_cons_ne x e rest h, List.get?_cons_succ]
      rcases List.mem_cons.1 hx with hx | hx
      · exact absurd hx.symm h
      · exact ih hx

theorem eraseIdx_first_position {KEY_T PAY_T : Type} [DecidableEq KEY_T] [DecidableEq PAY_T]
    (x : KEY_T × PAY_T) (l : List (KEY_T × PAY_T)) :
    l.eraseIdx (first_position x l) = l.erase x := by
  induction l with
  | nil => rfl
  | cons e rest ih =>
    by_cases h : e = x
    · rw [h, first_position_cons_self, List.erase_cons_head]
      rfl
    · rw [first_position_cons_ne x e rest h, List.erase_cons_tail (by simpa using h),
        List.eraseIdx_cons_succ, ih]

theorem find_in_range_cons {KEY_T PAY_T : Type} [DecidableEq PAY_T] (e : KEY_T × PAY_T)
    (rest : List (KEY_T × PAY_T)) (pay : PAY_T) (n : Nat) :
    ∀ i, find_in_range (e :: rest) pay (i + 1) n
      = (find_in_range rest pay i n).map (· + 1) := by
  induction n with
  | zero =>
    intro i
    rfl
  | succ n ih =>
    intro i
    show (match (e :: rest).get? (i + 1) with
      | some x => if x.2 = pay then some (i + 1)
        else find_in_range (e :: rest) pay (i + 1 + 1) n
      | none => none)
      = Option.map (· + 1) (match rest.get? i with
        | some x => if x.2 = pay then some i else find_in_range rest pay (i + 1) n
        | none => none)
    rw [List.get?_cons_succ]
    cases rest.get? i with
    | none => rfl
    | some x =>
      by_cases hx : x.2 = pay
      · simp [hx]
      · simp only [hx, if_false]
        exact ih (i + 1)

theorem lower_bound_eq_zero {KEY_T PAY_T : Type} [LinearOrder KEY_T]
    (l : List (KEY_T × PAY_T)) (key : KEY_T) (h : ∀ x ∈ l, key ≤ x.1) :
    lower_bound l key = 0 := by
  cases l with
  | nil => rfl
  | cons e rest =>
    show (if e.1 < key then lower_bound rest key + 1 else 0) = 0
    rw [if_neg (not_lt.2 (h e (List.mem_cons_self _ _)))]

theorem lower_bound_eq_length {KEY_T PAY_T : Type} [LinearOrder KEY_T]
    (l : List (KEY_T × PAY_T)) (key : KEY_T) (h : lower_bound l key = l.length) :
    ∀ x ∈ l, x.1 < key := by
  induction l with
  | nil =>
    intro x hx
    exact absurd hx (List.not_mem_nil _)
  | cons e rest ih =>
    have hstep : (if e.1 < key then lower_bound rest key + 1 else 0) = rest.length + 1 := h
    by_cases he : e.1 < key
    · rw [if_pos he] at hstep
      intro x hx
      rcases List.mem_cons.1 hx with hx | hx
      · rw [hx]
        exact he
      · exact ih (Nat.succ.inj hstep) x hx
    · rw [if_neg he] at hstep
      exact absurd hstep (by omega)

theorem find_in_range_bounds {KEY_T PAY_T : Type} [LinearOrder KEY_T] [DecidableEq PAY_T]
    (l : List (KEY_T × PAY_T)) (key : KEY_T) (pay : PAY_T) (hs : keys_sorted l) :
    find_in_range l pay (lower_bound l key) (upper_bound l key - lower_bound l key)
      = if (key, pay) ∈ l then some (first_position (key, pay) l) else none := by
  induction l with
  | nil => rfl
  | cons e rest ih =>
    have hrest : keys_sorted rest := (List.pairwise_cons.1 hs).2
    have hle : ∀ x ∈ rest, e.1 ≤ x.1 := (List.pairwise_cons.1 hs).1
    have hlb : lower_bound (e :: rest) key
        = if e.1 < key then lower_bound rest key + 1 else 0 := rfl
    have hub : upper_bound (e :: rest) key
        = if key < e.1 then 0 else upper_bound rest key + 1 := rfl
    rcases lt_trichotomy e.1 key with hlt | heq | hgt
    · -- the first pair is before the range of the key
      have hne : e ≠ (key, pay) := by
        intro h
        rw [h] at hlt
        exact lt_irrefl _ hlt
      rw [hlb, hub, if_pos hlt, if_neg (not_lt.2 (le_of_lt hlt)), Nat.add_sub_add_right,
        find_in_range_cons, ih hrest, first_position_cons_ne _ _ _ hne]
      by_cases hm : (key, pay) ∈ rest
      · simp [hm]
      · simp [hm, Ne.symm hne]
    · -- the first pair opens the range of the key
      have hzero : lower_bound rest key = 0 :=
        lower_bound_eq_zero rest key (fun x hx => heq ▸ hle x hx)
      have ih2 := ih hrest
      rw [hzero, Nat.sub_zero] at ih2
      rw [hlb, hub, if_neg (by rw [heq]; exact lt_irrefl _),
        if_neg (by rw [heq]; exact lt_irrefl _), Nat.sub_zero]
      show (match (e :: rest).get? 0 with
        | some x => if x.2 = pay then some 0
          else find_in_range (e :: rest) pay (0 + 1) (upper_bound rest key)
        | none => none) = _
      rw [List.get?_cons_zero]
      by_cases hp : e.2 = pay
      · have he : e = (key, pay) := Prod.ext heq hp
        simp [hp, he, first_position_cons_self]
      · have hne : e ≠ (key, pay) := fun h => hp (by rw [h])
        simp only [hp, if_false]
        rw [find_in_range_cons, ih2, first_position_cons_ne _ _ _ hne]
        by_cases hm : (key, pay) ∈ rest
        · simp [hm]
        · simp [hm, Ne.symm hne]
    · -- every pair is behind the key
      have hnot : (key, pay) ∉ e :: rest := by
        intro hm
        rcases List.mem_cons.1 hm with h | h
        · rw [← h] at hgt
          exact lt_irrefl _ hgt
        · exact absurd (hle _ h) (not_le.2 hgt)
      rw [hlb, hub, if_neg (not_lt.2 (le_of_lt hgt)), if_pos hgt, if_neg hnot]
      rfl

theorem find_eq_first_position {KEY_T PAY_T : Type} [LinearOrder KEY_T] [DecidableEq PAY_T]
    (m : multimap_flat_sorted_vector_t KEY_T PAY_T) (key : KEY_T) (pay : PAY_T)
    (hs : keys_sorted m.map) :
    m.find key pay = first_position (key, pay) m.map := by
  unfold multimap_flat_sorted_vector_t.find multimap_flat_sorted_vector_t.end_position
  simp only
  by_cases hl : lower_bound m.map key = m.map.length
  · rw [if_pos hl]
    have hnot : (key, pay) ∉ m.map := fun hm =>
      lt_irrefl _ (lower_bound_eq_length m.map key hl _ hm)
    exact ((first_position_eq_length _ _).2 hnot).symm
  · rw [if_neg hl, find_in_range_bounds m.map key pay hs]
    by_cases hm : (key, pay) ∈ m.map
    · rw [if_pos hm]
    · rw [if_neg hm]
      exact ((first_position_eq_length _ _).2 hm).symm

theorem has_eq_mem {KEY_T PAY_T : Type} [LinearOrder KEY_T] [DecidableEq PAY_T]
    (m : multimap_flat_sorted_vector_t KEY_T PAY_T) (key : KEY_T) (pay : PAY_T)
    (hs : keys_sorted m.map) :
    m.has key pay = decide ((key, pay) ∈ m.map) := by
  unfold multimap_flat_sorted_vector_t.has multimap_flat_sorted_vector_t.end_position
  simp only
  by_cases hl : lower_bound m.map key = m.map.length
  · rw [if_pos hl]
    have hnot : (key, pay) ∉ m.map := fun hm =>
      lt_irrefl _ (lower_bound_eq_length m.map key hl _ hm)
    simp [hnot]
  · rw [if_neg hl, find_in_range_bounds m.map key pay hs]
    by_cases hm : (key, pay) ∈ m.map
    · simp [hm]
    · simp [hm]

theorem erase_eq {KEY_T PAY_T : Type} [LinearOrder KEY_T] [DecidableEq PAY_T]
    (m : multimap_flat_sorted_vector_t KEY_T PAY_T) (key : KEY_T) (pay : PAY_T)
    (hw : m.file_mode ≠ file_mode_type_t.READ_ONLY) (hs : keys_sorted m.map) :
    m.erase key pay
      = ({ m with map := m.map.erase (key, pay) },
          outcome_t.returned (if (key, pay) ∈ m.map then 1 else 0)) := by
  unfold multimap_flat_sorted_vector_t.erase multimap_flat_sorted_vector_t.end_position
  rw [if_neg hw]
  simp only
  by_cases hl : lower_bound m.map key = m.map.length
  · rw [if_pos hl]
    have hnot : (key, pay) ∉ m.map := fun hm =>
      lt_irrefl _ (lower_bound_eq_length m.map key hl _ hm)
    rw [if_neg hnot, List.erase_of_not_mem hnot]
  · rw [if_neg hl, find_in_range_bounds m.map key pay hs]
    by_cases hm : (key, pay) ∈ m.map
    · simp only [hm, if_true]
      rw [eraseIdx_first_position]
    · simp only [hm, if_false]
      rw [List.erase_of_not_mem hm]

theorem emplace_eq {KEY_T PAY_T : Type} [LinearOrder KEY_T] [DecidableEq PAY_T]
    (m : multimap_flat_sorted_vector_t KEY_T PAY_T) (key : KEY_T) (pay : PAY_T)
    (hw : m.file_mode ≠ file_mode_type_t.READ_ONLY) (hs : keys_sorted m.map) :
    m.emplace key pay
      = if (key, pay) ∈ m.map then
          (m, outcome_t.returned (first_position (key, pay) m.map, false))
        else
          ({ m with map := flat_multimap_emplace m.map (key, pay) },
            outcome_t.returned (upper_bound m.map key, true)) := by
  unfold multimap_flat_sorted_vector_t.emplace
  rw [if_neg hw]
  simp only [find_eq_first_position m key pay hs, multimap_flat_sorted_vector_t.end_position]
  by_cases hm : (key, pay) ∈ m.map
  · rw [if_pos hm, if_pos]
    exact fun h => (first_position_eq_length _ _).1 h hm
  · rw [if_neg hm, if_neg]
    exact fun h => h ((first_position_eq_length _ _).2 hm)

theorem flat_multimap_emplace_perm {KEY_T PAY_T : Type} [LinearOrder KEY_T]
    (l : List (KEY_T × PAY_T)) (x : KEY_T × PAY_T) :
    (flat_multimap_emplace l x).Perm (x :: l) := by
  induction l with
  | nil => exact List.Perm.refl _
  | cons e rest ih =>
    show (if x.1 < e.1 then x :: e :: rest else e :: flat_multimap_emplace rest x).Perm _
    by_cases h : x.1 < e.1
    · rw [if_pos h]
    · rw [if_neg h]
      exact (List.Perm.cons e ih).trans (List.Perm.swap x e rest)

theorem flat_multimap_emplace_sorted {KEY_T PAY_T : Type} [LinearOrder KEY_T]
    (l : List (KEY_T × PAY_T)) (x : KEY_T × PAY_T) (hs : keys_sorted l) :
    keys_sorted (flat_multimap_emplace l x) := by
  induction l with
  | nil => exact List.pairwise_singleton _ _
  | cons e rest ih =>
    have hrest : keys_sorted rest := (List.pairwise_cons.1 hs).2
    have hle : ∀ y ∈ rest, e.1 ≤ y.1 := (List.pairwise_cons.1 hs).1
    show keys_sorted (if x.1 < e.1 then x :: e :: rest else e :: flat_multimap_emplace rest x)
    by_cases h : x.1 < e.1
    · rw [if_pos h]
      refine List.pairwise_cons.2 ⟨?_, hs⟩
      intro y hy
      rcases List.mem_cons.1 hy with hy | hy
      · rw [hy]
        exact le_of_lt h
      · exact le_trans (le_of_lt h) (hle y hy)
    · rw [if_neg h]
      refine List.pairwise_cons.2 ⟨?_, ih hrest⟩
      intro y hy
      rcases List.mem_cons.1 ((flat_multimap_emplace_perm rest x).mem_iff.1 hy) with hy | hy
      · rw [hy]
        exact not_lt.1 h
      · exact hle y hy

theorem flat_multimap_emplace_position {KEY_T PAY_T : Type} [LinearOrder KEY_T]
    (l : List (KEY_T × PAY_T)) (x : KEY_T × PAY_T) :
    (flat_multimap_emplace l x).get? (upper_bound l x.1) = some x := by
  induction l with
  | nil => rfl
  | cons e rest ih =>
    show (if x.1 < e.1 then x :: e :: rest else e :: flat_multimap_emplace rest x).get?
      (if x.1 < e.1 then 0 else upper_bound rest x.1 + 1) = some x
    by_cases h : x.1 < e.1
    · rw [if_pos h, if_pos h]
      rfl
    · rw [if_neg h, if_neg h, List.get?_cons_succ]
      exact ih

theorem flat_multimap_emplace_erase {KEY_T PAY_T : Type} [LinearOrder KEY_T]
    [DecidableEq PAY_T] (l : List (KEY_T × PAY_T)) (x : KEY_T × PAY_T) (h : x ∉ l) :
    (flat_multimap_emplace l x).erase x = l := by
  induction l with
  | nil => simp [flat_multimap_emplace]
  | cons e rest ih =>
    have hne : e ≠ x := fun he => h (he ▸ List.mem_cons_self _ _)
    have hrest : x ∉ rest := fun hm => h (List.mem_cons_of_mem _ hm)
    show (if x.1 < e.1 then x :: e :: rest else e :: flat_multimap_emplace rest x).erase x = _
    by_cases hlt : x.1 < e.1
    · rw [if_pos hlt, List.erase_cons_head]
    · rw [if_neg hlt, List.erase_cons_tail (by simpa using hne), ih hrest]

theorem count_eq_countP {KEY_T PAY_T : Type} [LinearOrder KEY_T]
    (l : List (KEY_T × PAY_T)) (key : KEY_T) (hs : keys_sorted l) :
    upper_bound l key - lower_bound l key = l.countP (fun e => decide (e.1 = key)) := by
  induction l with
  | nil => rfl
  | cons e rest ih =>
    have hrest : keys_sorted rest := (List.pairwise_cons.1 hs).2
    have hle : ∀ x ∈ rest, e.1 ≤ x.1 := (List.pairwise_cons.1 hs).1
    have hlb : lower_bound (e :: rest) key
        = if e.1 < key then lower_bound rest key + 1 else 0 := rfl
    have hub : upper_bound (e :: rest) key
        = if key < e.1 then 0 else upper_bound rest key + 1 := rfl
    rcases lt_trichotomy e.1 key with hlt | heq | hgt
    · rw [hlb, hub, if_pos hlt, if_neg (not_lt.2 (le_of_lt hlt)), Nat.add_sub_add_right,
        ih hrest, List.countP_cons_of_neg]
      simpa using ne_of_lt hlt
    · have hzero : lower_bound rest key = 0 :=
        lower_bound_eq_zero rest key (fun x hx => heq ▸ hle x hx)
      have ih2 := ih hrest
      rw [hzero, Nat.sub_zero] at ih2
      rw [hlb, hub, if_neg (by rw [heq]; exact lt_irrefl _),
        if_neg (by rw [heq]; exact lt_irrefl _), Nat.sub_zero, ih2,
        List.countP_cons_of_pos]
      simpa using heq
    · rw [hlb, hub, if_neg (not_lt.2 (le_of_lt hgt)), if_pos hgt]
      symm
      rw [Nat.sub_zero, List.countP_eq_zero]
      intro x hx
      rcases List.mem_cons.1 hx with hx | hx
      · rw [hx]
        simpa using ne_of_gt hgt
      · simpa using ne_of_gt (lt_of_lt_of_le hgt (hle x hx))

theorem perm_cons_erase_pair {KEY_T PAY_T : Type} [DecidableEq KEY_T] [DecidableEq PAY_T]
    (x : KEY_T × PAY_T) (l : List (KEY_T × PAY_T)) (h : x ∈ l) :
    l.Perm (x :: l.erase x) := by
  induction l with
  | nil => exact absurd h (List.not_mem_nil _)
  | cons e rest ih =>
    by_cases he : e = x
    · rw [he, List.erase_cons_head]
    · rw [List.erase_cons_tail (by simpa using he)]
      rcases List.mem_cons.1 h with hx | hx
      · exact absurd hx.symm he
      · exact (List.Perm.cons e (ih hx)).trans (List.Perm.swap x e _)

/-! ### The claims on the multimap -/

/-- C23: in a multimap that is not read-only, `emplace` reports true exactly when the pair is
not stored yet; it then puts that one pair in, at the position it returns, so that `size` and
the `count` of the key grow by 1, the count of every other key stays, the pairs stay in key
order and `has` finds the pair, whatever payloads the key has already; when the pair is stored
it reports false with the position of the pair and leaves the multimap as it is. -/
theorem emplace_spec {KEY_T PAY_T : Type} [LinearOrder KEY_T] [DecidableEq PAY_T]
    (m : multimap_flat_sorted_vector_t KEY_T PAY_T) (key : KEY_T) (pay : PAY_T)
    (hw : m.file_mode ≠ file_mode_type_t.READ_ONLY) (hs : keys_sorted m.map) :
    (m.has key pay = false →
      ∃ it, (m.emplace key pay).2 = outcome_t.returned (it, true) ∧
        (m.emplace key pay).1.map.get? it = some (key, pay) ∧
        (m.emplace key pay).1.map.Perm ((key, pay) :: m.map) ∧
        keys_sorted (m.emplace key pay).1.map ∧
        (m.emplace key pay).1.file_mode = m.file_mode ∧
        (m.emplace key pay).1.size = m.size + 1 ∧
        (m.emplace key pay).1.count key = m.count key + 1 ∧
        (∀ other, other ≠ key → (m.emplace key pay).1.count other = m.count other) ∧
        (m.emplace key pay).1.has key pay = true) ∧
    (m.has key pay = true →
      ∃ it, m.emplace key pay = (m, outcome_t.returned (it, false)) ∧
        m.map.get? it = some (key, pay)) ∧
    (m.has key pay = true ↔ (key, pay) ∈ m.map) := by
  have hhas := has_eq_mem m key pay hs
  have hem := emplace_eq m key pay hw hs
  refine ⟨?_, ?_, by rw [hhas]; simp⟩
  · intro hnot
    have hm : (key, pay) ∉ m.map := by
      rw [hhas] at hnot
      simpa using hnot
    rw [if_neg hm] at hem
    have hperm := flat_multimap_emplace_perm m.map (key, pay)
    have hsorted := flat_multimap_emplace_sorted m.map (key, pay) hs
    rw [hem]
    refine ⟨_, rfl, flat_multimap_emplace_position m.map (key, pay), hperm, hsorted, rfl, ?_,
      ?_, ?_, ?_⟩
    · show (flat_multimap_emplace m.map (key, pay)).length = m.map.length + 1
      rw [hperm.length_eq]
      rfl
    · show upper_bound (flat_multimap_emplace m.map (key, pay)) key
          - lower_bound (flat_multimap_emplace m.map (key, pay)) key
        = upper_bound m.map key - lower_bound m.map key + 1
      rw [count_eq_countP _ key hsorted, count_eq_countP _ key hs, hperm.countP_eq,
        List.countP_cons_of_pos]
      simp
    · intro other hother
      show upper_bound (flat_multimap_emplace m.map (key, pay)) other
          - lower_bound (flat_multimap_emplace m.map (key, pay)) other
        = upper_bound m.map other - lower_bound m.map other
      rw [count_eq_countP _ other hsorted, count_eq_countP _ other hs, hperm.countP_eq,
        List.countP_cons_of_neg]
      simpa using Ne.symm hother
    · rw [has_eq_mem _ key pay hsorted]
      simpa using hperm.mem_iff.2 (List.mem_cons_self _ _)
  · intro hyes
    have hm : (key, pay) ∈ m.map := by
      rw [hhas] at hyes
      simpa using hyes
    rw [if_pos hm] at hem
    exact ⟨_, hem, get_first_position _ _ hm⟩

/-- C23 on the example multimap: the key 5 has the payloads 0, 1 and 5; the payload 7 is put in
behind them, and the payload 1 is reported as stored, at position 2. -/
theorem emplace_spec_witness :
    example_multimap.emplace 5 7
      = ({ example_multimap with map := [(4, 4), (5, 0), (5, 1), (5, 5), (5, 7), (6, 6)] },
          outcome_t.returned (4, true)) ∧
    (example_multimap.emplace 5 7).1.count 5 = example_multimap.count 5 + 1 ∧
    (∃ it, example_multimap.emplace 5 1 = (example_multimap, outcome_t.returned (it, false)) ∧
      example_multimap.map.get? it = some (5, 1)) :=
  ⟨by decide,
   by
    obtain ⟨_, _, _, _, _, _, _, hcount, _⟩ :=
      (emplace_spec example_multimap 5 7 (by decide) (by decide)).1 (by decide)
    exact hcount,
   (emplace_spec example_multimap 5 1 (by decide) (by decide)).2.1 (by decide)⟩

/-- C24: in a multimap that is not read-only, `erase` returns 1 when the pair is stored and
takes out that one pair: the pairs afterwards, with the pair put back, are the pairs before,
every other pair, the other payloads of the key among them, stays; when no pair is stored
twice, `has` no longer finds the pair; when the pair is not stored, `erase` returns 0 and
leaves the multimap as it is. -/
theorem erase_spec {KEY_T PAY_T : Type} [LinearOrder KEY_T] [DecidableEq PAY_T]
    (m : multimap_flat_sorted_vector_t KEY_T PAY_T) (key : KEY_T) (pay : PAY_T)
    (hw : m.file_mode ≠ file_mode_type_t.READ_ONLY) (hs : keys_sorted m.map) :
    (m.has key pay = true →
      (m.erase key pay).2 = outcome_t.returned 1 ∧
      (m.erase key pay).1.file_mode = m.file_mode ∧
      (m.erase key pay).1.map = m.map.erase (key, pay) ∧
      m.map.Perm ((key, pay) :: (m.erase key pay).1.map) ∧
      (∀ x, x ≠ (key, pay) → (x ∈ (m.erase key pay).1.map ↔ x ∈ m.map)) ∧
      (m.erase key pay).1.size + 1 = m.size ∧
      keys_sorted (m.erase key pay).1.map ∧
      (m.map.Nodup → (m.erase key pay).1.has key pay = false)) ∧
    (m.has key pay = false → m.erase key pay = (m, outcome_t.returned 0)) ∧
    (m.has key pay = true ↔ (key, pay) ∈ m.map) := by
  have hhas := has_eq_mem m key pay hs
  have her := erase_eq m key pay hw hs
  refine ⟨?_, ?_, by rw [hhas]; simp⟩
  · intro hyes
    have hm : (key, pay) ∈ m.map := by
      rw [hhas] at hyes
      simpa using hyes
    rw [if_pos hm] at her
    rw [her]
    have hperm : m.map.Perm ((key, pay) :: m.map.erase (key, pay)) := perm_cons_erase_pair _ _ hm
    have hsorted : keys_sorted (m.map.erase (key, pay)) :=
      List.Pairwise.sublist (List.erase_sublist _ _) hs
    refine ⟨rfl, rfl, rfl, hperm, ?_, ?_, hsorted, ?_⟩
    · intro x hx
      exact List.mem_erase_of_ne hx
    · show (m.map.erase (key, pay)).length + 1 = m.map.length
      rw [hperm.length_eq]
      rfl
    · intro hnodup
      rw [has_eq_mem _ key pay hsorted, decide_eq_false_iff_not]
      exact fun h => ((List.Nodup.mem_erase_iff hnodup).1 h).1 rfl
  · intro hnot
    have hm : (key, pay) ∉ m.map := by
      rw [hhas] at hnot
      simpa using hnot
    rw [if_neg hm, List.erase_of_not_mem hm] at her
    exact her

/-- C24 on the example multimap: the payload 1 of the key 5 is taken out and the payloads 0 and
5 stay; the payload 7, which the key 5 does not have, and the key 9 give 0 and change
nothing. -/
theorem erase_spec_witness :
    example_multimap.erase 5 1
      = ({ example_multimap with map := [(4, 4), (5, 0), (5, 5), (6, 6)] },
          outcome_t.returned 1) ∧
    (example_multimap.erase 5 1).1.map = example_multimap.map.erase (5, 1) ∧
    example_multimap.erase 5 7 = (example_multimap, outcome_t.returned 0) ∧
    example_multimap.erase 9 0 = (example_multimap, outcome_t.returned 0) :=
  ⟨by decide,
   ((erase_spec example_multimap 5 1 (by decide) (by decide)).1 (by decide)).2.2.1,
   (erase_spec example_multimap 5 7 (by decide) (by decide)).2.1 (by decide),
   (erase_spec example_multimap 9 0 (by decide) (by decide)).2.1 (by decide)⟩

/-- C25: for a multimap whose pairs are in key order, `has` is true exactly when the pair is
stored; `find` returns `end()` exactly when `has` is false, and otherwise the first position
that holds the pair, so the pair at the position returned is equal to (key, pay). -/
theorem has_find_spec {KEY_T PAY_T : Type} [LinearOrder KEY_T] [DecidableEq PAY_T]
    (m : multimap_flat_sorted_vector_t KEY_T PAY_T) (key : KEY_T) (pay : PAY_T)
    (hs : keys_sorted m.map) :
    (m.has key pay = true ↔ (key, pay) ∈ m.map) ∧
    (m.find key pay = m.end_position ↔ m.has key pay = false) ∧
    (m.has key pay = true →
      m.find key pay < m.end_position ∧ m.map.get? (m.find key pay) = some (key, pay)) ∧
    m.find key pay = first_position (key, pay) m.map := by
  have hhas := has_eq_mem m key pay hs
  have hfind := find_eq_first_position m key pay hs
  refine ⟨by rw [hhas]; simp, ?_, ?_, hfind⟩
  · rw [hfind, hhas]
    show first_position (key, pay) m.map = m.map.length ↔ _
    rw [first_position_eq_length]
    simp
  · intro hyes
    have hm : (key, pay) ∈ m.map := by
      rw [hhas] at hyes
      simpa using hyes
    rw [hfind]
    refine ⟨?_, get_first_position _ _ hm⟩
    show first_position (key, pay) m.map < m.map.length
    exact lt_of_le_of_ne (first_position_le _ _)
      (fun h => (first_position_eq_length _ _).1 h hm)

/-- C25 on the example multimap: the key 5 has the payload 5, found at position 3, and not the
payload 6, for which `find` gives `end()`, position 5. -/
theorem has_find_spec_witness :
    (example_multimap.has 5 5 = true ∧ example_multimap.find 5 5 = 3) ∧
    (example_multimap.has 5 6 = false ∧ example_multimap.find 5 6 = 5) ∧
    (example_multimap.find 5 6 = example_multimap.end_position
      ↔ example_multimap.has 5 6 = false) :=
  ⟨by decide, by decide, (has_find_spec example_multimap 5 6 (by decide)).2.1⟩

/-- C26: on a multimap opened read-only, `emplace` and `erase` throw `std::runtime_error` for
every key and payload, stored or not, and leave the multimap as it is; `size` answers with the
number of pairs, and, the pairs being in key order, `has`, `find` and `count` answer as they do
in any mode: whether the pair is stored, its first position or `end()`, and the number of pairs
of the key. -/
theorem read_only_writes_throw {KEY_T PAY_T : Type} [LinearOrder KEY_T] [DecidableEq PAY_T]
    (m : multimap_flat_sorted_vector_t KEY_T PAY_T) (key : KEY_T) (pay : PAY_T)
    (hro : m.file_mode = file_mode_type_t.READ_ONLY) :
    m.emplace key pay = (m, outcome_t.runtime_error "Error: emplace called in RO mode") ∧
    m.erase key pay = (m, outcome_t.runtime_error "Error: erase called in RO mode") ∧
    m.size = m.map.length ∧
    (keys_sorted m.map →
      m.has key pay = decide ((key, pay) ∈ m.map) ∧
      m.find key pay = first_position (key, pay) m.map ∧
      m.count key = m.map.countP (fun e => decide (e.1 = key))) := by
  refine ⟨?_, ?_, rfl, ?_⟩
  · unfold multimap_flat_sorted_vector_t.emplace
    rw [if_pos hro]
  · unfold multimap_flat_sorted_vector_t.erase
    rw [if_pos hro]
  · intro hs
    exact ⟨has_eq_mem m key pay hs, find_eq_first_position m key pay hs,
      count_eq_countP m.map key hs⟩

/-- C26 on the example multimap opened read-only: the stored pair (5, 1) and the new pair (0, 0)
are both refused by `emplace` and by `erase`, while `has`, `find`, `count` and `size` answer. -/
theorem read_only_writes_throw_witness :
    (example_read_only_multimap.emplace 5 1
        = (example_read_only_multimap,
            outcome_t.runtime_error "Error: emplace called in RO mode") ∧
      example_read_only_multimap.erase 5 1
        = (example_read_only_multimap,
            outcome_t.runtime_error "Error: erase called in RO mode")) ∧
    example_read_only_multimap.emplace 0 0
      = (example_read_only_multimap,
          outcome_t.runtime_error "Error: emplace called in RO mode") ∧
    (example_read_only_multimap.has 5 1, example_read_only_multimap.find 5 1,
      example_read_only_multimap.count 5, example_read_only_multimap.size) = (true, 2, 3, 5) :=
  ⟨⟨(read_only_writes_throw example_read_only_multimap 5 1 rfl).1,
    (read_only_writes_throw example_read_only_multimap 5 1 rfl).2.1⟩,
   (read_only_writes_throw example_read_only_multimap 0 0 rfl).1,
   by decide⟩

/-! ### The multimap over a sequence of calls -/

theorem apply_invariant {KEY_T PAY_T : Type} [LinearOrder KEY_T] [DecidableEq PAY_T]
    (c : multimap_call_t KEY_T PAY_T) (m : multimap_flat_sorted_vector_t KEY_T PAY_T)
    (hw : m.file_mode ≠ file_mode_type_t.READ_ONLY) (hs : keys_sorted m.map)
    (hn : m.map.Nodup) :
    (c.apply m).file_mode ≠ file_mode_type_t.READ_ONLY ∧ keys_sorted (c.apply m).map ∧
    (c.apply m).map.Nodup ∧
    ∀ x, decide (x ∈ (c.apply m).map)
      = if c.pair = x then c.is_emplace else decide (x ∈ m.map) := by
  cases c with
  | emplace key pay =>
    show ((m.emplace key pay).1.file_mode ≠ _ ∧ keys_sorted (m.emplace key pay).1.map ∧
      (m.emplace key pay).1.map.Nodup ∧
      ∀ x, decide (x ∈ (m.emplace key pay).1.map)
        = if (key, pay) = x then true else decide (x ∈ m.map))
    rw [emplace_eq m key pay hw hs]
    by_cases hm : (key, pay) ∈ m.map
    · rw [if_pos hm]
      refine ⟨hw, hs, hn, ?_⟩
      intro x
      by_cases hx : (key, pay) = x
      · rw [if_pos hx, ← hx]
        simpa using hm
      · rw [if_neg hx]
    · rw [if_neg hm]
      have hperm := flat_multimap_emplace_perm m.map (key, pay)
      refine ⟨hw, flat_multimap_emplace_sorted m.map (key, pay) hs,
        hperm.nodup_iff.2 (List.nodup_cons.2 ⟨hm, hn⟩), ?_⟩
      intro x
      show decide (x ∈ flat_multimap_emplace m.map (key, pay)) = _
      by_cases hx : (key, pay) = x
      · rw [if_pos hx, ← hx]
        simpa using hperm.mem_iff.2 (List.mem_cons_self _ _)
      · rw [if_neg hx]
        have : x ∈ flat_multimap_emplace m.map (key, pay) ↔ x ∈ m.map := by
          rw [hperm.mem_iff, List.mem_cons]
          constructor
          · rintro (h | h)
            · exact absurd h.symm hx
            · exact h
          · exact Or.inr
        simp only [this]
  | erase key pay =>
    show ((m.erase key pay).1.file_mode ≠ _ ∧ keys_sorted (m.erase key pay).1.map ∧
      (m.erase key pay).1.map.Nodup ∧
      ∀ x, decide (x ∈ (m.erase key pay).1.map)
        = if (key, pay) = x then false else decide (x ∈ m.map))
    rw [erase_eq m key pay hw hs]
    refine ⟨hw, List.Pairwise.sublist (List.erase_sublist _ _) hs,
      List.Nodup.sublist (List.erase_sublist _ _) hn, ?_⟩
    intro x
    show decide (x ∈ m.map.erase (key, pay)) = _
    by_cases hx : (key, pay) = x
    · rw [if_pos hx, ← hx, decide_eq_false_iff_not]
      exact fun h => ((List.Nodup.mem_erase_iff hn).1 h).1 rfl
    · rw [if_neg hx]
      have : x ∈ m.map.erase (key, pay) ↔ x ∈ m.map := List.mem_erase_of_ne (Ne.symm hx)
      simp only [this]

theorem run_invariant {KEY_T PAY_T : Type} [LinearOrder KEY_T] [DecidableEq PAY_T]
    (calls : List (multimap_call_t KEY_T PAY_T)) :
    ∀ m : multimap_flat_sorted_vector_t KEY_T PAY_T,
      m.file_mode ≠ file_mode_type_t.READ_ONLY → keys_sorted m.map → m.map.Nodup →
      (m.run calls).file_mode ≠ file_mode_type_t.READ_ONLY ∧ keys_sorted (m.run calls).map ∧
      (m.run calls).map.Nodup ∧
      ∀ x, decide (x ∈ (m.run calls).map)
        = emplaced_and_not_erased x (decide (x ∈ m.map)) calls := by
  induction calls with
  | nil =>
    intro m hw hs hn
    exact ⟨hw, hs, hn, fun _ => rfl⟩
  | cons c rest ih =>
    intro m hw hs hn
    obtain ⟨hw1, hs1, hn1, hmem1⟩ := apply_invariant c m hw hs hn
    obtain ⟨hw2, hs2, hn2, hmem2⟩ := ih (c.apply m) hw1 hs1 hn1
    refine ⟨hw2, hs2, hn2, ?_⟩
    intro x
    show decide (x ∈ ((c.apply m).run rest).map)
      = emplaced_and_not_erased x (if c.pair = x then c.is_emplace else decide (x ∈ m.map))
          rest
    rw [hmem2 x, hmem1 x]

theorem emplaced_and_not_erased_named {KEY_T PAY_T : Type} [DecidableEq KEY_T]
    [DecidableEq PAY_T] (x : KEY_T × PAY_T) (calls : List (multimap_call_t KEY_T PAY_T)) :
    ∀ before, emplaced_and_not_erased x before calls = true →
      before = true ∨ x ∈ calls.map multimap_call_t.pair := by
  induction calls with
  | nil =>
    intro before h
    exact Or.inl h
  | cons c rest ih =>
    intro before h
    have h2 : emplaced_and_not_erased x (if c.pair = x then c.is_emplace else before) rest
        = true := h
    by_cases hx : c.pair = x
    · exact Or.inr (by rw [List.map_cons, ← hx]; exact List.mem_cons_self _ _)
    · rw [if_neg hx] at h2
      rcases ih before h2 with hb | hb
      · exact Or.inl hb
      · exact Or.inr (by rw [List.map_cons]; exact List.mem_cons_of_mem _ hb)

/-- C28: after every sequence of `emplace` and `erase` calls on a new multimap, no pair is
stored twice, the pairs are in key order, a pair is stored exactly when it was emplaced and not
erased since, and `size` is the number of the distinct pairs emplaced and not since erased;
and `emplace` of a pair that is not stored followed by `erase` of the same pair gives back the
multimap as it was. -/
theorem multimap_invariant {KEY_T PAY_T : Type} [LinearOrder KEY_T] [DecidableEq PAY_T]
    (calls : List (multimap_call_t KEY_T PAY_T)) :
    ((multimap_flat_sorted_vector_t.create KEY_T PAY_T).run calls).map.Nodup ∧
    keys_sorted ((multimap_flat_sorted_vector_t.create KEY_T PAY_T).run calls).map ∧
    (∀ x, x ∈ ((multimap_flat_sorted_vector_t.create KEY_T PAY_T).run calls).map
      ↔ emplaced_and_not_erased x false calls = true) ∧
    ((multimap_flat_sorted_vector_t.create KEY_T PAY_T).run calls).size
      = (live_pairs calls).length ∧
    ∀ key pay,
      ((multimap_flat_sorted_vector_t.create KEY_T PAY_T).run calls).has key pay = false →
      ((((multimap_flat_sorted_vector_t.create KEY_T PAY_T).run calls).emplace key pay).1.erase
        key pay).1 = (multimap_flat_sorted_vector_t.create KEY_T PAY_T).run calls := by
  obtain ⟨hw, hs, hn, hmem⟩ := run_invariant calls
    (multimap_flat_sorted_vector_t.create KEY_T PAY_T)
    (fun h => file_mode_type_t.noConfusion h) List.Pairwise.nil List.nodup_nil
  have hstored : ∀ x, x ∈ ((multimap_flat_sorted_vector_t.create KEY_T PAY_T).run calls).map
      ↔ emplaced_and_not_erased x false calls = true := by
    intro x
    have h := hmem x
    have h0 : decide (x ∈ (multimap_flat_sorted_vector_t.create KEY_T PAY_T).map) = false := by
      simp [multimap_flat_sorted_vector_t.create]
    rw [h0] at h
    rw [← h]
    simp
  refine ⟨hn, hs, hstored, ?_, ?_⟩
  · show ((multimap_flat_sorted_vector_t.create KEY_T PAY_T).run calls).map.length = _
    apply List.Perm.length_eq
    apply (List.perm_ext_iff_of_nodup hn ((List.nodup_dedup _).filter _)).2
    intro x
    rw [hstored x]
    show _ ↔ x ∈ List.filter (fun x => emplaced_and_not_erased x false calls)
      (List.map multimap_call_t.pair calls).dedup
    rw [List.mem_filter, List.mem_dedup]
    constructor
    · intro h
      refine ⟨?_, h⟩
      rcases emplaced_and_not_erased_named x calls false h with hb | hb
      · exact Bool.noConfusion hb
      · exact hb
    · exact fun h => h.2
  · intro key pay hnot
    clear hmem hstored
    generalize (multimap_flat_sorted_vector_t.create KEY_T PAY_T).run calls = m
      at hw hs hn hnot ⊢
    have hm : (key, pay) ∉ m.map := by
      rw [has_eq_mem _ key pay hs] at hnot
      simpa using hnot
    have h1 := emplace_eq m key pay hw hs
    rw [if_neg hm] at h1
    rw [h1]
    have h2 := erase_eq { m with map := flat_multimap_emplace m.map (key, pay) } key pay hw
      (flat_multimap_emplace_sorted m.map (key, pay) hs)
    show (multimap_flat_sorted_vector_t.erase
      { m with map := flat_multimap_emplace m.map (key, pay) } key pay).1 = m
    rw [h2]
    show ({ file_mode := m.file_mode,
            map := (flat_multimap_emplace m.map (key, pay)).erase (key, pay) } :
      multimap_flat_sorted_vector_t KEY_T PAY_T) = m
    rw [flat_multimap_emplace_erase _ _ hm]

/-- C28 on a sequence of calls: the pair (5, 1) is emplaced twice and (5, 0) is emplaced,
erased and emplaced again between pairs of the keys 7 and 2; four distinct pairs are left, in
key order; `emplace` and `erase` of the new pair (5, 9) give back the same multimap. -/
theorem multimap_invariant_witness :
    ((multimap_flat_sorted_vector_t.create Nat Nat).run
      [.emplace 5 1, .emplace 7 0, .emplace 5 0, .emplace 5 1, .erase 5 0, .emplace 2 3,
        .erase 9 9, .emplace 5 0]).map = [(2, 3), (5, 1), (5, 0), (7, 0)] ∧
    ((multimap_flat_sorted_vector_t.create Nat Nat).run
      [.emplace 5 1, .emplace 7 0, .emplace 5 0, .emplace 5 1, .erase 5 0, .emplace 2 3,
        .erase 9 9, .emplace 5 0]).size
      = (live_pairs ([.emplace 5 1, .emplace 7 0, .emplace 5 0, .emplace 5 1, .erase 5 0,
          .emplace 2 3, .erase 9 9, .emplace 5 0] : List (multimap_call_t Nat Nat))).length ∧
    (((multimap_flat_sorted_vector_t.create Nat Nat).run
      [.emplace 5 1, .emplace 7 0, .emplace 5 0, .emplace 5 1, .erase 5 0, .emplace 2 3,
        .erase 9 9, .emplace 5 0]).emplace 5 9).1.erase 5 9
      = ((multimap_flat_sorted_vector_t.create Nat Nat).run
          [.emplace 5 1, .emplace 7 0, .emplace 5 0, .emplace 5 1, .erase 5 0, .emplace 2 3,
            .erase 9 9, .emplace 5 0], outcome_t.returned 1) :=
  ⟨by decide,
   (multimap_invariant ([.emplace 5 1, .emplace 7 0, .emplace 5 0, .emplace 5 1, .erase 5 0,
      .emplace 2 3, .erase 9 9, .emplace 5 0] : List (multimap_call_t Nat Nat))).2.2.2.1,
   by decide⟩

end hashdb
